import Mathlib

/-!
# Verovio: sections, breaks and cast-off

A shallow embedding of `src/section.cpp` (the `Section`, `Pb` and `Sb`
objects and their functor methods) over an explicit object heap.

* Objects live in a heap addressed by natural numbers; a C++ pointer is an
  `Option Nat`, `none` being `NULL`.
* A failed `assert` and the fatal contract errors of the specification are
  the `error` results of `Except Fatal`.
* The parts of the repository that `section.cpp` calls but that are not in
  the source tree (`Object::Relinquish`, `Object::GetIdx`,
  `Object::MoveItselfTo`, `Object::SetParent`, the cast-off step of ordinary
  content and the traversal engine) are modelled from the specification; each
  such definition says so in its doc comment.
-/

namespace vrv

/-! ## Data model -/

/-- Modelled from the spec: the `ClassId` enumeration (vrvdef.h) is not in the
source. The kinds named in `section.cpp` are `ENDING`, `MEASURE`, `PB`, `SB`
and `SCOREDEF`; `SECTION`, `SYSTEM`, `PAGE` and `DOC` are the kinds of the
classes `Section`, `System`, and of the page and document containers of the
specification; `EDITORIAL_ELEMENT` stands for the kinds of the subclasses of
`EditorialElement`; `STAFF`, `LAYER` and `NOTE` are kinds below a measure; the
kinds from `ACCID` to `VERSE` are the other kinds of layer element that
`View::DrawLayerElement` names (view_element.cpp, lines 71-162);
`BOUNDARY_CONTINUATION` is the kind of the boundary-continuation wrappers of
the specification (section 4.4, rule 5). -/
inductive ClassId
  | DOC
  | PAGE
  | SYSTEM
  | SECTION
  | ENDING
  | MEASURE
  | PB
  | SB
  | SCOREDEF
  | EDITORIAL_ELEMENT
  | STAFF
  | LAYER
  | NOTE
  | ACCID
  | ARTIC
  | ARTIC_PART
  | BARLINE
  | BEAM
  | BEATRPT
  | BTREM
  | CHORD
  | CLEF
  | CUSTOS
  | DOT
  | DOTS
  | FTREM
  | FLAG
  | KEYSIG
  | LIGATURE
  | MENSUR
  | METERSIG
  | MREST
  | MRPT
  | MRPT2
  | MULTIREST
  | MULTIRPT
  | PROPORT
  | REST
  | SPACE
  | STEM
  | SYL
  | TUPLET
  | VERSE
  | BOUNDARY_CONTINUATION
  deriving DecidableEq

/-- Modelled from the spec: the members of `Object` (object.h) are not in the
source. `classId` is the value of `Is()`, `m_uuid` the identifier assigned at
creation, `m_parent` the non-owning back-reference (`none` is `NULL`),
`m_children` the ordered sequence of owned children and `m_boundary`, for a
boundary-continuation wrapper, the boundary start whose identity it carries
(section 4.4, rule 5; `none` for every other object). -/
structure Object where
  classId : ClassId
  m_uuid : String
  m_parent : Option Nat
  m_children : List Nat
  m_boundary : Option Nat := none
  deriving DecidableEq

/-- The object heap: the object stored at each address, and the first address
that no `new` has handed out yet. -/
structure Heap where
  objs : Nat → Object
  next : Nat

/-- The control signal a functor method returns (`FUNCTOR_CONTINUE`,
`FUNCTOR_SIBLINGS`, `FUNCTOR_STOP` of vrvdef.h). -/
inductive FunctorCode
  | FUNCTOR_CONTINUE
  | FUNCTOR_SIBLINGS
  | FUNCTOR_STOP
  deriving DecidableEq

/-- The ways a call can abort: a failed `assert`, the logged
`Adding child to parent` error of `AddChild` followed by `assert(false)`, and
a contract error of the specification (section 7). -/
inductive Fatal
  | assertion
  | unsupportedChild (child : ClassId) (parent : ClassId)
  | contract
  deriving DecidableEq

/-- Modelled from the spec: `CastOffSystemsParams` (functorparams.h) is not in
the source. `m_contentSystem` and `m_pendingObjects` are the two members
`section.cpp` uses (the pending queue is a vector of object pointers, so an
entry may be `NULL`); `m_doc`, `m_page` and `m_currentSystem` are the root
that receives the finished pages, the page being filled and the physical
system being filled, `m_systemWidth` and `m_pageHeight` the usable width of a
system and the usable height of a page (section 4.4 of the specification). -/
structure CastOffSystemsParams where
  m_contentSystem : Nat
  m_doc : Nat
  m_page : Nat
  m_currentSystem : Nat
  m_pendingObjects : List (Option Nat)
  m_systemWidth : Int
  m_pageHeight : Int
  deriving DecidableEq

/-- Modelled from the spec: `ConvertToPageBasedParams` (functorparams.h) is
not in the source; `m_pageBasedSystem` is the member `section.cpp` uses. -/
structure ConvertToPageBasedParams where
  m_pageBasedSystem : Nat
  deriving DecidableEq

/-- Replace the ordered children of the object at address `p`. -/
def Heap.setChildren (h : Heap) (p : Nat) (cs : List Nat) : Heap :=
  { h with objs := Function.update h.objs p { h.objs p with m_children := cs } }

/-- Replace the parent back-reference of the object at address `p`. -/
def Heap.setParent (h : Heap) (p : Nat) (parent : Option Nat) : Heap :=
  { h with objs := Function.update h.objs p { h.objs p with m_parent := parent } }

/-- Set the boundary start that the object at address `p` carries. -/
def Heap.setBoundary (h : Heap) (p : Nat) (b : Option Nat) : Heap :=
  { h with objs := Function.update h.objs p { h.objs p with m_boundary := b } }

/-- Modelled from the spec: the constructor of `Object` is not in the source.
The C++ `new T()`, `T` being the class of kind `c`, gives a fresh object
without parent or children at the first unused address; its identifier,
assigned at creation and never reused (section 3), is the prefix that the class
hands to `Object` followed by that address. -/
def Heap.alloc (h : Heap) (c : ClassId) (pre : String) : Heap × Nat :=
  ({ objs := Function.update h.objs h.next
        { classId := c, m_uuid := pre ++ toString h.next, m_parent := none, m_children := [] },
     next := h.next + 1 }, h.next)

/-- The C++ `dynamic_cast<T *>(p)`, `T` being the class of kind `c`: the
pointer itself when it is not `NULL` and the object is of that kind, `NULL`
otherwise. -/
def dynamic_cast (h : Heap) (c : ClassId) (p : Option Nat) : Option Nat :=
  match p with
  | none => none
  | some q => if (h.objs q).classId = c then some q else none

/-! ## Tree operations -/

/-- Modelled from the spec: `Object::GetIdx` is not in the source. It is the
`childIndex` handed to `relinquish` (section 4.2): the position of the node in
the ordered sequence of its parent. A node without a parent, or one that its
parent does not hold, is already detached, which is a fatal contract error
(section 7). -/
def Object.GetIdx (h : Heap) (this : Nat) : Except Fatal Nat :=
  match (h.objs this).m_parent with
  | none => .error .contract
  | some p =>
    if this ∈ (h.objs p).m_children then .ok ((h.objs p).m_children.indexOf this)
    else .error .contract

/-- Modelled from the spec: `Object::Relinquish` is not in the source. Section
4.2: it removes the child at `childIndex` from the ordered sequence of the
parent without destroying it and returns it to the caller; the remaining
children shift down and no identifier changes. An index that names no child is
a fatal contract error. -/
def Object.Relinquish (h : Heap) (this : Nat) (idx : Nat) : Except Fatal (Heap × Nat) :=
  match (h.objs this).m_children.get? idx with
  | none => .error .contract
  | some child => .ok (h.setChildren this ((h.objs this).m_children.eraseIdx idx), child)

/-! ## Cast-off functor methods of `section.cpp` -/

/-- The method `Section::CastOffSystems` of section.cpp (lines 168-182). -/
def Section.CastOffSystems (h : Heap) (params : CastOffSystemsParams) (this : Nat) :
    Except Fatal (Heap × CastOffSystemsParams × FunctorCode) :=
  -- assert(dynamic_cast<System *>(this->m_parent));
  match dynamic_cast h .SYSTEM (h.objs this).m_parent with
  | none => .error .assertion
  | some _ =>
    -- params->m_contentSystem->Relinquish(this->GetIdx())
    match Object.GetIdx h this with
    | .error e => .error e
    | .ok idx =>
      match Object.Relinquish h params.m_contentSystem idx with
      | .error e => .error e
      | .ok (h1, obj) =>
        let sec := dynamic_cast h1 .SECTION (some obj)
        -- params->m_pendingObjects.push_back(section);
        .ok (h1, { params with m_pendingObjects := params.m_pendingObjects ++ [sec] },
          .FUNCTOR_SIBLINGS)

/-- The method `Pb::CastOffSystems` of section.cpp (lines 198-212). -/
def Pb.CastOffSystems (h : Heap) (params : CastOffSystemsParams) (this : Nat) :
    Except Fatal (Heap × CastOffSystemsParams × FunctorCode) :=
  -- assert(dynamic_cast<System *>(this->m_parent));
  match dynamic_cast h .SYSTEM (h.objs this).m_parent with
  | none => .error .assertion
  | some _ =>
    -- params->m_contentSystem->Relinquish(this->GetIdx())
    match Object.GetIdx h this with
    | .error e => .error e
    | .ok idx =>
      match Object.Relinquish h params.m_contentSystem idx with
      | .error e => .error e
      | .ok (h1, obj) =>
        let pb := dynamic_cast h1 .PB (some obj)
        -- params->m_pendingObjects.push_back(pb);
        .ok (h1, { params with m_pendingObjects := params.m_pendingObjects ++ [pb] },
          .FUNCTOR_SIBLINGS)

/-- The method `Sb::CastOffSystems` of section.cpp (lines 228-242). -/
def Sb.CastOffSystems (h : Heap) (params : CastOffSystemsParams) (this : Nat) :
    Except Fatal (Heap × CastOffSystemsParams × FunctorCode) :=
  -- assert(dynamic_cast<System *>(this->m_parent));
  match dynamic_cast h .SYSTEM (h.objs this).m_parent with
  | none => .error .assertion
  | some _ =>
    -- params->m_contentSystem->Relinquish(this->GetIdx())
    match Object.GetIdx h this with
    | .error e => .error e
    | .ok idx =>
      match Object.Relinquish h params.m_contentSystem idx with
      | .error e => .error e
      | .ok (h1, obj) =>
        let sb := dynamic_cast h1 .SB (some obj)
        -- params->m_pendingObjects.push_back(sb);
        .ok (h1, { params with m_pendingObjects := params.m_pendingObjects ++ [sb] },
          .FUNCTOR_SIBLINGS)

/-- The node kinds whose `CastOffSystems` is defined in section.cpp. -/
def isSectionOrBreak (c : ClassId) : Bool :=
  c = .SECTION || c = .PB || c = .SB

/-- The explicit break markers, `Pb` and `Sb`. -/
def isBreakMarker (c : ClassId) : Bool :=
  c = .PB || c = .SB

/-- The virtual call `obj->CastOffSystems(params)` for the classes of
section.cpp: the method of the dynamic class of the object. The traversal
engine asserts on a node kind the operation does not support (specification,
section 4.1). -/
def castOffSectionOrBreak (h : Heap) (params : CastOffSystemsParams) (this : Nat) :
    Except Fatal (Heap × CastOffSystemsParams × FunctorCode) :=
  match (h.objs this).classId with
  | .SECTION => Section.CastOffSystems h params this
  | .PB => Pb.CastOffSystems h params this
  | .SB => Sb.CastOffSystems h params this
  | _ => .error .assertion

/-- The node `this` is a child of `parent`: its back-reference names `parent`
and `parent` holds it in its ordered sequence. -/
def IsChildOf (h : Heap) (this : Nat) (parent : Nat) : Prop :=
  (h.objs this).m_parent = some parent ∧ this ∈ (h.objs parent).m_children

instance (h : Heap) (this parent : Nat) : Decidable (IsChildOf h this parent) := by
  unfold IsChildOf; infer_instance

/-! ## Ownership transfer -/

/-- A node is held when the parent its back-reference names has it in its
ordered sequence. -/
def isHeld (h : Heap) (node : Nat) : Bool :=
  match (h.objs node).m_parent with
  | none => false
  | some p => decide (node ∈ (h.objs p).m_children)

/-- Modelled from the spec: `Object::SetParent` is not in the source. Section
4.2: the parent back-reference of the node is updated, as part of the
transfer of a previously-owned node to the parent. A node that a parent still
holds is not owned by the caller: giving it another parent is the fatal
contract error of an insert without prior ownership (section 7). -/
def Object.SetParent (h : Heap) (this : Nat) (parent : Nat) : Except Fatal Heap :=
  if isHeld h this then .error .contract
  else .ok (h.setParent this (some parent))

/-- Modelled from the spec: the `insert(parent, node, position)` of section 4.2
is not in the source. It inserts a previously-owned node into the sequence of
the parent at the position and updates the parent back-reference of the node.
A node that a parent still holds is not owned by the caller: inserting it is a
fatal contract error (section 7). -/
def Object.Insert (h : Heap) (parent : Nat) (node : Nat) (position : Nat) : Except Fatal Heap :=
  if isHeld h node then .error .contract
  else
    .ok ((h.setChildren parent ((h.objs parent).m_children.insertIdx position node)).setParent
      node (some parent))

/-- Modelled from the spec: `Object::MoveItselfTo` is not in the source. It is
the ownership transfer of section 2 and 4.2: the node is relinquished from its
parent at its own index and inserted into the target as its last child, which
keeps the nodes moved one after the other in document order. -/
def Object.MoveItselfTo (h : Heap) (this : Nat) (targetParent : Nat) : Except Fatal Heap :=
  match (h.objs this).m_parent with
  | none => .error .contract
  | some p =>
    match Object.GetIdx h this with
    | .error e => .error e
    | .ok idx =>
      match Object.Relinquish h p idx with
      | .error e => .error e
      | .ok (h1, obj) =>
        Object.Insert h1 targetParent obj (h1.objs targetParent).m_children.length

/-! ## Conversion to page-based -/

/-- The method `Section::ConvertToPageBased` of section.cpp (lines 130-138). -/
def Section.ConvertToPageBased (h : Heap) (params : ConvertToPageBasedParams) (this : Nat) :
    Except Fatal (Heap × FunctorCode) :=
  -- this->MoveItselfTo(params->m_pageBasedSystem);
  match Object.MoveItselfTo h this params.m_pageBasedSystem with
  | .error e => .error e
  | .ok h1 => .ok (h1, .FUNCTOR_CONTINUE)

/-- The method `Pb::ConvertToPageBased` of section.cpp (lines 188-196). -/
def Pb.ConvertToPageBased (h : Heap) (params : ConvertToPageBasedParams) (this : Nat) :
    Except Fatal (Heap × FunctorCode) :=
  -- this->MoveItselfTo(params->m_pageBasedSystem);
  match Object.MoveItselfTo h this params.m_pageBasedSystem with
  | .error e => .error e
  | .ok h1 => .ok (h1, .FUNCTOR_CONTINUE)

/-- The method `Sb::ConvertToPageBased` of section.cpp (lines 218-226). -/
def Sb.ConvertToPageBased (h : Heap) (params : ConvertToPageBasedParams) (this : Nat) :
    Except Fatal (Heap × FunctorCode) :=
  -- this->MoveItselfTo(params->m_pageBasedSystem);
  match Object.MoveItselfTo h this params.m_pageBasedSystem with
  | .error e => .error e
  | .ok h1 => .ok (h1, .FUNCTOR_CONTINUE)

/-- The virtual call `obj->ConvertToPageBased(params)` for the classes of
section.cpp. -/
def convertSectionOrBreak (h : Heap) (params : ConvertToPageBasedParams) (this : Nat) :
    Except Fatal (Heap × FunctorCode) :=
  match (h.objs this).classId with
  | .SECTION => Section.ConvertToPageBased h params this
  | .PB => Pb.ConvertToPageBased h params this
  | .SB => Sb.ConvertToPageBased h params this
  | _ => .error .assertion

/-- The conversion pass over nodes listed in document order: each node is
visited in turn, on the heap the visits before it have left. A visit that does
not answer `FUNCTOR_CONTINUE` ends the pass. -/
def convertNodes (h : Heap) (params : ConvertToPageBasedParams) :
    List Nat → Except Fatal Heap
  | [] => .ok h
  | n :: rest =>
    match convertSectionOrBreak h params n with
    | .error e => .error e
    | .ok (h1, .FUNCTOR_CONTINUE) => convertNodes h1 params rest
    | .ok (h1, _) => .ok h1

/-! ## Adding a child to a section -/

/-- Modelled from the spec: `Object::IsEditorialElement` is not in the source;
it holds of the kinds of the subclasses of `EditorialElement`. -/
def Object.IsEditorialElement (h : Heap) (this : Nat) : Bool :=
  (h.objs this).classId = .EDITORIAL_ELEMENT

/-- The method `Section::AddChild` of section.cpp (lines 50-78). `Modify` is
the method `Object::Modify`, which is not in the source and of which the
specification says nothing: it is a parameter. Each `assert` on a
`dynamic_cast` sits in the branch of the matching `Is()` test. -/
def Section.AddChild (Modify : Heap → Nat → Heap) (h : Heap) (this : Nat) (child : Nat) :
    Except Fatal Heap :=
  let checked : Except Fatal Unit :=
    if (h.objs child).classId = .ENDING then
      if dynamic_cast h .ENDING (some child) = none then .error .assertion else .ok ()
    else if (h.objs child).classId = .MEASURE then
      if dynamic_cast h .MEASURE (some child) = none then .error .assertion else .ok ()
    else if (h.objs child).classId = .PB then
      if dynamic_cast h .PB (some child) = none then .error .assertion else .ok ()
    else if (h.objs child).classId = .SB then
      if dynamic_cast h .SB (some child) = none then .error .assertion else .ok ()
    else if (h.objs child).classId = .SCOREDEF then
      if dynamic_cast h .SCOREDEF (some child) = none then .error .assertion else .ok ()
    else if Object.IsEditorialElement h child then
      if dynamic_cast h .EDITORIAL_ELEMENT (some child) = none then .error .assertion else .ok ()
    else
      -- LogError("Adding '%s' to a '%s'", ...); assert(false);
      .error (.unsupportedChild (h.objs child).classId (h.objs this).classId)
  match checked with
  | .error e => .error e
  | .ok _ =>
    -- child->SetParent(this);
    match Object.SetParent h child this with
    | .error e => .error e
    | .ok h1 =>
      -- m_children.push_back(child);
      let h2 := h1.setChildren this ((h1.objs this).m_children ++ [child])
      -- Modify();
      .ok (Modify h2 this)

/-- The child kinds that `Section::AddChild` accepts: one of the five kinds it
names, or an editorial element. -/
def isAcceptedBySection (h : Heap) (child : Nat) : Bool :=
  (h.objs child).classId = .ENDING || (h.objs child).classId = .MEASURE ||
    (h.objs child).classId = .PB || (h.objs child).classId = .SB ||
    (h.objs child).classId = .SCOREDEF || Object.IsEditorialElement h child

/-- A stand-in for `Object::Modify` that leaves the heap as it is. -/
def modifyNothing (h : Heap) (_this : Nat) : Heap := h

/-! ## The cast-off engine -/

/-- The kinds of ordinary content (specification, section 4.4, rule 2): a
measure, and the kinds other than the break markers that a section accepts as
a child, the heads of boundary regions among them. -/
def isOrdinaryContent (c : ClassId) : Bool :=
  c = .MEASURE || c = .ENDING || c = .SCOREDEF || c = .EDITORIAL_ELEMENT

/-- Modelled from the spec: the metrics provider is not in the source; `ext`
stands for it. The extent of a node is what the provider returns for it, a
negative extent counting as zero (sections 6 and 7); a boundary-continuation
wrapper is a zero-width marker (section 4.4, rule 5). -/
def nodeExtent (ext : Heap → Nat → Int) (h : Heap) (n : Nat) : Int :=
  if (h.objs n).classId = .BOUNDARY_CONTINUATION then 0 else max (ext h n) 0

/-- Modelled from the spec: the classes of the containers (`System`, `Page`)
are not in the source. The cumulative extent that a container carries is the
sum of the extents of its children (section 3). -/
def cumulativeExtent (ext : Heap → Nat → Int) (h : Heap) (container : Nat) : Int :=
  ((h.objs container).m_children.map (nodeExtent ext h)).sum

/-- The physical systems already finalised, in order: the systems of the pages
under the root, then the systems of the page being filled. -/
def finishedSystems (h : Heap) (params : CastOffSystemsParams) : List Nat :=
  ((h.objs params.m_doc).m_children.map (fun pg => (h.objs pg).m_children)).flatten ++
    (h.objs params.m_page).m_children

/-- The nodes laid out so far, in order: the children of the finalised systems,
then those of the system being filled. -/
def placedNodes (h : Heap) (params : CastOffSystemsParams) : List Nat :=
  ((finishedSystems h params ++ [params.m_currentSystem]).map
    (fun s => (h.objs s).m_children)).flatten

/-- Modelled from the spec: the state `BREAK_PENDING` that an explicit break
marker forces (section 4.4, rule 1) is not in the source. The methods of `Pb`
and `Sb` in section.cpp only move the marker to the pending queue, so the
state is read off the queue: a break is pending when the queue holds a break
marker. -/
def breakPending (h : Heap) (params : CastOffSystemsParams) : Bool :=
  params.m_pendingObjects.any (fun e =>
    match e with
    | some n => isBreakMarker (h.objs n).classId
    | none => false)

/-- Modelled from the spec: Boundary Tracking (section 4.3) is not in the
source; `isOpenAt` stands for its query `isOpenAt(node, position)`, the
position of a break being given by the seed of the next system. The regions
that a break before `seed` would split (section 4.4, rule 5) are those of the
nodes laid out so far, wrappers apart, that the query reports open. -/
def openBoundaries (isOpenAt : Heap → Nat → Nat → Bool) (h : Heap)
    (params : CastOffSystemsParams) (seed : Nat) : List Nat :=
  (placedNodes h params).filter
    (fun b => decide ((h.objs b).classId ≠ .BOUNDARY_CONTINUATION) && isOpenAt h b seed)

/-- Modelled from the spec: the creation of a boundary-continuation wrapper is
not in the source. Section 4.4, rule 5, and section 6: the wrapper is a new
object with an identifier of its own that carries the identity of the
boundary start `b`. -/
def Heap.allocContinuation (h : Heap) (b : Nat) : Heap × Nat :=
  ((h.alloc .BOUNDARY_CONTINUATION "boundary-").1.setBoundary
    (h.alloc .BOUNDARY_CONTINUATION "boundary-").2 (some b),
   (h.alloc .BOUNDARY_CONTINUATION "boundary-").2)

/-- Modelled from the spec: the code that re-opens the boundaries on a new
system is not in the source. Section 4.4, rule 5: for each region that the
break splits, in order, a boundary-continuation wrapper is created and becomes
the last child of the system. -/
def reopenBoundaries (h : Heap) (system : Nat) : List Nat → Except Fatal Heap
  | [] => .ok h
  | b :: rest =>
    match Object.Insert (h.allocContinuation b).1 system (h.allocContinuation b).2
        ((h.allocContinuation b).1.objs system).m_children.length with
    | .error e => .error e
    | .ok h1 => reopenBoundaries h1 system rest

/-- Modelled from the spec: the code that empties the pending queue is not in
the source. The queue is drained, in order, into the system, each node becoming
its last child (section 4.4, rule 4). A `NULL` entry is no node to insert: a
fatal contract error. -/
def drainPending (h : Heap) (system : Nat) : List (Option Nat) → Except Fatal Heap
  | [] => .ok h
  | none :: _ => .error .contract
  | some n :: rest =>
    match Object.Insert h system n (h.objs system).m_children.length with
    | .error e => .error e
    | .ok h1 => drainPending h1 system rest

/-- Modelled from the spec: the finalisation of the current physical system
(section 4.4, rule 4) is not in the source. The system is inserted as the last
child of the current page; by the same logic one level up, when the page
already holds systems and the system would exceed the usable page height, the
page is finalised (inserted as the last child of the root) and the system
seeds a new page. -/
def flushSystem (ext : Heap → Nat → Int) (h : Heap) (params : CastOffSystemsParams) :
    Except Fatal (Heap × CastOffSystemsParams) :=
  if (h.objs params.m_page).m_children ≠ [] ∧
      cumulativeExtent ext h params.m_page + nodeExtent ext h params.m_currentSystem >
        params.m_pageHeight then
    match Object.Insert h params.m_doc params.m_page (h.objs params.m_doc).m_children.length with
    | .error e => .error e
    | .ok h1 =>
      match Object.Insert (h1.alloc .PAGE "page-").1 (h1.alloc .PAGE "page-").2
          params.m_currentSystem 0 with
      | .error e => .error e
      | .ok h3 => .ok (h3, { params with m_page := (h1.alloc .PAGE "page-").2 })
  else
    match Object.Insert h params.m_page params.m_currentSystem
        (h.objs params.m_page).m_children.length with
    | .error e => .error e
    | .ok h1 => .ok (h1, params)

/-- Modelled from the spec: `Measure::CastOffSystems` and the `CastOffSystems`
of the other kinds of ordinary content are not in the source. Section 4.4,
rules 1 to 6: when a break is pending (an explicit break marker has been
reached), whatever space remains, or when the current system already holds
content and the node would exceed the usable width, the node is the seed of
the next system: it is relinquished from the content system onto the pending
queue, the current system is finalised, a new system is opened, the boundaries
that the break splits are re-opened on it and the pending queue is drained
into it. Otherwise the node is relinquished and added to the current system.
Either way the sibling sequence was mutated and the answer is
`FUNCTOR_SIBLINGS`. -/
def castOffContent (ext : Heap → Nat → Int) (isOpenAt : Heap → Nat → Nat → Bool) (h : Heap)
    (params : CastOffSystemsParams) (this : Nat) :
    Except Fatal (Heap × CastOffSystemsParams × FunctorCode) :=
  match Object.GetIdx h this with
  | .error e => .error e
  | .ok idx =>
    match Object.Relinquish h params.m_contentSystem idx with
    | .error e => .error e
    | .ok (h1, obj) =>
      if breakPending h params = true ∨
          ((h.objs params.m_currentSystem).m_children ≠ [] ∧
            cumulativeExtent ext h params.m_currentSystem + nodeExtent ext h this >
              params.m_systemWidth) then
        match flushSystem ext h1 params with
        | .error e => .error e
        | .ok (h2, params2) =>
          match reopenBoundaries (h2.alloc .SYSTEM "system-").1 (h2.alloc .SYSTEM "system-").2
              (openBoundaries isOpenAt h params obj) with
          | .error e => .error e
          | .ok h3 =>
            match drainPending h3 (h2.alloc .SYSTEM "system-").2
                (params.m_pendingObjects ++ [some obj]) with
            | .error e => .error e
            | .ok h4 =>
              .ok (h4, { params2 with m_currentSystem := (h2.alloc .SYSTEM "system-").2,
                                      m_pendingObjects := [] }, .FUNCTOR_SIBLINGS)
      else
        match Object.Insert h1 params.m_currentSystem obj
            (h1.objs params.m_currentSystem).m_children.length with
        | .error e => .error e
        | .ok h2 => .ok (h2, params, .FUNCTOR_SIBLINGS)

/-- Modelled from the spec: the functor dispatch of the traversal engine is not
in the source. The virtual call `obj->CastOffSystems(params)` on a child of the
content system runs the step of ordinary content for a measure, an ending, a
scoreDef or an editorial element, and the method of section.cpp for a section
or a break; the engine asserts on a node kind the operation does not support
(section 4.1). -/
def castOffVisit (ext : Heap → Nat → Int) (isOpenAt : Heap → Nat → Nat → Bool) (h : Heap)
    (params : CastOffSystemsParams) (this : Nat) :
    Except Fatal (Heap × CastOffSystemsParams × FunctorCode) :=
  if isOrdinaryContent (h.objs this).classId then castOffContent ext isOpenAt h params this
  else castOffSectionOrBreak h params this

/-- Modelled from the spec: the traversal of the children of the content
system is not in the source. Section 4.4, rule 6: after a visit that answers
`FUNCTOR_SIBLINGS` the engine resumes with the node now at the same index, the
first one; the traversal is over when the content system is exhausted. `fuel`
bounds the number of visits: the result is `none` when it runs out before the
content system is exhausted. Any other answer ends the traversal. -/
def castOffTraverse (ext : Heap → Nat → Int) (isOpenAt : Heap → Nat → Nat → Bool) :
    Nat → Heap → CastOffSystemsParams → Except Fatal (Option (Heap × CastOffSystemsParams))
  | fuel, h, params =>
    match (h.objs params.m_contentSystem).m_children with
    | [] => .ok (some (h, params))
    | c :: _ =>
      match fuel with
      | 0 => .ok none
      | fuel1 + 1 =>
        match castOffVisit ext isOpenAt h params c with
        | .error e => .error e
        | .ok (h1, params1, .FUNCTOR_SIBLINGS) => castOffTraverse ext isOpenAt fuel1 h1 params1
        | .ok (h1, params1, _) => .ok (some (h1, params1))

/-- Modelled from the spec: the terminal step of cast-off is not in the source.
Section 4.4: the final system is flushed, and one level up the final page is
inserted as the last child of the root. Nodes still on the pending queue stay
there: they are absorbed without a new system. -/
def castOffEnd (ext : Heap → Nat → Int) (h : Heap) (params : CastOffSystemsParams) :
    Except Fatal (Heap × CastOffSystemsParams) :=
  match flushSystem ext h params with
  | .error e => .error e
  | .ok (h1, params1) =>
    match Object.Insert h1 params1.m_doc params1.m_page
        (h1.objs params1.m_doc).m_children.length with
    | .error e => .error e
    | .ok h2 => .ok (h2, params1)

/-- Modelled from the spec: the driver of the cast-off pass is not in the
source. The pass is the traversal of the content system followed by the
terminal step (section 4.4). -/
def castOffDoc (ext : Heap → Nat → Int) (isOpenAt : Heap → Nat → Nat → Bool) (fuel : Nat)
    (h : Heap) (params : CastOffSystemsParams) :
    Except Fatal (Option (Heap × CastOffSystemsParams)) :=
  match castOffTraverse ext isOpenAt fuel h params with
  | .error e => .error e
  | .ok none => .ok none
  | .ok (some (h1, params1)) =>
    match castOffEnd ext h1 params1 with
    | .error e => .error e
    | .ok r => .ok (some r)

/-- The measures among the nodes of a list, in order. -/
def measuresIn (h : Heap) (l : List Nat) : List Nat :=
  l.filter (fun n => (h.objs n).classId = .MEASURE)

/-- The measures of a physical system, in order. -/
def systemMeasures (h : Heap) (system : Nat) : List Nat :=
  measuresIn h (h.objs system).m_children

/-- The measures of a page: those of its systems, in order. -/
def pageMeasures (h : Heap) (page : Nat) : List Nat :=
  ((h.objs page).m_children.map (systemMeasures h)).flatten

/-- The measures of the physical tree under the root: those of its pages, in
order. -/
def docMeasures (h : Heap) (doc : Nat) : List Nat :=
  ((h.objs doc).m_children.map (pageMeasures h)).flatten

/-- A node that the conversion pass can move: a section or a break whose
parent is not the target and holds the node exactly once. -/
def isMovable (h : Heap) (target : Nat) (n : Nat) : Bool :=
  isSectionOrBreak (h.objs n).classId &&
    match (h.objs n).m_parent with
    | none => false
    | some p => decide (p ≠ target) && decide ((h.objs p).m_children.count n = 1)

/-- The content system is a system whose children are sections, page breaks
and system breaks, each with its back-reference on the content system. -/
def ContentOfSectionsAndBreaks (h : Heap) (params : CastOffSystemsParams) : Prop :=
  (h.objs params.m_contentSystem).classId = .SYSTEM ∧
  ∀ c ∈ (h.objs params.m_contentSystem).m_children,
    (h.objs c).m_parent = some params.m_contentSystem ∧
    isSectionOrBreak (h.objs c).classId = true

instance (h : Heap) (params : CastOffSystemsParams) :
    Decidable (ContentOfSectionsAndBreaks h params) := by
  unfold ContentOfSectionsAndBreaks; infer_instance

/-! ## The state of a cast-off pass -/

/-- The measures laid out so far, in order: those of the finalised systems,
then those of the system being filled. -/
def laidOut (h : Heap) (params : CastOffSystemsParams) : List Nat :=
  ((finishedSystems h params ++ [params.m_currentSystem]).map (systemMeasures h)).flatten

/-- The state in which a cast-off pass starts: the content system, the root,
the page and the system to fill are four distinct objects; the physical tree is
empty and free, nothing is pending; the children of the content system are
distinct nodes with their back-reference on it, each one a section, a break or
ordinary content (a measure, an ending, a scoreDef or an editorial element). -/
def CastOffStart (h : Heap) (params : CastOffSystemsParams) : Prop :=
  (h.objs params.m_contentSystem).classId = .SYSTEM ∧
  (params.m_contentSystem < h.next ∧ params.m_doc < h.next ∧ params.m_page < h.next ∧
    params.m_currentSystem < h.next) ∧
  (params.m_doc ≠ params.m_contentSystem ∧ params.m_page ≠ params.m_contentSystem ∧
    params.m_currentSystem ≠ params.m_contentSystem ∧ params.m_page ≠ params.m_doc ∧
    params.m_currentSystem ≠ params.m_doc ∧ params.m_currentSystem ≠ params.m_page) ∧
  ((h.objs params.m_doc).m_children = [] ∧ (h.objs params.m_page).m_children = [] ∧
    (h.objs params.m_currentSystem).m_children = []) ∧
  ((h.objs params.m_currentSystem).m_parent = none ∧ (h.objs params.m_page).m_parent = none) ∧
  params.m_pendingObjects = [] ∧
  (h.objs params.m_contentSystem).m_children.Nodup ∧
  ∀ c ∈ (h.objs params.m_contentSystem).m_children,
    (h.objs c).m_parent = some params.m_contentSystem ∧ c < h.next ∧
    c ≠ params.m_currentSystem ∧ c ≠ params.m_page ∧
    (isOrdinaryContent (h.objs c).classId = true ∨ isSectionOrBreak (h.objs c).classId = true)

instance (h : Heap) (params : CastOffSystemsParams) : Decidable (CastOffStart h params) := by
  unfold CastOffStart; infer_instance

/-- The invariant of a cast-off pass: the containers are distinct objects
below the allocation frontier, the page and the system being filled are free,
the nodes of the content system and of the pending queue are distinct, refer
back to the content system and are none of the page or system being filled. -/
structure CastOffInv (h : Heap) (params : CastOffSystemsParams) : Prop where
  cs_system : (h.objs params.m_contentSystem).classId = .SYSTEM
  cs_lt : params.m_contentSystem < h.next
  doc_lt : params.m_doc < h.next
  page_lt : params.m_page < h.next
  cur_lt : params.m_currentSystem < h.next
  doc_ne_cs : params.m_doc ≠ params.m_contentSystem
  page_ne_cs : params.m_page ≠ params.m_contentSystem
  cur_ne_cs : params.m_currentSystem ≠ params.m_contentSystem
  page_ne_doc : params.m_page ≠ params.m_doc
  cur_ne_doc : params.m_currentSystem ≠ params.m_doc
  cur_ne_page : params.m_currentSystem ≠ params.m_page
  pages : ∀ pg ∈ (h.objs params.m_doc).m_children,
    pg < h.next ∧ pg ≠ params.m_contentSystem ∧ pg ≠ params.m_doc ∧ pg ≠ params.m_page ∧
      pg ≠ params.m_currentSystem
  systems : ∀ s ∈ finishedSystems h params,
    s < h.next ∧ s ≠ params.m_contentSystem ∧ s ≠ params.m_doc ∧ s ≠ params.m_page ∧
      s ≠ params.m_currentSystem
  placed : ∀ s ∈ finishedSystems h params ++ [params.m_currentSystem],
    ∀ n ∈ (h.objs s).m_children, n < h.next
  cur_free : (h.objs params.m_currentSystem).m_parent = none
  page_free : (h.objs params.m_page).m_parent = none
  content : ∀ c ∈ (h.objs params.m_contentSystem).m_children,
    (h.objs c).m_parent = some params.m_contentSystem ∧ c < h.next ∧
    c ≠ params.m_currentSystem ∧ c ≠ params.m_page ∧
    (isOrdinaryContent (h.objs c).classId = true ∨ isSectionOrBreak (h.objs c).classId = true)
  pending : ∀ e ∈ params.m_pendingObjects, ∃ n, e = some n ∧
    (h.objs n).m_parent = some params.m_contentSystem ∧ n < h.next ∧
    n ≠ params.m_currentSystem ∧ n ≠ params.m_page ∧
    isSectionOrBreak (h.objs n).classId = true
  nodup : (params.m_pendingObjects ++
    (h.objs params.m_contentSystem).m_children.map some).Nodup

/-- What finalising the system being filled leaves behind: `h2` is the heap
and `page2` the page being filled after the flush of the state `h`, `params`.
The system has joined the finalised systems, no system has changed its
children, and old objects keep their kind and, the flushed system and page
apart, their parent. -/
structure FlushPost (h : Heap) (params : CastOffSystemsParams) (h2 : Heap) (page2 : Nat) :
    Prop where
  next_le : h.next ≤ h2.next
  page_lt : page2 < h2.next
  page_old_or_new : page2 = params.m_page ∨ h.next ≤ page2
  page_ne_cs : page2 ≠ params.m_contentSystem
  page_ne_doc : page2 ≠ params.m_doc
  page_free : (h2.objs page2).m_parent = none
  pages : ∀ pg ∈ (h2.objs params.m_doc).m_children,
    pg < h2.next ∧ pg ≠ params.m_contentSystem ∧ pg ≠ params.m_doc ∧ pg ≠ page2
  finished : finishedSystems h2 { params with m_page := page2 } =
    finishedSystems h params ++ [params.m_currentSystem]
  systems : ∀ s ∈ finishedSystems h params ++ [params.m_currentSystem],
    (h2.objs s).m_children = (h.objs s).m_children
  content : (h2.objs params.m_contentSystem).m_children =
    (h.objs params.m_contentSystem).m_children
  kinds : ∀ q, q < h.next → (h2.objs q).classId = (h.objs q).classId
  parents : ∀ q, q < h.next → q ≠ params.m_currentSystem → q ≠ params.m_page →
    (h2.objs q).m_parent = (h.objs q).m_parent

/-! ## Boundaries and drawing reset of a section -/

/-- The method `Section::PrepareBoundaries` of section.cpp (lines 150-157).
`IsBoundary` and `BoundaryStartInterface::InterfacePrepareBoundaries` are not
in the source and the specification does not give their bodies: they are
parameters, and so is the type `P` of the functor parameters. The value that
the interface method returns is dropped, as in the source. -/
def Section.PrepareBoundaries {P : Type} (IsBoundary : Heap → Nat → Bool)
    (InterfacePrepareBoundaries : Heap → P → Nat → Except Fatal (Heap × P × FunctorCode))
    (h : Heap) (functorParams : P) (this : Nat) : Except Fatal (Heap × P × FunctorCode) :=
  if IsBoundary h this then
    -- this->BoundaryStartInterface::InterfacePrepareBoundaries(functorParams);
    match InterfacePrepareBoundaries h functorParams this with
    | .error e => .error e
    | .ok (h1, params1, _) => .ok (h1, params1, .FUNCTOR_CONTINUE)
  else
    .ok (h, functorParams, .FUNCTOR_CONTINUE)

/-- The method `Section::ResetDrawing` of section.cpp (lines 159-166), with
`IsBoundary` and `BoundaryStartInterface::InterfaceResetDrawing` as
parameters. -/
def Section.ResetDrawing {P : Type} (IsBoundary : Heap → Nat → Bool)
    (InterfaceResetDrawing : Heap → P → Nat → Except Fatal (Heap × P × FunctorCode))
    (h : Heap) (functorParams : P) (this : Nat) : Except Fatal (Heap × P × FunctorCode) :=
  if IsBoundary h this then
    -- this->BoundaryStartInterface::InterfaceResetDrawing(functorParams);
    match InterfaceResetDrawing h functorParams this with
    | .error e => .error e
    | .ok (h1, params1, _) => .ok (h1, params1, .FUNCTOR_CONTINUE)
  else
    .ok (h, functorParams, .FUNCTOR_CONTINUE)

/-- What a functor method leaves when the interface method it may call has
run: the heap and parameters of the interface method, answered with
`FUNCTOR_CONTINUE`. -/
def continueAfter {P : Type} (r : Except Fatal (Heap × P × FunctorCode)) :
    Except Fatal (Heap × P × FunctorCode) :=
  match r with
  | .error e => .error e
  | .ok (h1, params1, _) => .ok (h1, params1, .FUNCTOR_CONTINUE)

/-! ## Construction -/

/-- The constructor `Section::Section` of section.cpp (lines 30-36): the
object is built by `Object("section-")`. The registration of the attribute
classes and `Reset` touch nothing of the tree and are left out. -/
def Section.ctor (h : Heap) : Heap × Nat :=
  h.alloc .SECTION "section-"

/-- The constructor `Pb::Pb` of section.cpp (lines 84-90): the object is built
by `Object("pb-")`. -/
def Pb.ctor (h : Heap) : Heap × Nat :=
  h.alloc .PB "pb-"

/-- The constructor `Sb::Sb` of section.cpp (lines 107-113): the object is
built by `Object("pb-")`, as the source has it. -/
def Sb.ctor (h : Heap) : Heap × Nat :=
  h.alloc .SB "pb-"

/-! ## The traversal, visit by visit -/

/-- Modelled from the spec: the traversal of the children of the content
system is not in the source. This is `castOffTraverse` stopped after at most
`k` visits: the heap and the parameters the traversal has reached then. -/
def castOffAfter (ext : Heap → Nat → Int) (isOpenAt : Heap → Nat → Nat → Bool) :
    Nat → Heap → CastOffSystemsParams → Except Fatal (Heap × CastOffSystemsParams)
  | 0, h, params => .ok (h, params)
  | k + 1, h, params =>
    match (h.objs params.m_contentSystem).m_children with
    | [] => .ok (h, params)
    | c :: _ =>
      match castOffVisit ext isOpenAt h params c with
      | .error e => .error e
      | .ok (h1, params1, .FUNCTOR_SIBLINGS) => castOffAfter ext isOpenAt k h1 params1
      | .ok (h1, params1, _) => .ok (h1, params1)

/-! ## The view: positions on the staff -/

/-- Modelled from the spec: the enumeration `data_STAFFREL` (atttypes.h) is not
in the source; `STAFFREL_above` and `STAFFREL_below` are the values that
view_element.cpp names, the other two stand for the remaining placements. -/
inductive data_STAFFREL
  | STAFFREL_NONE
  | STAFFREL_above
  | STAFFREL_below
  | STAFFREL_within
  deriving DecidableEq

/-- The two kinds of articulation part, `ARTIC_PART_INSIDE` and
`ARTIC_PART_OUTSIDE` (artic.h is not in the source). -/
inductive ArticPartType
  | ARTIC_PART_INSIDE
  | ARTIC_PART_OUTSIDE
  deriving DecidableEq

/-- What the view reads of a `Staff` (staff.h is not in the source): the value
of `GetDrawingY()` and the member `m_drawingStaffSize`. -/
structure Staff where
  drawingY : Int
  m_drawingStaffSize : Int
  deriving DecidableEq

/-- The metrics that the view asks of `m_doc` (doc.h is not in the source):
they are parameters. C++ `int` values are integers: the operations of the
methods that place an articulation on the staff wrap around (`wrapInt`), the
other drawing methods are taken without overflow. -/
structure Doc where
  GetDrawingUnit : Int → Int
  GetDrawingStaffSize : Int → Int
  GetDrawingDoubleUnit : Int → Int
  GetDrawingStemWidth : Int → Int
  GetDrawingBeamWidth : Int → Bool → Int
  GetDrawingBeamWhiteWidth : Int → Bool → Int
  GetGlyphWidth : Nat → Int → Bool → Int
  GetCueSize : Int → Int

/-- The least value of a C++ `int` of 32 bits. -/
def INT_MIN : Int := -2147483648

/-- The greatest value of a C++ `int` of 32 bits. -/
def INT_MAX : Int := 2147483647

/-- The value that a C++ `int` of 32 bits holds when the exact result of an
operation is `x`: the result wraps around in two's complement. -/
def wrapInt (x : Int) : Int :=
  (x + 2147483648) % 4294967296 - 2147483648

/-- The method `View::IsOnStaffLine` of view_element.cpp (lines 1603-1610);
the C++ `%` is the truncated remainder, and `-` and `*` wrap around. -/
def View.IsOnStaffLine (m_doc : Doc) (y : Int) (staff : Staff) : Bool :=
  (wrapInt (y - staff.drawingY)).tmod
    (wrapInt (2 * m_doc.GetDrawingUnit staff.m_drawingStaffSize)) == 0

/-- The method `View::GetNearestInterStaffPosition` of view_element.cpp (lines
1612-1624); the C++ `%` is the truncated remainder, and `+` and `-` wrap
around. -/
def View.GetNearestInterStaffPosition (m_doc : Doc) (y : Int) (staff : Staff)
    (place : data_STAFFREL) : Int :=
  let yPos := wrapInt (y - staff.drawingY)
  let distance := yPos.tmod (m_doc.GetDrawingUnit staff.m_drawingStaffSize)
  if place = .STAFFREL_above then
    let distance1 :=
      if distance > 0 then wrapInt (m_doc.GetDrawingUnit staff.m_drawingStaffSize - distance)
      else distance
    wrapInt (wrapInt (y - distance1) + m_doc.GetDrawingUnit staff.m_drawingStaffSize)
  else
    let distance1 :=
      if distance < 0 then wrapInt (m_doc.GetDrawingUnit staff.m_drawingStaffSize + distance)
      else distance
    wrapInt (wrapInt (y - distance1) - m_doc.GetDrawingUnit staff.m_drawingStaffSize)

/-- The placement of one articulation in the loop of `View::DrawArticPart`
(view_element.cpp, lines 289-304): the value of `y` after the statement, from
the kind and place of the articulation part, the shift `yShift` computed at
the top of the method and the value of `y` before. The C++ `+`, `-` and `*`
wrap around. -/
def View.DrawArticPart_placeY (m_doc : Doc) (type : ArticPartType) (place : data_STAFFREL)
    (staff : Staff) (yShift : Int) (y : Int) : Int :=
  let direction : Int := if place = .STAFFREL_above then 1 else -1
  if type = .ARTIC_PART_INSIDE then
    -- If we are above the top of the staff, just pile them up
    if place = .STAFFREL_above ∧ y > staff.drawingY then wrapInt (y + yShift)
    -- If we are below the bottom, just pile the down
    else if place = .STAFFREL_below ∧
        y < wrapInt (staff.drawingY - m_doc.GetDrawingStaffSize staff.m_drawingStaffSize) then
      wrapInt (y - yShift)
    -- Otherwise make it fit the staff space
    else
      let y1 := View.GetNearestInterStaffPosition m_doc y staff place
      if View.IsOnStaffLine m_doc y1 staff then
        wrapInt (y1 + wrapInt (m_doc.GetDrawingUnit staff.m_drawingStaffSize * direction))
      else y1
  else
    -- Artic part outside just need to be piled up or down
    wrapInt (y + wrapInt (yShift * direction))

/-- A document whose drawing unit is 10 and whose staves are 80 high. -/
def sampleDoc : Doc where
  GetDrawingUnit := fun _ => 10
  GetDrawingStaffSize := fun _ => 80
  GetDrawingDoubleUnit := fun _ => 20
  GetDrawingStemWidth := fun _ => 2
  GetDrawingBeamWidth := fun _ _ => 10
  GetDrawingBeamWhiteWidth := fun _ _ => 5
  GetGlyphWidth := fun _ _ _ => 24
  GetCueSize := fun v => (v * 3).tdiv 5

/-- A staff whose top line is drawn at 0. -/
def sampleStaff : Staff where
  drawingY := 0
  m_drawingStaffSize := 100

/-! ## The view: key signatures -/

/-- Modelled from the spec: the enumeration `data_ACCIDENTAL_EXPLICIT`
(atttypes.h) is not in the source; `ACCIDENTAL_EXPLICIT_f` is the value that
view_element.cpp names, the others stand for the sharp, the natural and no
accidental. -/
inductive data_ACCIDENTAL_EXPLICIT
  | ACCIDENTAL_EXPLICIT_NONE
  | ACCIDENTAL_EXPLICIT_s
  | ACCIDENTAL_EXPLICIT_f
  | ACCIDENTAL_EXPLICIT_n
  deriving DecidableEq

/-- Modelled from the spec: the enumeration `ElementScoreDefRole` (vrvdef.h) is
not in the source; `SYSTEM_SCOREDEF` is the value that view_element.cpp names,
the others stand for the remaining roles. -/
inductive ElementScoreDefRole
  | NONE
  | SYSTEM_SCOREDEF
  | INTERMEDIATE_SCOREDEF
  | REDRAW_SCOREDEF
  deriving DecidableEq

/-- The SMuFL code point of the flat. -/
def SMUFL_E260_accidentalFlat : Nat := 0xE260

/-- The SMuFL code point of the natural. -/
def SMUFL_E261_accidentalNatural : Nat := 0xE261

/-- The SMuFL code point of the sharp. -/
def SMUFL_E262_accidentalSharp : Nat := 0xE262

/-- What `View::DrawKeySig` reads of a `KeySig` (keysig.h is not in the
source): the identifier, the values of `GetDrawingX()`, `GetAlterationNumber()`,
`GetAlterationType()` and `GetScoreDefRole()`, and the drawing members. The
counts are C++ integers. -/
structure KeySig where
  m_uuid : String
  drawingX : Int
  m_drawingShow : Bool
  m_drawingShowchange : Bool
  alterationNumber : Int
  alterationType : data_ACCIDENTAL_EXPLICIT
  m_drawingCancelAccidCount : Int
  m_drawingCancelAccidType : data_ACCIDENTAL_EXPLICIT
  scoreDefRole : ElementScoreDefRole
  deriving DecidableEq

/-- The calls that a drawing method makes on the device context and on the
drawing primitives of the view, in order: `StartGraphic` with the identifier
of the element, `DrawSmuflCode` with the position and the code point of the
glyph, `DrawObliquePolygon` with its two corners and its height,
`DrawFilledRectangle` with its two corners, `SetPen` with the colour and the
width, `SetBrush` with the colour, `DrawLine` with its two ends, `ResetPen`,
`ResetBrush`, `EndGraphic`. -/
inductive DcEvent
  | StartGraphic (uuid : String)
  | DrawSmuflCode (x : Int) (y : Int) (code : Nat)
  | DrawObliquePolygon (x1 : Int) (y1 : Int) (x2 : Int) (y2 : Int) (height : Int)
  | DrawFilledRectangle (x1 : Int) (y1 : Int) (x2 : Int) (y2 : Int)
  | SetPen (colour : Int) (width : Int)
  | SetBrush (colour : Int)
  | DrawLine (x1 : Int) (y1 : Int) (x2 : Int) (y2 : Int)
  | ResetPen
  | ResetBrush
  | EndGraphic
  deriving DecidableEq

/-- What a drawing method leaves: whether it has called `SetEmptyBB` on the
element, and the calls it has made on the device context. -/
structure Drawn where
  setEmptyBB : Bool
  events : List DcEvent
  deriving DecidableEq

/-- One of the three loops of `View::DrawKeySig` (view_element.cpp, lines
832-840, 844-852 and 856-868): `n` iterations from the index `i` and the
position `x`; each draws the glyph `code` at `x`, at the height `accidY i` of
the alteration of index `i`, and moves `x` one step to the right. The result
is the calls made and the value of `x` after the loop. -/
def drawAccidLoop (accidY : Int → Int) (code : Nat) (step : Int) :
    Nat → Int → Int → List DcEvent × Int
  | 0, _, x => ([], x)
  | n + 1, i, x =>
    (.DrawSmuflCode x (accidY i) code ::
        (drawAccidLoop accidY code step n (i + 1) (x + step)).1,
      (drawAccidLoop accidY code step n (i + 1) (x + step)).2)

/-- The method `View::DrawKeySig` of view_element.cpp (lines 779-871). `clef`
is the result of `layer->GetClef(element)` (`none` is `NULL`), `step` the value
computed for the local `step` and `accidY c type i` the `y` computed for the
alteration of index `i` of an accidental type under the clef `c`, from
`KeySig::GetAlterationAt`, `KeySig::GetOctave`, `PitchInterface::CalcLoc` and
`Staff::CalcPitchPosYRel`, none of which is in the source: they are
parameters. A loop `for (i = a; i < b; i++)` runs `(b - a).toNat` times. -/
def View.DrawKeySig (accidY : Nat → data_ACCIDENTAL_EXPLICIT → Int → Int) (step : Int)
    (clef : Option Nat) (keySig : KeySig) : Drawn :=
  match clef with
  | none => { setEmptyBB := true, events := [] }
  | some c =>
    -- hidden key signature
    if !keySig.m_drawingShow then { setEmptyBB := true, events := [] }
    -- C major (0) key sig and no cancellation
    else if keySig.alterationNumber = 0 ∧ keySig.m_drawingCancelAccidCount = 0 then
      { setEmptyBB := true, events := [] }
    -- C major (0) key sig and system scoreDef
    else if keySig.scoreDefRole = .SYSTEM_SCOREDEF ∧ keySig.alterationNumber = 0 then
      { setEmptyBB := true, events := [] }
    else
      let naturals : List DcEvent × Int :=
        if keySig.scoreDefRole ≠ .SYSTEM_SCOREDEF ∧
            (keySig.alterationNumber = 0 ∨ keySig.m_drawingShowchange = true) then
          if keySig.alterationType ≠ keySig.m_drawingCancelAccidType then
            drawAccidLoop (accidY c keySig.m_drawingCancelAccidType) SMUFL_E261_accidentalNatural
              step keySig.m_drawingCancelAccidCount.toNat 0 keySig.drawingX
          else if keySig.alterationNumber < keySig.m_drawingCancelAccidCount then
            drawAccidLoop (accidY c keySig.m_drawingCancelAccidType) SMUFL_E261_accidentalNatural
              step (keySig.m_drawingCancelAccidCount - keySig.alterationNumber).toNat
              keySig.alterationNumber keySig.drawingX
          else ([], keySig.drawingX)
        else ([], keySig.drawingX)
      let symb :=
        if keySig.alterationType = .ACCIDENTAL_EXPLICIT_f then SMUFL_E260_accidentalFlat
        else SMUFL_E262_accidentalSharp
      let accids := drawAccidLoop (accidY c keySig.alterationType) symb step
        keySig.alterationNumber.toNat 0 naturals.2
      { setEmptyBB := false,
        events := .StartGraphic keySig.m_uuid :: (naturals.1 ++ accids.1 ++ [.EndGraphic]) }

/-- Whether a call on the device context is `StartGraphic`. -/
def DcEvent.isStartGraphic : DcEvent → Bool
  | .StartGraphic _ => true
  | _ => false

/-- Whether a call on the device context is `EndGraphic`. -/
def DcEvent.isEndGraphic : DcEvent → Bool
  | .EndGraphic => true
  | _ => false

/-- The number of iterations that the cancellation loops of `View::DrawKeySig`
make (view_element.cpp, lines 828-854): the bound of the loop of the branch
taken, none when the block or both branches are skipped. -/
def keySigCancelIterations (keySig : KeySig) : Nat :=
  if keySig.scoreDefRole ≠ .SYSTEM_SCOREDEF ∧
      (keySig.alterationNumber = 0 ∨ keySig.m_drawingShowchange = true) then
    if keySig.alterationType ≠ keySig.m_drawingCancelAccidType then
      keySig.m_drawingCancelAccidCount.toNat
    else if keySig.alterationNumber < keySig.m_drawingCancelAccidCount then
      (keySig.m_drawingCancelAccidCount - keySig.alterationNumber).toNat
    else 0
  else 0

/-- The condition under which `View::DrawKeySig` returns before drawing, in
the words of the claim: no clef, a hidden key signature, no alteration and no
cancellation, or no alteration in the system scoreDef. -/
def keySigNotDrawn_spec (clef : Option Nat) (keySig : KeySig) : Prop :=
  clef = none ∨ keySig.m_drawingShow = false ∨
    (keySig.alterationNumber = 0 ∧ keySig.m_drawingCancelAccidCount = 0) ∨
    (keySig.alterationNumber = 0 ∧ keySig.scoreDefRole = .SYSTEM_SCOREDEF)

instance (clef : Option Nat) (keySig : KeySig) : Decidable (keySigNotDrawn_spec clef keySig) := by
  unfold keySigNotDrawn_spec; infer_instance

/-- What `View::DrawLayerElement` reads and writes of the `View` (view.h is
not in the source): the member `m_currentColour` and the pointer
`m_currentElement` to the highlighted element (`none` is `NULL`). -/
structure View where
  m_currentColour : Int
  m_currentElement : Option Nat
  deriving DecidableEq

/-- Modelled from the spec: the enumeration `data_PLACE` (atttypes.h) is not in
the source; these are the three values that view_element.cpp names. -/
inductive data_PLACE
  | PLACE_NONE
  | PLACE_above
  | PLACE_below
  deriving DecidableEq

/-- The SMuFL code point of the half notehead. -/
def SMUFL_E0A3_noteheadHalf : Nat := 0xE0A3

/-- What the drawing methods read of a `LayerElement` (layerelement.h is not
in the source): the kind, the identifier, the value of `GetDrawingX()`, the
methods `GetDrawingTop` and `GetDrawingBottom`, the value of `GetFermata()`
(`none` when the element is not an `AttFermatapresent`, so that the
`dynamic_cast` gives `NULL`), and whether `IsInBeam()` gives a beam.
`GetDrawingTop` and `GetDrawingBottom` take the document, the staff size and
the two arguments that a call may leave to their defaults (`none` is an
argument left out). -/
structure LayerElement where
  classId : ClassId
  m_uuid : String
  drawingX : Int
  GetDrawingTop : Doc → Int → Option Bool → Option ArticPartType → Int
  GetDrawingBottom : Doc → Int → Option Bool → Option ArticPartType → Int
  fermata : Option data_PLACE
  isInBeam : Bool

/-- Modelled from the spec: the enumeration `data_STEMMODIFIER` (atttypes.h) is
not in the source. `STEMMODIFIER_NONE` and the six slash values are the ones
that view_element.cpp names; `STEMMODIFIER_none`, `STEMMODIFIER_sprech` and
`STEMMODIFIER_z` stand for the remaining stem modifiers. -/
inductive data_STEMMODIFIER
  | STEMMODIFIER_NONE
  | STEMMODIFIER_none
  | STEMMODIFIER_1slash
  | STEMMODIFIER_2slash
  | STEMMODIFIER_3slash
  | STEMMODIFIER_4slash
  | STEMMODIFIER_5slash
  | STEMMODIFIER_6slash
  | STEMMODIFIER_sprech
  | STEMMODIFIER_z
  deriving DecidableEq

/-- Modelled from the spec: the enumeration `data_STEMDIRECTION` (atttypes.h)
is not in the source; these are the three values that view_element.cpp
names. -/
inductive data_STEMDIRECTION
  | STEMDIRECTION_NONE
  | STEMDIRECTION_up
  | STEMDIRECTION_down
  deriving DecidableEq

/-- Modelled from the spec: the enumeration `data_DURATION` (atttypes.h) and
the names `DUR_...` of its values (vrvdef.h) are not in the source. The
values from `DUR_LG` to `DUR_256`, but for `DUR_4`, are the ones that
view_element.cpp names; `DURATION_NONE`, `DUR_MX` and `DUR_4` stand for no
duration, the maxima and the quarter. -/
inductive data_DURATION
  | DURATION_NONE
  | DUR_MX
  | DUR_LG
  | DUR_BR
  | DUR_1
  | DUR_2
  | DUR_4
  | DUR_8
  | DUR_16
  | DUR_32
  | DUR_64
  | DUR_128
  | DUR_256
  deriving DecidableEq

/-- A `Point`: its two members. -/
structure Point where
  x : Int
  y : Int
  deriving DecidableEq

/-- Modelled from the spec: the enumeration `data_GRACE` (atttypes.h) is not
in the source; `GRACE_unacc` is the value that view_element.cpp names, the
others stand for no grace, the accented grace and the unknown one. -/
inductive data_GRACE
  | GRACE_NONE
  | GRACE_acc
  | GRACE_unacc
  | GRACE_unknown
  deriving DecidableEq

/-- What the drawing methods read of a `Stem` (stem.h is not in the source):
the identifier and the values of `GetStemMod()`, `GetDrawingX()`,
`GetDrawingY()`, `GetDrawingStemLen()`, `GetGrace()` and
`GetDrawingStemDir()`. -/
structure Stem where
  m_uuid : String
  stemMod : data_STEMMODIFIER
  drawingX : Int
  drawingY : Int
  drawingStemLen : Int
  grace : data_GRACE
  drawingStemDir : data_STEMDIRECTION
  deriving DecidableEq

/-- What `View::DrawBTrem` reads of a `Chord` (chord.h is not in the source),
a layer element: the values of `GetDur()`, `GetDrawingStem()` (`none` is
`NULL`), `GetDrawingStemDir()` and `GetDrawingStemStart(...)`. -/
structure Chord extends LayerElement where
  dur : data_DURATION
  drawingStem : Option Stem
  drawingStemDir : data_STEMDIRECTION
  drawingStemStart : Point

/-- What `View::DrawBTrem` reads of a `Note` (note.h is not in the source), a
layer element: the values of `GetDur()`, `GetDrawingStem()` (`none` is `NULL`),
`IsCueSize()`, `GetDrawingStemDir()` and `GetDrawingStemStart(...)`. -/
structure Note extends LayerElement where
  dur : data_DURATION
  drawingStem : Option Stem
  isCueSize : Bool
  drawingStemDir : data_STEMDIRECTION
  drawingStemStart : Point

/-- What `View::DrawBTrem` reads of a `BTrem` (btrem.h is not in the source):
the identifier, the results of `dynamic_cast<Chord *>(FindChildByType(CHORD))`
and of `dynamic_cast<Note *>(FindChildByType(NOTE))` (`none` is `NULL`), and
the values of `HasMeasperf()` and `GetMeasperf()`. -/
structure BTrem where
  m_uuid : String
  childChord : Option Chord
  childNote : Option Note
  hasMeasperf : Bool
  measperf : data_DURATION

/-- The values that `View::DrawBTrem` takes from the chord or note child
(view_element.cpp, lines 410-422 and 433-446): the locals `childElement`,
`drawingDur`, `stemDir`, `stemMod`, `stemPoint` and `drawingCueSize`. -/
structure BTremChild where
  childElement : LayerElement
  drawingDur : Int
  stemDir : data_STEMDIRECTION
  stemMod : data_STEMMODIFIER
  stemPoint : Point
  drawingCueSize : Bool

/-- Lines 410-422 and 433-446 of `View::DrawBTrem`: the values taken from the
chord child, or else from the note child; `none` when there is neither
(`childElement` is `NULL`). `intOfDur` gives the integer of a duration: it is
a parameter. -/
def View.DrawBTrem_child (intOfDur : data_DURATION → Int) (bTrem : BTrem) : Option BTremChild :=
  match bTrem.childChord with
  | some childChord =>
    some {
      childElement := childChord.toLayerElement
      drawingDur := intOfDur childChord.dur
      stemDir := childChord.drawingStemDir
      stemMod :=
        match childChord.drawingStem with
        | some stem => stem.stemMod
        | none => .STEMMODIFIER_NONE
      stemPoint := childChord.drawingStemStart
      drawingCueSize := false }
  | none =>
    match bTrem.childNote with
    | some childNote =>
      some {
        childElement := childNote.toLayerElement
        drawingDur := intOfDur childNote.dur
        stemDir := childNote.drawingStemDir
        stemMod :=
          match childNote.drawingStem with
          | some stem => stem.stemMod
          | none => .STEMMODIFIER_NONE
        stemPoint := childNote.drawingStemStart
        drawingCueSize := childNote.isCueSize }
    | none => none

/-- Lines 448-458 of `View::DrawBTrem`: the stem modifier after the `switch`
on the `measperf` of the tremolo. -/
def View.DrawBTrem_measperf (bTrem : BTrem) (stemMod : data_STEMMODIFIER) : data_STEMMODIFIER :=
  if bTrem.hasMeasperf then
    match bTrem.measperf with
    | .DUR_8 => .STEMMODIFIER_1slash
    | .DUR_16 => .STEMMODIFIER_2slash
    | .DUR_32 => .STEMMODIFIER_3slash
    | .DUR_64 => .STEMMODIFIER_4slash
    | .DUR_128 => .STEMMODIFIER_5slash
    | .DUR_256 => .STEMMODIFIER_6slash
    | _ => stemMod
  else stemMod

/-- The loop of `View::DrawBTrem` (view_element.cpp, lines 502-505): `n`
iterations from the height `y`; each draws one oblique polygon and moves `y`
by one step. -/
def drawSlashLoop (x width height step : Int) : Nat → Int → List DcEvent
  | 0, _ => []
  | n + 1, y =>
    .DrawObliquePolygon (x - width.tdiv 2) y (x + width.tdiv 2) (y + height) height ::
      drawSlashLoop x width height step n (y + step)

/-- Lines 460-505 of `View::DrawBTrem`: the slashes drawn, from the values of
the child and the stem modifier after the `switch`. `intOfDur` and
`intOfStemMod` give the integers of the durations and of the stem modifiers:
they are parameters. The loop `for (s = 1; s < stemMod; s++)` runs
`(stemMod - 1).toNat` times; the C++ `/` is the truncated quotient. -/
def View.DrawBTrem_slashes (m_doc : Doc) (intOfDur : data_DURATION → Int)
    (intOfStemMod : data_STEMMODIFIER → Int) (staff : Staff) (child : BTremChild)
    (stemMod : data_STEMMODIFIER) : List DcEvent :=
  let beamWidthBlack := m_doc.GetDrawingBeamWidth staff.m_drawingStaffSize child.drawingCueSize
  let beamWidthWhite :=
    m_doc.GetDrawingBeamWhiteWidth staff.m_drawingStaffSize child.drawingCueSize
  let width :=
    m_doc.GetGlyphWidth SMUFL_E0A3_noteheadHalf staff.m_drawingStaffSize child.drawingCueSize
  let height := (beamWidthBlack * 7).tdiv 10
  let step := height + beamWidthWhite
  let start : Int × Int × Int :=
    if child.stemDir = .STEMDIRECTION_up then
      if child.drawingDur > intOfDur .DUR_1 then
        -- Since we are adding the slashing on the stem, ignore artic
        (child.stemPoint.x,
          child.childElement.GetDrawingTop m_doc staff.m_drawingStaffSize (some false) none
            - 3 * height,
          -step)
      else
        -- Take into account artic (not likely, though)
        (child.childElement.drawingX,
          child.childElement.GetDrawingTop m_doc staff.m_drawingStaffSize none none
            + m_doc.GetDrawingUnit staff.m_drawingStaffSize * 3,
          -step)
    else
      if child.drawingDur > intOfDur .DUR_1 then
        -- Idem as above
        (child.stemPoint.x + m_doc.GetDrawingStemWidth staff.m_drawingStaffSize,
          child.childElement.GetDrawingBottom m_doc staff.m_drawingStaffSize (some false) none
            + 1 * height,
          step)
      else
        (child.childElement.drawingX,
          child.childElement.GetDrawingBottom m_doc staff.m_drawingStaffSize none none
            - m_doc.GetDrawingUnit staff.m_drawingStaffSize * 5,
          step)
  let x := start.1
  let y := start.2.1
  let step := start.2.2
  let y :=
    if child.childElement.isInBeam then
      let beamStep :=
        (child.drawingDur - intOfDur .DUR_8) * (beamWidthBlack + beamWidthWhite) + beamWidthWhite
      y + (if child.stemDir = .STEMDIRECTION_down then beamStep else -beamStep)
    else y
  -- by default draw 3 slashes (e.g., for a temolo on a whole note)
  let stemMod := if stemMod = .STEMMODIFIER_NONE then .STEMMODIFIER_3slash else stemMod
  drawSlashLoop x width height step (intOfStemMod stemMod - 1).toNat y

/-- The method `View::DrawBTrem` of view_element.cpp (lines 389-508).
`drawLayerChildren` is what `DrawLayerChildren` draws (view_page.cpp is not in
the source): it is a parameter, as are `intOfDur` and `intOfStemMod`. The
values of the child are those it has when they are read. -/
def View.DrawBTrem (m_doc : Doc) (intOfDur : data_DURATION → Int)
    (intOfStemMod : data_STEMMODIFIER → Int) (drawLayerChildren : List DcEvent)
    (bTrem : BTrem) (staff : Staff) : Drawn :=
  match View.DrawBTrem_child intOfDur bTrem with
  | none => { setEmptyBB := true, events := [] }
  | some child =>
    { setEmptyBB := false,
      events := .StartGraphic bTrem.m_uuid ::
        (drawLayerChildren ++
          View.DrawBTrem_slashes m_doc intOfDur intOfStemMod staff child
            (View.DrawBTrem_measperf bTrem child.stemMod) ++
          [.EndGraphic]) }

/-- The number of slashes that a `measperf` asks for, in the words of the
specification: 1 to 6 for an 8th to a 256th; the other values ask for
nothing. -/
def measperfSlashes_spec : data_DURATION → Option Nat
  | .DUR_8 => some 1
  | .DUR_16 => some 2
  | .DUR_32 => some 3
  | .DUR_64 => some 4
  | .DUR_128 => some 5
  | .DUR_256 => some 6
  | _ => none

/-- The number of slashes that the stem modifier of the child gives, in the
words of the specification: `k` for a `k`-slash modifier and 3 when there is
no stem modifier; the specification says nothing of the other modifiers. -/
def stemModSlashes_spec : data_STEMMODIFIER → Option Nat
  | .STEMMODIFIER_NONE => some 3
  | .STEMMODIFIER_1slash => some 1
  | .STEMMODIFIER_2slash => some 2
  | .STEMMODIFIER_3slash => some 3
  | .STEMMODIFIER_4slash => some 4
  | .STEMMODIFIER_5slash => some 5
  | .STEMMODIFIER_6slash => some 6
  | _ => none

/-- The number of slashes of a tremolo, in the words of the specification:
the number that the `measperf` asks for, when it has one and it is an 8th to
a 256th, and otherwise the number that the stem modifier of the child
gives. -/
def bTremSlashes_spec (bTrem : BTrem) (childStemMod : data_STEMMODIFIER) : Option Nat :=
  match (if bTrem.hasMeasperf then measperfSlashes_spec bTrem.measperf else none) with
  | some n => some n
  | none => stemModSlashes_spec childStemMod

/-- The integers of the stem modifiers when the enumeration counts from 0 in
the order of its declaration. -/
def sampleIntOfStemMod : data_STEMMODIFIER → Int
  | .STEMMODIFIER_NONE => 0
  | .STEMMODIFIER_none => 1
  | .STEMMODIFIER_1slash => 2
  | .STEMMODIFIER_2slash => 3
  | .STEMMODIFIER_3slash => 4
  | .STEMMODIFIER_4slash => 5
  | .STEMMODIFIER_5slash => 6
  | .STEMMODIFIER_6slash => 7
  | .STEMMODIFIER_sprech => 8
  | .STEMMODIFIER_z => 9

/-- The integers of the durations when the enumeration counts from 0 in the
order of its declaration. -/
def sampleIntOfDur : data_DURATION → Int
  | .DURATION_NONE => 0
  | .DUR_MX => 1
  | .DUR_LG => 2
  | .DUR_BR => 3
  | .DUR_1 => 4
  | .DUR_2 => 5
  | .DUR_4 => 6
  | .DUR_8 => 7
  | .DUR_16 => 8
  | .DUR_32 => 9
  | .DUR_64 => 10
  | .DUR_128 => 11
  | .DUR_256 => 12

/-- A half note with its stem up and a two-slash stem modifier. -/
def sampleTremNote : Note where
  classId := .NOTE
  m_uuid := "note-2"
  drawingX := 200
  GetDrawingTop := fun _ _ _ _ => 40
  GetDrawingBottom := fun _ _ _ _ => -20
  fermata := none
  isInBeam := false
  dur := .DUR_2
  drawingStem := some {
    m_uuid := "stem-2"
    stemMod := .STEMMODIFIER_2slash
    drawingX := 206
    drawingY := -20
    drawingStemLen := -60
    grace := .GRACE_NONE
    drawingStemDir := .STEMDIRECTION_up }
  isCueSize := false
  drawingStemDir := .STEMDIRECTION_up
  drawingStemStart := { x := 206, y := -20 }

/-- A tremolo on the sample note, with a `measperf` of a 32nd. -/
def sampleBTrem : BTrem where
  m_uuid := "btrem-1"
  childChord := none
  childNote := some sampleTremNote
  hasMeasperf := true
  measperf := .DUR_32

/-! ## The view: stems -/

/-- A sample heap: the content system at address 0 holds a section (1), a page
break (2), a system break (3) and a measure (4); address 5 is the page being
filled, address 6 the physical system being filled, which already holds the
measure at address 7, and address 8 the root of the physical tree. -/
def sampleHeap : Heap where
  objs := fun p =>
    match p with
    | 0 => { classId := .SYSTEM, m_uuid := "system-0", m_parent := none, m_children := [1, 2, 3, 4] }
    | 1 => { classId := .SECTION, m_uuid := "section-1", m_parent := some 0, m_children := [] }
    | 2 => { classId := .PB, m_uuid := "pb-2", m_parent := some 0, m_children := [] }
    | 3 => { classId := .SB, m_uuid := "pb-3", m_parent := some 0, m_children := [] }
    | 4 => { classId := .MEASURE, m_uuid := "measure-4", m_parent := some 0, m_children := [] }
    | 5 => { classId := .PAGE, m_uuid := "page-5", m_parent := none, m_children := [] }
    | 6 => { classId := .SYSTEM, m_uuid := "system-6", m_parent := none, m_children := [7] }
    | 7 => { classId := .MEASURE, m_uuid := "measure-7", m_parent := some 6, m_children := [] }
    | 8 => { classId := .DOC, m_uuid := "doc-8", m_parent := none, m_children := [] }
    | _ => { classId := .NOTE, m_uuid := "", m_parent := none, m_children := [] }
  next := 9

/-- The cast-off parameters that go with `sampleHeap`, nothing pending yet. -/
def sampleParams : CastOffSystemsParams where
  m_contentSystem := 0
  m_doc := 8
  m_page := 5
  m_currentSystem := 6
  m_pendingObjects := []
  m_systemWidth := 35
  m_pageHeight := 100

/-- The sample heap with the measure taken out of the content system, which
then holds a section, a page break and a system break. -/
def sampleBreaksHeap : Heap :=
  sampleHeap.setChildren 0 [1, 2, 3]

/-- Scenario C of the specification: the content system at address 0 holds ten
measures (addresses 1 to 10) with a system break (address 11) after the second
one; address 12 is the root, 13 the page and 14 the system being filled. -/
def scenarioCHeap : Heap where
  objs := fun p =>
    if p = 0 then
      { classId := .SYSTEM, m_uuid := "system-0", m_parent := none,
        m_children := [1, 2, 11, 3, 4, 5, 6, 7, 8, 9, 10] }
    else if p ≤ 10 then
      { classId := .MEASURE, m_uuid := "measure-", m_parent := some 0, m_children := [] }
    else if p = 11 then
      { classId := .SB, m_uuid := "pb-11", m_parent := some 0, m_children := [] }
    else if p = 12 then
      { classId := .DOC, m_uuid := "doc-12", m_parent := none, m_children := [] }
    else if p = 13 then
      { classId := .PAGE, m_uuid := "page-13", m_parent := none, m_children := [] }
    else
      { classId := .SYSTEM, m_uuid := "system-14", m_parent := none, m_children := [] }
  next := 15

/-- The parameters of scenario C: usable width 35, and a page high enough for
every system. -/
def scenarioCParams : CastOffSystemsParams where
  m_contentSystem := 0
  m_doc := 12
  m_page := 13
  m_currentSystem := 14
  m_pendingObjects := []
  m_systemWidth := 35
  m_pageHeight := 1000

/-- The metrics of scenario C: every measure is 10 units wide, every other
node has no extent. -/
def scenarioCExtent (h : Heap) (n : Nat) : Int :=
  if (h.objs n).classId = .MEASURE then 10 else 0

/-- Boundary tracking for a score without boundary regions: no region is open
at any position. -/
def noOpenBoundary (_h : Heap) (_node : Nat) (_position : Nat) : Bool := false

/-- The measures of each system of each page of the physical tree that a
cast-off pass has produced, if it has produced one. -/
def castOffLayout (doc : Nat) (r : Except Fatal (Option (Heap × CastOffSystemsParams))) :
    Option (List (List (List Nat))) :=
  match r with
  | .ok (some (h, _)) =>
    some ((h.objs doc).m_children.map
      (fun page => (h.objs page).m_children.map (systemMeasures h)))
  | _ => none

/-- A sample score of mixed content: the content system at address 0 holds a
scoreDef (1), a section (2), two measures (3, 4), an ending (5), two measures
(6, 7), a system break (8), a measure (9), an editorial element (10) and a
measure (11); address 12 is the root, 13 the page and 14 the system being
filled. -/
def sampleMixedHeap : Heap where
  objs := fun p =>
    if p = 0 then
      { classId := .SYSTEM, m_uuid := "system-0", m_parent := none,
        m_children := [1, 2, 3, 4, 5, 6, 7, 8, 9, 10, 11] }
    else if p = 1 then
      { classId := .SCOREDEF, m_uuid := "scoredef-1", m_parent := some 0, m_children := [] }
    else if p = 2 then
      { classId := .SECTION, m_uuid := "section-2", m_parent := some 0, m_children := [] }
    else if p = 5 then
      { classId := .ENDING, m_uuid := "ending-5", m_parent := some 0, m_children := [] }
    else if p = 8 then
      { classId := .SB, m_uuid := "pb-8", m_parent := some 0, m_children := [] }
    else if p = 10 then
      { classId := .EDITORIAL_ELEMENT, m_uuid := "app-10", m_parent := some 0, m_children := [] }
    else if p ≤ 11 then
      { classId := .MEASURE, m_uuid := "measure-", m_parent := some 0, m_children := [] }
    else if p = 12 then
      { classId := .DOC, m_uuid := "doc-12", m_parent := none, m_children := [] }
    else if p = 13 then
      { classId := .PAGE, m_uuid := "page-13", m_parent := none, m_children := [] }
    else
      { classId := .SYSTEM, m_uuid := "system-14", m_parent := none, m_children := [] }
  next := 15

/-- The parameters that go with `sampleMixedHeap`: usable width 35, and a page
high enough for every system. -/
def sampleMixedParams : CastOffSystemsParams where
  m_contentSystem := 0
  m_doc := 12
  m_page := 13
  m_currentSystem := 14
  m_pendingObjects := []
  m_systemWidth := 35
  m_pageHeight := 1000

/-- Boundary tracking for `sampleMixedHeap`: the region that the ending at
address 5 opens ends at the editorial element at address 10, so that it
is open at a break before any node in between. -/
def sampleIsOpenAt (h : Heap) (node : Nat) (position : Nat) : Bool :=
  decide ((h.objs node).classId = .ENDING) && decide (5 < position) && decide (position < 10)

/-- The children of each system of each page of the physical tree that a
cast-off pass has produced, if it has produced one. -/
def castOffSystems (doc : Nat) (r : Except Fatal (Option (Heap × CastOffSystemsParams))) :
    Option (List (List (List Nat))) :=
  match r with
  | .ok (some (h, _)) =>
    some ((h.objs doc).m_children.map
      (fun page => (h.objs page).m_children.map (fun s => (h.objs s).m_children)))
  | _ => none

/-! ## Theorems -/

/-- The three methods of section.cpp differ only in the class of the final
`dynamic_cast`. -/
theorem castOffSectionOrBreak_eq (h : Heap) (params : CastOffSystemsParams) (this : Nat)
    (hk : isSectionOrBreak (h.objs this).classId = true) :
    castOffSectionOrBreak h params this =
      match dynamic_cast h .SYSTEM (h.objs this).m_parent with
      | none => .error .assertion
      | some _ =>
        match Object.GetIdx h this with
        | .error e => .error e
        | .ok idx =>
          match Object.Relinquish h params.m_contentSystem idx with
          | .error e => .error e
          | .ok (h1, obj) =>
            .ok (h1, { params with m_pendingObjects := params.m_pendingObjects ++
              [dynamic_cast h1 (h.objs this).classId (some obj)] }, .FUNCTOR_SIBLINGS) := by
  unfold castOffSectionOrBreak
  cases hc : (h.objs this).classId <;> simp [isSectionOrBreak, hc] at hk <;>
    simp [Section.CastOffSystems, Pb.CastOffSystems, Sb.CastOffSystems]

theorem classId_setChildren (h : Heap) (p q : Nat) (cs : List Nat) :
    ((h.setChildren p cs).objs q).classId = (h.objs q).classId := by
  unfold Heap.setChildren
  by_cases hq : q = p
  · subst hq; simp
  · simp [Function.update_noteq hq]

theorem GetIdx_of_child (h : Heap) (this parent : Nat) (hc : IsChildOf h this parent) :
    Object.GetIdx h this = .ok ((h.objs parent).m_children.indexOf this) := by
  unfold Object.GetIdx
  rw [hc.1]
  simp [hc.2]

theorem Relinquish_indexOf (h : Heap) (parent this : Nat)
    (hm : this ∈ (h.objs parent).m_children) :
    Object.Relinquish h parent ((h.objs parent).m_children.indexOf this) =
      .ok (h.setChildren parent ((h.objs parent).m_children.erase this), this) := by
  unfold Object.Relinquish
  rw [List.indexOf_get? hm]
  simp

/-- The result of a cast-off step on a section or break that is a child of the
content system. -/
theorem castOffSectionOrBreak_child (h : Heap) (params : CastOffSystemsParams) (this : Nat)
    (hk : isSectionOrBreak (h.objs this).classId = true)
    (hc : IsChildOf h this params.m_contentSystem)
    (hs : (h.objs params.m_contentSystem).classId = .SYSTEM) :
    castOffSectionOrBreak h params this =
      .ok (h.setChildren params.m_contentSystem
            ((h.objs params.m_contentSystem).m_children.erase this),
          { params with m_pendingObjects := params.m_pendingObjects ++ [some this] },
          .FUNCTOR_SIBLINGS) := by
  rw [castOffSectionOrBreak_eq h params this hk, hc.1, GetIdx_of_child h this _ hc]
  simp [dynamic_cast, hs, Relinquish_indexOf h _ this hc.2, classId_setChildren]

theorem uuid_setChildren (h : Heap) (p q : Nat) (cs : List Nat) :
    ((h.setChildren p cs).objs q).m_uuid = (h.objs q).m_uuid := by
  unfold Heap.setChildren
  by_cases hq : q = p
  · subst hq; simp
  · simp [Function.update_noteq hq]

theorem parent_setChildren (h : Heap) (p q : Nat) (cs : List Nat) :
    ((h.setChildren p cs).objs q).m_parent = (h.objs q).m_parent := by
  unfold Heap.setChildren
  by_cases hq : q = p
  · subst hq; simp
  · simp [Function.update_noteq hq]

theorem children_setChildren_same (h : Heap) (p : Nat) (cs : List Nat) :
    ((h.setChildren p cs).objs p).m_children = cs := by
  simp [Heap.setChildren]

theorem objs_setChildren_ne (h : Heap) (p q : Nat) (cs : List Nat) (hq : q ≠ p) :
    (h.setChildren p cs).objs q = h.objs q := by
  simp [Heap.setChildren, Function.update_noteq hq]

theorem next_setChildren (h : Heap) (p : Nat) (cs : List Nat) :
    (h.setChildren p cs).next = h.next := rfl

/-- Whatever the heap, a call that returns at all returns `FUNCTOR_SIBLINGS`. -/
theorem castOffSectionOrBreak_code (h : Heap) (params : CastOffSystemsParams) (this : Nat)
    (hk : isSectionOrBreak (h.objs this).classId = true)
    (h1 : Heap) (params1 : CastOffSystemsParams) (code : FunctorCode)
    (hr : castOffSectionOrBreak h params this = .ok (h1, params1, code)) :
    code = .FUNCTOR_SIBLINGS := by
  rw [castOffSectionOrBreak_eq h params this hk] at hr
  split at hr
  · simp at hr
  · split at hr
    · simp at hr
    · split at hr
      · simp at hr
      · simp only [Except.ok.injEq, Prod.mk.injEq] at hr
        exact hr.2.2.symm

/-- C1: for every Section, Pb and Sb node, a call of CastOffSystems that
returns, returns FUNCTOR_SIBLINGS (so never FUNCTOR_CONTINUE or FUNCTOR_STOP);
and on a node that is a child of the content system the call does return, with
that code, the node having been relinquished from the children of the content
system. -/
theorem C1_castOff_returns_siblings (h : Heap) (params : CastOffSystemsParams) (this : Nat)
    (hk : isSectionOrBreak (h.objs this).classId = true) :
    (∀ h1 params1 code, castOffSectionOrBreak h params this = .ok (h1, params1, code) →
        code = .FUNCTOR_SIBLINGS ∧ code ≠ .FUNCTOR_CONTINUE ∧ code ≠ .FUNCTOR_STOP) ∧
    (IsChildOf h this params.m_contentSystem →
      (h.objs params.m_contentSystem).classId = .SYSTEM →
      ∃ h1 params1, castOffSectionOrBreak h params this = .ok (h1, params1, .FUNCTOR_SIBLINGS) ∧
        (h1.objs params.m_contentSystem).m_children =
          (h.objs params.m_contentSystem).m_children.erase this) := by
  refine ⟨?_, ?_⟩
  · intro h1 params1 code hr
    have hc := castOffSectionOrBreak_code h params this hk h1 params1 code hr
    subst hc
    simp
  · intro hc hs
    exact ⟨_, _, castOffSectionOrBreak_child h params this hk hc hs,
      children_setChildren_same _ _ _⟩

/-- Witness for C1: the page break of the sample score. -/
theorem C1_castOff_returns_siblings_witness :
    isSectionOrBreak (sampleHeap.objs 2).classId = true ∧
    ((∀ h1 params1 code, castOffSectionOrBreak sampleHeap sampleParams 2 = .ok (h1, params1, code) →
        code = .FUNCTOR_SIBLINGS ∧ code ≠ .FUNCTOR_CONTINUE ∧ code ≠ .FUNCTOR_STOP) ∧
    (IsChildOf sampleHeap 2 sampleParams.m_contentSystem →
      (sampleHeap.objs sampleParams.m_contentSystem).classId = .SYSTEM →
      ∃ h1 params1, castOffSectionOrBreak sampleHeap sampleParams 2 =
          .ok (h1, params1, .FUNCTOR_SIBLINGS) ∧
        (h1.objs sampleParams.m_contentSystem).m_children =
          (sampleHeap.objs sampleParams.m_contentSystem).m_children.erase 2)) :=
  ⟨by decide, C1_castOff_returns_siblings sampleHeap sampleParams 2 (by decide)⟩

/-- C2: for a Section, Pb or Sb node that is a child of the content system,
CastOffSystems succeeds and the pending queue afterwards is the queue before
followed by exactly that node. -/
theorem C2_castOff_appends_node_to_pending (h : Heap) (params : CastOffSystemsParams)
    (this : Nat)
    (hk : isSectionOrBreak (h.objs this).classId = true)
    (hc : IsChildOf h this params.m_contentSystem)
    (hs : (h.objs params.m_contentSystem).classId = .SYSTEM) :
    ∃ h1 params1 code, castOffSectionOrBreak h params this = .ok (h1, params1, code) ∧
      params1.m_pendingObjects = params.m_pendingObjects ++ [some this] :=
  ⟨_, _, _, castOffSectionOrBreak_child h params this hk hc hs, rfl⟩

/-- Witness for C2: the system break of the sample score. -/
theorem C2_castOff_appends_node_to_pending_witness :
    ∃ h1 params1 code, castOffSectionOrBreak sampleHeap sampleParams 3 = .ok (h1, params1, code) ∧
      params1.m_pendingObjects = sampleParams.m_pendingObjects ++ [some 3] :=
  C2_castOff_appends_node_to_pending sampleHeap sampleParams 3 (by decide) (by decide) (by decide)

/-- C3: when the visited Section, Pb or Sb is the first child of the content
system, the pending queue followed by the remaining children of the content
system is, after the call, the very sequence it was before the call, and no
identifier has changed. -/
theorem C3_castOff_first_child_preserves_sequence (h : Heap) (params : CastOffSystemsParams)
    (this : Nat) (rest : List Nat)
    (hk : isSectionOrBreak (h.objs this).classId = true)
    (hp : (h.objs this).m_parent = some params.m_contentSystem)
    (hfirst : (h.objs params.m_contentSystem).m_children = this :: rest)
    (hs : (h.objs params.m_contentSystem).classId = .SYSTEM) :
    ∃ h1 params1 code, castOffSectionOrBreak h params this = .ok (h1, params1, code) ∧
      params1.m_pendingObjects ++ (h1.objs params1.m_contentSystem).m_children.map some =
        params.m_pendingObjects ++ (h.objs params.m_contentSystem).m_children.map some ∧
      (∀ p, (h1.objs p).m_uuid = (h.objs p).m_uuid) := by
  have hc : IsChildOf h this params.m_contentSystem := ⟨hp, by simp [hfirst]⟩
  refine ⟨_, _, _, castOffSectionOrBreak_child h params this hk hc hs, ?_, ?_⟩
  · simp [children_setChildren_same, hfirst]
  · intro p
    exact uuid_setChildren _ _ _ _

/-- Witness for C3: the section that opens the sample score. -/
theorem C3_castOff_first_child_preserves_sequence_witness :
    ∃ h1 params1 code, castOffSectionOrBreak sampleHeap sampleParams 1 = .ok (h1, params1, code) ∧
      params1.m_pendingObjects ++ (h1.objs params1.m_contentSystem).m_children.map some =
        sampleParams.m_pendingObjects ++
          (sampleHeap.objs sampleParams.m_contentSystem).m_children.map some ∧
      (∀ p, (h1.objs p).m_uuid = (sampleHeap.objs p).m_uuid) :=
  C3_castOff_first_child_preserves_sequence sampleHeap sampleParams 1 [2, 3, 4]
    (by decide) (by decide) (by decide) (by decide)

/-- C4: a Section, Pb or Sb that occurs exactly once among the children of the
content system and nowhere in the pending queue occurs, after CastOffSystems
on it, exactly once in the pending queue and is no longer among the children of
the content system. -/
theorem C4_castOff_ownership_exclusive (h : Heap) (params : CastOffSystemsParams) (this : Nat)
    (hk : isSectionOrBreak (h.objs this).classId = true)
    (hp : (h.objs this).m_parent = some params.m_contentSystem)
    (honce : (h.objs params.m_contentSystem).m_children.count this = 1)
    (hpend : some this ∉ params.m_pendingObjects)
    (hs : (h.objs params.m_contentSystem).classId = .SYSTEM) :
    ∃ h1 params1 code, castOffSectionOrBreak h params this = .ok (h1, params1, code) ∧
      params1.m_pendingObjects.count (some this) = 1 ∧
      this ∉ (h1.objs params1.m_contentSystem).m_children := by
  have hm : this ∈ (h.objs params.m_contentSystem).m_children :=
    List.count_pos_iff.mp (by omega)
  refine ⟨_, _, _, castOffSectionOrBreak_child h params this hk ⟨hp, hm⟩ hs, ?_, ?_⟩
  · simp [List.count_append, List.count_eq_zero_of_not_mem hpend]
  · rw [children_setChildren_same]
    intro hmem
    have h0 := List.count_pos_iff.mpr hmem
    rw [List.count_erase_self] at h0
    omega

/-- Witness for C4: the page break of the sample score. -/
theorem C4_castOff_ownership_exclusive_witness :
    ∃ h1 params1 code, castOffSectionOrBreak sampleHeap sampleParams 2 = .ok (h1, params1, code) ∧
      params1.m_pendingObjects.count (some 2) = 1 ∧
      2 ∉ (h1.objs params1.m_contentSystem).m_children :=
  C4_castOff_ownership_exclusive sampleHeap sampleParams 2
    (by decide) (by decide) (by decide) (by decide) (by decide)

/-! ### Heap updates, field by field -/

theorem children_setChildren (h : Heap) (p q : Nat) (cs : List Nat) :
    ((h.setChildren p cs).objs q).m_children = if q = p then cs else (h.objs q).m_children := by
  unfold Heap.setChildren
  by_cases hq : q = p
  · subst hq; simp
  · simp [Function.update_noteq hq, hq]

theorem children_setParent (h : Heap) (p q : Nat) (x : Option Nat) :
    ((h.setParent p x).objs q).m_children = (h.objs q).m_children := by
  unfold Heap.setParent
  by_cases hq : q = p
  · subst hq; simp
  · simp [Function.update_noteq hq]

theorem classId_setParent (h : Heap) (p q : Nat) (x : Option Nat) :
    ((h.setParent p x).objs q).classId = (h.objs q).classId := by
  unfold Heap.setParent
  by_cases hq : q = p
  · subst hq; simp
  · simp [Function.update_noteq hq]

theorem parent_setParent (h : Heap) (p q : Nat) (x : Option Nat) :
    ((h.setParent p x).objs q).m_parent = if q = p then x else (h.objs q).m_parent := by
  unfold Heap.setParent
  by_cases hq : q = p
  · subst hq; simp
  · simp [Function.update_noteq hq, hq]

theorem next_setParent (h : Heap) (p : Nat) (x : Option Nat) :
    (h.setParent p x).next = h.next := rfl

theorem children_alloc (h : Heap) (c : ClassId) (pre : String) (q : Nat) :
    (((h.alloc c pre).1).objs q).m_children = if q = h.next then [] else (h.objs q).m_children := by
  unfold Heap.alloc
  by_cases hq : q = h.next
  · subst hq; simp
  · simp [Function.update_noteq hq, hq]

theorem classId_alloc (h : Heap) (c : ClassId) (pre : String) (q : Nat) :
    (((h.alloc c pre).1).objs q).classId = if q = h.next then c else (h.objs q).classId := by
  unfold Heap.alloc
  by_cases hq : q = h.next
  · subst hq; simp
  · simp [Function.update_noteq hq, hq]

theorem parent_alloc (h : Heap) (c : ClassId) (pre : String) (q : Nat) :
    (((h.alloc c pre).1).objs q).m_parent = if q = h.next then none else (h.objs q).m_parent := by
  unfold Heap.alloc
  by_cases hq : q = h.next
  · subst hq; simp
  · simp [Function.update_noteq hq, hq]

theorem next_alloc (h : Heap) (c : ClassId) (pre : String) :
    ((h.alloc c pre).1).next = h.next + 1 := rfl

theorem snd_alloc (h : Heap) (c : ClassId) (pre : String) :
    (h.alloc c pre).2 = h.next := rfl

/-! ### Break markers leave the physical tree alone -/

/-- C6: on a Pb or Sb that is a child of the content system, CastOffSystems
changes nothing but the children of the content system and the pending queue:
no object is created, every object other than the content system is left as it
was (the page and the current system among them), the content system keeps its
kind, identifier and parent, and every parameter other than the pending queue
keeps its value. When the marker is the only node left in the content system,
the content system is empty afterwards and the page holds the systems it held
before. -/
theorem C6_break_marker_creates_no_system (h : Heap) (params : CastOffSystemsParams)
    (this : Nat)
    (hk : isBreakMarker (h.objs this).classId = true)
    (hc : IsChildOf h this params.m_contentSystem)
    (hs : (h.objs params.m_contentSystem).classId = .SYSTEM) :
    ∃ h1 params1 code, castOffSectionOrBreak h params this = .ok (h1, params1, code) ∧
      h1.next = h.next ∧
      (∀ p, p ≠ params.m_contentSystem → h1.objs p = h.objs p) ∧
      h1.objs params.m_contentSystem =
        { h.objs params.m_contentSystem with
          m_children := (h.objs params.m_contentSystem).m_children.erase this } ∧
      params1 = { params with m_pendingObjects := params1.m_pendingObjects } ∧
      params1.m_currentSystem = params.m_currentSystem ∧
      params1.m_page = params.m_page ∧
      ((h.objs params.m_contentSystem).m_children = [this] →
        params.m_page ≠ params.m_contentSystem →
        (h1.objs params.m_contentSystem).m_children = [] ∧
        (h1.objs params1.m_page).m_children = (h.objs params.m_page).m_children) := by
  have hk2 : isSectionOrBreak (h.objs this).classId = true := by
    simp only [isBreakMarker, Bool.or_eq_true, decide_eq_true_eq] at hk
    simp only [isSectionOrBreak, Bool.or_eq_true, decide_eq_true_eq]
    tauto
  refine ⟨_, _, _, castOffSectionOrBreak_child h params this hk2 hc hs, rfl, ?_, ?_, rfl, rfl, rfl,
    ?_⟩
  · intro p hp
    exact objs_setChildren_ne _ _ _ _ hp
  · simp [Heap.setChildren]
  · intro hlast hpage
    refine ⟨?_, ?_⟩
    · simp [children_setChildren, hlast]
    · simp [children_setChildren, hpage]

/-- Witness for C6: the page break of the sample score. -/
theorem C6_break_marker_creates_no_system_witness :
    ∃ h1 params1 code, castOffSectionOrBreak sampleHeap sampleParams 2 = .ok (h1, params1, code) ∧
      h1.next = sampleHeap.next ∧
      (∀ p, p ≠ sampleParams.m_contentSystem → h1.objs p = sampleHeap.objs p) ∧
      h1.objs sampleParams.m_contentSystem =
        { sampleHeap.objs sampleParams.m_contentSystem with
          m_children := (sampleHeap.objs sampleParams.m_contentSystem).m_children.erase 2 } ∧
      params1 = { sampleParams with m_pendingObjects := params1.m_pendingObjects } ∧
      params1.m_currentSystem = sampleParams.m_currentSystem ∧
      params1.m_page = sampleParams.m_page ∧
      ((sampleHeap.objs sampleParams.m_contentSystem).m_children = [2] →
        sampleParams.m_page ≠ sampleParams.m_contentSystem →
        (h1.objs sampleParams.m_contentSystem).m_children = [] ∧
        (h1.objs params1.m_page).m_children = (sampleHeap.objs sampleParams.m_page).m_children) :=
  C6_break_marker_creates_no_system sampleHeap sampleParams 2 (by decide) (by decide) (by decide)

/-! ### Termination of cast-off over sections and breaks -/

theorem castOffVisit_sectionOrBreak (ext : Heap → Nat → Int)
    (isOpenAt : Heap → Nat → Nat → Bool) (h : Heap)
    (params : CastOffSystemsParams) (this : Nat)
    (hk : isSectionOrBreak (h.objs this).classId = true) :
    castOffVisit ext isOpenAt h params this = castOffSectionOrBreak h params this := by
  unfold castOffVisit
  cases hc : (h.objs this).classId <;> simp [isSectionOrBreak, hc] at hk <;>
    simp [isOrdinaryContent]

theorem castOffVisit_sectionsAndBreaks_step (ext : Heap → Nat → Int)
    (isOpenAt : Heap → Nat → Nat → Bool) (h : Heap)
    (params : CastOffSystemsParams) (c : Nat) (rest : List Nat)
    (hl : (h.objs params.m_contentSystem).m_children = c :: rest)
    (hwf : ContentOfSectionsAndBreaks h params) :
    ∃ h1 params1, castOffVisit ext isOpenAt h params c = .ok (h1, params1, .FUNCTOR_SIBLINGS) ∧
      (h1.objs params1.m_contentSystem).m_children = rest ∧
      ContentOfSectionsAndBreaks h1 params1 := by
  have hcmem : c ∈ (h.objs params.m_contentSystem).m_children := by simp [hl]
  have hk := (hwf.2 c hcmem).2
  have hstep := castOffSectionOrBreak_child h params c hk ⟨(hwf.2 c hcmem).1, hcmem⟩ hwf.1
  rw [← castOffVisit_sectionOrBreak ext isOpenAt h params c hk] at hstep
  have hl1 : ((h.setChildren params.m_contentSystem
      ((h.objs params.m_contentSystem).m_children.erase c)).objs
        params.m_contentSystem).m_children = rest := by
    simp [children_setChildren, hl]
  refine ⟨_, _, hstep, hl1, ?_, ?_⟩
  · simpa [classId_setChildren] using hwf.1
  · intro d hd
    rw [hl1] at hd
    have hdmem : d ∈ (h.objs params.m_contentSystem).m_children := by
      rw [hl]; exact List.mem_cons_of_mem _ hd
    simpa [classId_setChildren, parent_setChildren] using hwf.2 d hdmem

theorem castOffTraverse_sectionsAndBreaks (ext : Heap → Nat → Int)
    (isOpenAt : Heap → Nat → Nat → Bool) :
    ∀ (l : List Nat) (h : Heap) (params : CastOffSystemsParams),
      (h.objs params.m_contentSystem).m_children = l →
      ContentOfSectionsAndBreaks h params →
      (∃ h1 params1, castOffTraverse ext isOpenAt l.length h params = .ok (some (h1, params1)) ∧
        (h1.objs params1.m_contentSystem).m_children = []) ∧
      ∀ fuel, fuel < l.length → castOffTraverse ext isOpenAt fuel h params = .ok none := by
  intro l
  induction l with
  | nil =>
    intro h params hl _
    refine ⟨⟨h, params, ?_, hl⟩, ?_⟩
    · unfold castOffTraverse
      simp [hl]
    · intro fuel hf
      simp at hf
  | cons c rest ih =>
    intro h params hl hwf
    obtain ⟨h1, params1, hstep, hl1, hwf1⟩ :=
      castOffVisit_sectionsAndBreaks_step ext isOpenAt h params c rest hl hwf
    obtain ⟨⟨h2, params2, hrun, hempty⟩, hless⟩ := ih h1 params1 hl1 hwf1
    refine ⟨⟨h2, params2, ?_, hempty⟩, ?_⟩
    · rw [List.length_cons]
      unfold castOffTraverse
      rw [hl]
      simp only [hstep]
      exact hrun
    · intro fuel hf
      cases fuel with
      | zero =>
        unfold castOffTraverse
        simp [hl]
      | succ n =>
        unfold castOffTraverse
        rw [hl]
        simp only [hstep]
        exact hless n (by simpa using hf)

/-- C7: over a content system made of sections, page breaks and system breaks,
each CastOffSystems step on a child succeeds and leaves the content system with
exactly one child fewer; the traversal ends after exactly as many visits as the
content system has children (that much fuel is enough, any less is not), with
an empty content system. -/
theorem C7_castOff_consumes_one_node_and_terminates (ext : Heap → Nat → Int)
    (isOpenAt : Heap → Nat → Nat → Bool) (h : Heap)
    (params : CastOffSystemsParams) (hwf : ContentOfSectionsAndBreaks h params) :
    (∀ c ∈ (h.objs params.m_contentSystem).m_children,
      ∃ h1 params1 code, castOffSectionOrBreak h params c = .ok (h1, params1, code) ∧
        (h1.objs params1.m_contentSystem).m_children.length + 1 =
          (h.objs params.m_contentSystem).m_children.length) ∧
    (∃ h1 params1,
      castOffTraverse ext isOpenAt (h.objs params.m_contentSystem).m_children.length h params =
        .ok (some (h1, params1)) ∧
      (h1.objs params1.m_contentSystem).m_children = []) ∧
    (∀ fuel, fuel < (h.objs params.m_contentSystem).m_children.length →
      castOffTraverse ext isOpenAt fuel h params = .ok none) := by
  refine ⟨?_, castOffTraverse_sectionsAndBreaks ext isOpenAt _ h params rfl hwf⟩
  intro c hc
  refine ⟨_, _, _, castOffSectionOrBreak_child h params c (hwf.2 c hc).2 ⟨(hwf.2 c hc).1, hc⟩ hwf.1,
    ?_⟩
  simp only [children_setChildren, if_true]
  rw [List.length_erase_of_mem hc]
  have : 0 < (h.objs params.m_contentSystem).m_children.length := List.length_pos_of_mem hc
  omega

/-- Witness for C7: the sample content system of a section and two breaks. -/
theorem C7_castOff_consumes_one_node_and_terminates_witness :
    (∀ c ∈ (sampleBreaksHeap.objs sampleParams.m_contentSystem).m_children,
      ∃ h1 params1 code,
        castOffSectionOrBreak sampleBreaksHeap sampleParams c = .ok (h1, params1, code) ∧
        (h1.objs params1.m_contentSystem).m_children.length + 1 =
          (sampleBreaksHeap.objs sampleParams.m_contentSystem).m_children.length) ∧
    (∃ h1 params1,
      castOffTraverse scenarioCExtent noOpenBoundary
          (sampleBreaksHeap.objs sampleParams.m_contentSystem).m_children.length
          sampleBreaksHeap sampleParams = .ok (some (h1, params1)) ∧
      (h1.objs params1.m_contentSystem).m_children = []) ∧
    (∀ fuel, fuel < (sampleBreaksHeap.objs sampleParams.m_contentSystem).m_children.length →
      castOffTraverse scenarioCExtent noOpenBoundary fuel sampleBreaksHeap sampleParams = .ok none) :=
  C7_castOff_consumes_one_node_and_terminates scenarioCExtent noOpenBoundary sampleBreaksHeap sampleParams
    (by decide)

/-! ### Conversion to page-based -/

theorem not_mem_erase_of_count_eq_one (l : List Nat) (a : Nat) (hc : l.count a = 1) :
    a ∉ l.erase a := by
  intro hmem
  have h0 := List.count_pos_iff.mpr hmem
  rw [List.count_erase_self] at h0
  omega

theorem Insert_of_not_held (h : Heap) (parent node : Nat) (hn : isHeld h node = false) :
    Object.Insert h parent node (h.objs parent).m_children.length =
      .ok ((h.setChildren parent ((h.objs parent).m_children ++ [node])).setParent node
        (some parent)) := by
  unfold Object.Insert
  simp [hn, List.insertIdx_length_self]

theorem MoveItselfTo_ok (h : Heap) (this p target : Nat)
    (hp : (h.objs this).m_parent = some p)
    (hc : (h.objs p).m_children.count this = 1) :
    Object.MoveItselfTo h this target =
      .ok (((h.setChildren p ((h.objs p).m_children.erase this)).setChildren target
          (((h.setChildren p ((h.objs p).m_children.erase this)).objs target).m_children ++
            [this])).setParent this (some target)) := by
  have hm : this ∈ (h.objs p).m_children := List.count_pos_iff.mp (by omega)
  unfold Object.MoveItselfTo
  rw [hp]
  simp only [GetIdx_of_child h this p ⟨hp, hm⟩, Relinquish_indexOf h p this hm]
  apply Insert_of_not_held
  unfold isHeld
  rw [parent_setChildren, hp]
  simp [children_setChildren, not_mem_erase_of_count_eq_one _ _ hc]

theorem convertSectionOrBreak_eq (h : Heap) (params : ConvertToPageBasedParams) (this : Nat)
    (hk : isSectionOrBreak (h.objs this).classId = true) :
    convertSectionOrBreak h params this =
      match Object.MoveItselfTo h this params.m_pageBasedSystem with
      | .error e => .error e
      | .ok h1 => .ok (h1, .FUNCTOR_CONTINUE) := by
  unfold convertSectionOrBreak
  cases hc : (h.objs this).classId <;> simp [isSectionOrBreak, hc] at hk <;>
    simp [Section.ConvertToPageBased, Pb.ConvertToPageBased, Sb.ConvertToPageBased]

/-- One visit of the conversion pass on a movable node. -/
theorem convertSectionOrBreak_movable (h : Heap) (params : ConvertToPageBasedParams) (n : Nat)
    (hm : isMovable h params.m_pageBasedSystem n = true) :
    ∃ h1, convertSectionOrBreak h params n = .ok (h1, .FUNCTOR_CONTINUE) ∧
      (h1.objs params.m_pageBasedSystem).m_children =
        (h.objs params.m_pageBasedSystem).m_children ++ [n] ∧
      (h1.objs n).m_parent = some params.m_pageBasedSystem ∧
      (∀ q, q ≠ n → (h1.objs q).m_parent = (h.objs q).m_parent) ∧
      (∀ q, (h1.objs q).classId = (h.objs q).classId) ∧
      (∀ q, q ≠ params.m_pageBasedSystem → ∀ m, m ≠ n →
        (h1.objs q).m_children.count m = (h.objs q).m_children.count m) ∧
      (∀ p, (h.objs n).m_parent = some p → n ∉ (h1.objs p).m_children) := by
  unfold isMovable at hm
  simp only [Bool.and_eq_true] at hm
  obtain ⟨hk, hrest⟩ := hm
  cases hp : (h.objs n).m_parent with
  | none => simp [hp] at hrest
  | some p =>
    simp only [hp, Bool.and_eq_true, decide_eq_true_eq] at hrest
    obtain ⟨hpt, hc⟩ := hrest
    refine ⟨((h.setChildren p ((h.objs p).m_children.erase n)).setChildren
        params.m_pageBasedSystem
        (((h.setChildren p ((h.objs p).m_children.erase n)).objs
          params.m_pageBasedSystem).m_children ++ [n])).setParent n
        (some params.m_pageBasedSystem), ?_, ?_, ?_, ?_, ?_, ?_, ?_⟩
    · rw [convertSectionOrBreak_eq h params n hk, MoveItselfTo_ok h n p _ hp hc]
    · simp [children_setParent, children_setChildren, Ne.symm hpt]
    · simp [parent_setParent]
    · intro q hq
      simp [parent_setParent, hq, parent_setChildren]
    · intro q
      simp [classId_setParent, classId_setChildren]
    · intro q hq m hmn
      simp only [children_setParent, children_setChildren, hq, if_false]
      by_cases hqp : q = p
      · subst hqp
        simp only [if_true]
        exact List.count_erase_of_ne hmn _
      · simp [hqp]
    · intro p1 hp1
      simp only [Option.some.injEq] at hp1
      subst hp1
      simp only [children_setParent, children_setChildren, hpt, if_false, if_true]
      exact not_mem_erase_of_count_eq_one _ _ hc

theorem convertNodes_movable (params : ConvertToPageBasedParams) :
    ∀ (nodes : List Nat) (h : Heap), nodes.Nodup →
      (∀ n ∈ nodes, isMovable h params.m_pageBasedSystem n = true) →
      ∃ h1, convertNodes h params nodes = .ok h1 ∧
        (h1.objs params.m_pageBasedSystem).m_children =
          (h.objs params.m_pageBasedSystem).m_children ++ nodes ∧
        (∀ n ∈ nodes, (h1.objs n).m_parent = some params.m_pageBasedSystem) ∧
        (∀ q, q ∉ nodes → (h1.objs q).m_parent = (h.objs q).m_parent) ∧
        (∀ q, q ≠ params.m_pageBasedSystem → ∀ m, m ∉ nodes →
          (h1.objs q).m_children.count m = (h.objs q).m_children.count m) ∧
        (∀ n ∈ nodes, ∀ p, (h.objs n).m_parent = some p → n ∉ (h1.objs p).m_children) := by
  intro nodes
  induction nodes with
  | nil =>
    intro h _ _
    exact ⟨h, rfl, by simp, by simp, fun _ _ => rfl, fun _ _ _ _ => rfl, by simp⟩
  | cons n rest ih =>
    intro h hnd hmov
    obtain ⟨h1, hstep, hch, hpar, hframe, hcls, hcount, hleft⟩ :=
      convertSectionOrBreak_movable h params n (hmov n (List.mem_cons_self _ _))
    have hn_rest : n ∉ rest := (List.nodup_cons.mp hnd).1
    have hmov1 : ∀ m ∈ rest, isMovable h1 params.m_pageBasedSystem m = true := by
      intro m hm
      have hmn : m ≠ n := fun e => hn_rest (e ▸ hm)
      have h0 := hmov m (List.mem_cons_of_mem _ hm)
      unfold isMovable at h0 ⊢
      rw [hcls m, hframe m hmn]
      cases hpm : (h.objs m).m_parent with
      | none => simp [hpm] at h0
      | some pm =>
        simp only [hpm, Bool.and_eq_true, decide_eq_true_eq] at h0 ⊢
        refine ⟨h0.1, h0.2.1, ?_⟩
        rw [hcount pm h0.2.1 m hmn]
        exact h0.2.2
    obtain ⟨h2, hrun, hch2, hpar2, hframe2, hcount2, hleft2⟩ :=
      ih h1 (List.nodup_cons.mp hnd).2 hmov1
    refine ⟨h2, ?_, ?_, ?_, ?_, ?_, ?_⟩
    · unfold convertNodes
      simp only [hstep]
      exact hrun
    · rw [hch2, hch]
      simp
    · intro m hm
      rcases List.mem_cons.mp hm with e | hm
      · subst e
        rw [hframe2 m hn_rest]
        exact hpar
      · exact hpar2 m hm
    · intro q hq
      have hqn : q ≠ n := fun e => hq (e ▸ List.mem_cons_self _ _)
      rw [hframe2 q (fun hm => hq (List.mem_cons_of_mem _ hm)), hframe q hqn]
    · intro q hq m hm
      have hmn : m ≠ n := fun e => hm (e ▸ List.mem_cons_self _ _)
      rw [hcount2 q hq m (fun hmem => hm (List.mem_cons_of_mem _ hmem)), hcount q hq m hmn]
    · intro m hm p hp
      rcases List.mem_cons.mp hm with e | hm
      · subst e
        -- the head has left its parent, and the later visits keep it away
        have hpt : p ≠ params.m_pageBasedSystem := by
          have h0 := hmov m (List.mem_cons_self _ _)
          unfold isMovable at h0
          simp only [hp, Bool.and_eq_true, decide_eq_true_eq] at h0
          exact h0.2.1
        have hz : (h1.objs p).m_children.count m = 0 :=
          List.count_eq_zero_of_not_mem (hleft p hp)
        intro hmem
        have hpos := List.count_pos_iff.mpr hmem
        rw [hcount2 p hpt m hn_rest, hz] at hpos
        exact Nat.lt_irrefl 0 hpos
      · have hmn : m ≠ n := fun e => hn_rest (e ▸ hm)
        exact hleft2 m hm p (by rw [hframe m hmn]; exact hp)

/-- C9: ConvertToPageBased on a Section, Pb or Sb held once by a parent other
than the page-based system succeeds, answers FUNCTOR_CONTINUE, and moves the
node: it leaves the node as the new last child of the page-based system with
its back-reference on it, the former parent no longer holds the node, and no
other node enters or leaves any other object. Visiting distinct such nodes in
document order leaves the page-based system with its former children followed
by those nodes in that order, and none of the nodes with its former parent. -/
theorem C9_convertToPageBased_moves_in_document_order (h : Heap)
    (params : ConvertToPageBasedParams) (nodes : List Nat) (hnd : nodes.Nodup)
    (hmov : ∀ n ∈ nodes, isMovable h params.m_pageBasedSystem n = true) :
    (∀ n ∈ nodes, ∃ h1, convertSectionOrBreak h params n = .ok (h1, .FUNCTOR_CONTINUE) ∧
      (h1.objs params.m_pageBasedSystem).m_children =
        (h.objs params.m_pageBasedSystem).m_children ++ [n] ∧
      (h1.objs n).m_parent = some params.m_pageBasedSystem ∧
      (∀ p, (h.objs n).m_parent = some p → n ∉ (h1.objs p).m_children) ∧
      (∀ q, q ≠ params.m_pageBasedSystem → ∀ m, m ≠ n →
        (h1.objs q).m_children.count m = (h.objs q).m_children.count m)) ∧
    (∃ h1, convertNodes h params nodes = .ok h1 ∧
      (h1.objs params.m_pageBasedSystem).m_children =
        (h.objs params.m_pageBasedSystem).m_children ++ nodes ∧
      (∀ n ∈ nodes, (h1.objs n).m_parent = some params.m_pageBasedSystem) ∧
      (∀ n ∈ nodes, ∀ p, (h.objs n).m_parent = some p → n ∉ (h1.objs p).m_children) ∧
      (∀ q, q ≠ params.m_pageBasedSystem → ∀ m, m ∉ nodes →
        (h1.objs q).m_children.count m = (h.objs q).m_children.count m)) := by
  refine ⟨?_, ?_⟩
  · intro n hn
    obtain ⟨h1, hstep, hch, hpar, _, _, hcount, hleft⟩ :=
      convertSectionOrBreak_movable h params n (hmov n hn)
    exact ⟨h1, hstep, hch, hpar, hleft, hcount⟩
  · obtain ⟨h1, hrun, hch, hpar, _, hcount, hleft⟩ :=
      convertNodes_movable params nodes h hnd hmov
    exact ⟨h1, hrun, hch, hpar, hleft, hcount⟩

/-- Witness for C9: the section and the two breaks of the sample score are
moved into the system at address 6. -/
theorem C9_convertToPageBased_moves_in_document_order_witness :
    (∀ n ∈ [1, 2, 3], ∃ h1,
      convertSectionOrBreak sampleHeap { m_pageBasedSystem := 6 } n =
        .ok (h1, .FUNCTOR_CONTINUE) ∧
      (h1.objs 6).m_children = (sampleHeap.objs 6).m_children ++ [n] ∧
      (h1.objs n).m_parent = some 6 ∧
      (∀ p, (sampleHeap.objs n).m_parent = some p → n ∉ (h1.objs p).m_children) ∧
      (∀ q, q ≠ 6 → ∀ m, m ≠ n →
        (h1.objs q).m_children.count m = (sampleHeap.objs q).m_children.count m)) ∧
    (∃ h1, convertNodes sampleHeap { m_pageBasedSystem := 6 } [1, 2, 3] = .ok h1 ∧
      (h1.objs 6).m_children = (sampleHeap.objs 6).m_children ++ [1, 2, 3] ∧
      (∀ n ∈ [1, 2, 3], (h1.objs n).m_parent = some 6) ∧
      (∀ n ∈ [1, 2, 3], ∀ p, (sampleHeap.objs n).m_parent = some p →
        n ∉ (h1.objs p).m_children) ∧
      (∀ q, q ≠ 6 → ∀ m, m ∉ [1, 2, 3] →
        (h1.objs q).m_children.count m = (sampleHeap.objs q).m_children.count m)) :=
  C9_convertToPageBased_moves_in_document_order sampleHeap { m_pageBasedSystem := 6 } [1, 2, 3]
    (by decide) (by decide)

/-! ### Adding a child to a section -/

/-- AddChild on a child of an accepted kind that no parent holds. -/
theorem AddChild_accepted (Modify : Heap → Nat → Heap) (h : Heap) (this child : Nat)
    (hk : isAcceptedBySection h child = true) (hfree : isHeld h child = false) :
    Section.AddChild Modify h this child =
      .ok (Modify ((h.setParent child (some this)).setChildren this
        (((h.setParent child (some this)).objs this).m_children ++ [child])) this) := by
  unfold isAcceptedBySection Object.IsEditorialElement at hk
  unfold Section.AddChild Object.IsEditorialElement Object.SetParent
  cases hc : (h.objs child).classId <;> simp [hc] at hk <;> simp [hc, dynamic_cast, hfree]

/-- AddChild on a child of an accepted kind that a parent still holds. -/
theorem AddChild_held (Modify : Heap → Nat → Heap) (h : Heap) (this child : Nat)
    (hk : isAcceptedBySection h child = true) (hheld : isHeld h child = true) :
    Section.AddChild Modify h this child = .error .contract := by
  unfold isAcceptedBySection Object.IsEditorialElement at hk
  unfold Section.AddChild Object.IsEditorialElement Object.SetParent
  cases hc : (h.objs child).classId <;> simp [hc] at hk <;> simp [hc, dynamic_cast, hheld]

/-- AddChild on a child of a kind that the section does not accept. -/
theorem AddChild_unsupported (Modify : Heap → Nat → Heap) (h : Heap) (this child : Nat)
    (hk : isAcceptedBySection h child = false) :
    Section.AddChild Modify h this child =
      .error (.unsupportedChild (h.objs child).classId (h.objs this).classId) := by
  simp only [isAcceptedBySection, Bool.or_eq_false_iff, decide_eq_false_iff_not] at hk
  obtain ⟨⟨⟨⟨⟨h1, h2⟩, h3⟩, h4⟩, h5⟩, h6⟩ := hk
  unfold Section.AddChild
  simp [h1, h2, h3, h4, h5, h6]

theorem CastOffInv_of_start (h : Heap) (params : CastOffSystemsParams)
    (hs : CastOffStart h params) : CastOffInv h params := by
  obtain ⟨h1, ⟨h2, h3, h4, h5⟩, ⟨h6, h7, h8, h9, h10, h11⟩, ⟨h12, h13, h14⟩, ⟨h15, h16⟩, h17,
    h18, h19⟩ := hs
  refine ⟨h1, h2, h3, h4, h5, h6, h7, h8, h9, h10, h11, ?_, ?_, ?_, h15, h16, h19, ?_, ?_⟩
  · simp [h12]
  · simp [finishedSystems, h12, h13]
  · simp [finishedSystems, h12, h13, h14]
  · simp [h17]
  · rw [h17, List.nil_append]
    exact h18.map (fun a b hab => Option.some_injective _ hab)

theorem laidOut_of_start (h : Heap) (params : CastOffSystemsParams)
    (hs : CastOffStart h params) : laidOut h params = [] := by
  obtain ⟨-, -, -, ⟨h12, h13, h14⟩, -⟩ := hs
  simp [laidOut, finishedSystems, systemMeasures, measuresIn, h12, h13, h14]

theorem measuresIn_congr (h h1 : Heap) (l : List Nat)
    (hcls : ∀ n ∈ l, (h1.objs n).classId = (h.objs n).classId) :
    measuresIn h1 l = measuresIn h l := by
  unfold measuresIn
  apply List.filter_congr
  intro n hn
  rw [hcls n hn]

theorem systemMeasures_congr (h h1 : Heap) (s : Nat)
    (hch : (h1.objs s).m_children = (h.objs s).m_children)
    (hcls : ∀ n ∈ (h.objs s).m_children, (h1.objs n).classId = (h.objs n).classId) :
    systemMeasures h1 s = systemMeasures h s := by
  unfold systemMeasures
  rw [hch]
  exact measuresIn_congr h h1 _ hcls

theorem finishedSystems_congr (h h1 : Heap) (params params1 : CastOffSystemsParams)
    (hdoc : (h1.objs params1.m_doc).m_children = (h.objs params.m_doc).m_children)
    (hpages : ∀ pg ∈ (h.objs params.m_doc).m_children,
      (h1.objs pg).m_children = (h.objs pg).m_children)
    (hpage : (h1.objs params1.m_page).m_children = (h.objs params.m_page).m_children) :
    finishedSystems h1 params1 = finishedSystems h params := by
  unfold finishedSystems
  rw [hdoc, hpage, List.map_congr_left hpages]

theorem laidOut_congr (h h1 : Heap) (params params1 : CastOffSystemsParams)
    (hfs : finishedSystems h1 params1 = finishedSystems h params)
    (hcur : params1.m_currentSystem = params.m_currentSystem)
    (hsys : ∀ s ∈ finishedSystems h params ++ [params.m_currentSystem],
      systemMeasures h1 s = systemMeasures h s) :
    laidOut h1 params1 = laidOut h params := by
  unfold laidOut
  rw [hfs, hcur, List.map_congr_left hsys]

/-- Relinquishing the head of the content system keeps the invariant and what
is laid out. -/
theorem castOffInv_relinquish (h : Heap) (params : CastOffSystemsParams) (c : Nat)
    (rest : List Nat) (hinv : CastOffInv h params)
    (hl : (h.objs params.m_contentSystem).m_children = c :: rest) :
    CastOffInv (h.setChildren params.m_contentSystem rest) params ∧
    laidOut (h.setChildren params.m_contentSystem rest) params = laidOut h params := by
  have hfs : finishedSystems (h.setChildren params.m_contentSystem rest) params =
        finishedSystems h params := by
    apply finishedSystems_congr
    · simp [children_setChildren, hinv.doc_ne_cs]
    · intro pg hpg
      simp [children_setChildren, (hinv.pages pg hpg).2.1]
    · simp [children_setChildren, hinv.page_ne_cs]
  have hsysch : ∀ s ∈ finishedSystems h params ++ [params.m_currentSystem],
      ((h.setChildren params.m_contentSystem rest).objs s).m_children =
        (h.objs s).m_children := by
    intro s hs
    rcases List.mem_append.mp hs with hs | hs
    · simp [children_setChildren, (hinv.systems s hs).2.1]
    · simp only [List.mem_singleton] at hs
      subst hs
      simp [children_setChildren, hinv.cur_ne_cs]
  refine ⟨⟨?_, hinv.cs_lt, hinv.doc_lt, hinv.page_lt, hinv.cur_lt, hinv.doc_ne_cs,
    hinv.page_ne_cs, hinv.cur_ne_cs, hinv.page_ne_doc, hinv.cur_ne_doc, hinv.cur_ne_page,
    ?_, ?_, ?_, ?_, ?_, ?_, ?_, ?_⟩, ?_⟩
  · simpa [classId_setChildren] using hinv.cs_system
  · intro pg hpg
    have hpg1 : pg ∈ (h.objs params.m_doc).m_children := by
      simpa [children_setChildren, hinv.doc_ne_cs] using hpg
    exact hinv.pages pg hpg1
  · intro s hs
    rw [hfs] at hs
    exact hinv.systems s hs
  · intro s hs n hn
    rw [hfs] at hs
    rw [hsysch s hs] at hn
    exact hinv.placed s hs n hn
  · simpa [parent_setChildren] using hinv.cur_free
  · simpa [parent_setChildren] using hinv.page_free
  · intro d hd
    have hd1 : d ∈ rest := by simpa [children_setChildren] using hd
    have hd2 : d ∈ (h.objs params.m_contentSystem).m_children := by
      rw [hl]; exact List.mem_cons_of_mem _ hd1
    simpa [classId_setChildren, parent_setChildren] using hinv.content d hd2
  · intro e he
    simpa [classId_setChildren, parent_setChildren] using hinv.pending e he
  · have hnd := hinv.nodup
    rw [hl] at hnd
    have hsub : (params.m_pendingObjects ++ rest.map some).Sublist
        (params.m_pendingObjects ++ (c :: rest).map some) := by
      apply List.Sublist.append_left
      simp
    simpa [children_setChildren] using hnd.sublist hsub
  · apply laidOut_congr _ _ _ _ hfs rfl
    intro s hs
    apply systemMeasures_congr _ _ _ (hsysch s hs)
    intro n _
    exact classId_setChildren _ _ _ _

/-- What the invariant says of the head of the content system. -/
theorem castOffInv_head (h : Heap) (params : CastOffSystemsParams) (c : Nat)
    (rest : List Nat) (hinv : CastOffInv h params)
    (hl : (h.objs params.m_contentSystem).m_children = c :: rest) :
    (h.objs c).m_parent = some params.m_contentSystem ∧ c < h.next ∧
    c ≠ params.m_currentSystem ∧ c ≠ params.m_page ∧ c ∉ rest ∧
    some c ∉ params.m_pendingObjects ∧
    (isOrdinaryContent (h.objs c).classId = true ∨
      isSectionOrBreak (h.objs c).classId = true) := by
  have hcmem : c ∈ (h.objs params.m_contentSystem).m_children := by simp [hl]
  obtain ⟨hp, hlt, hcur, hpage, hcls⟩ := hinv.content c hcmem
  have hnd := hinv.nodup
  rw [hl, List.nodup_append] at hnd
  obtain ⟨_, hnd2, hdisj⟩ := hnd
  refine ⟨hp, hlt, hcur, hpage, ?_, ?_, hcls⟩
  · intro hmem
    rw [List.map_cons, List.nodup_cons] at hnd2
    exact hnd2.1 (List.mem_map_of_mem _ hmem)
  · intro hmem
    exact hdisj hmem (by simp)

/-- The visit of a section or break at the head of the content system keeps
the invariant and what is laid out. -/
theorem castOffInv_sectionOrBreak (h : Heap) (params : CastOffSystemsParams) (c : Nat)
    (rest : List Nat) (hinv : CastOffInv h params)
    (hl : (h.objs params.m_contentSystem).m_children = c :: rest)
    (hk : isSectionOrBreak (h.objs c).classId = true) :
    CastOffInv (h.setChildren params.m_contentSystem rest)
      { params with m_pendingObjects := params.m_pendingObjects ++ [some c] } ∧
    laidOut (h.setChildren params.m_contentSystem rest)
      { params with m_pendingObjects := params.m_pendingObjects ++ [some c] } =
        laidOut h params := by
  obtain ⟨hrel, hlaid⟩ := castOffInv_relinquish h params c rest hinv hl
  obtain ⟨hp, hlt, hcur, hpage, _, _, _⟩ := castOffInv_head h params c rest hinv hl
  refine ⟨⟨hrel.cs_system, hrel.cs_lt, hrel.doc_lt, hrel.page_lt, hrel.cur_lt, hrel.doc_ne_cs,
    hrel.page_ne_cs, hrel.cur_ne_cs, hrel.page_ne_doc, hrel.cur_ne_doc, hrel.cur_ne_page,
    hrel.pages, hrel.systems, hrel.placed, hrel.cur_free, hrel.page_free, hrel.content,
    ?_, ?_⟩, hlaid⟩
  · intro e he
    rcases List.mem_append.mp he with he | he
    · exact hrel.pending e he
    · simp only [List.mem_singleton] at he
      subst he
      exact ⟨c, rfl, by simpa [parent_setChildren] using hp, hlt, hcur, hpage,
        by simpa [classId_setChildren] using hk⟩
  · have hnd := hinv.nodup
    rw [hl] at hnd
    simpa [children_setChildren] using hnd

theorem flatten_map_append_singleton (f : Nat → List Nat) (l : List Nat) (a : Nat) :
    ((l ++ [a]).map f).flatten = (l.map f).flatten ++ f a := by
  simp

/-- Inserting a free node into the system being filled keeps the invariant
and lays the node out last if it is a measure. -/
theorem castOffInv_insert (h : Heap) (params : CastOffSystemsParams) (n : Nat)
    (hinv : CastOffInv h params)
    (hheld : isHeld h n = false)
    (hlt : n < h.next) (hcur : n ≠ params.m_currentSystem) (hpage : n ≠ params.m_page)
    (hnc : n ∉ (h.objs params.m_contentSystem).m_children)
    (hnp : some n ∉ params.m_pendingObjects) :
    ∃ h1, Object.Insert h params.m_currentSystem n
        (h.objs params.m_currentSystem).m_children.length = .ok h1 ∧
      CastOffInv h1 params ∧
      laidOut h1 params = laidOut h params ++ measuresIn h [n] ∧
      h1.next = h.next ∧
      (∀ q, (h1.objs q).classId = (h.objs q).classId) ∧
      (∀ q, q ≠ n → (h1.objs q).m_parent = (h.objs q).m_parent) ∧
      (h1.objs params.m_contentSystem).m_children =
        (h.objs params.m_contentSystem).m_children ∧
      (h1.objs params.m_currentSystem).m_children =
        (h.objs params.m_currentSystem).m_children ++ [n] ∧
      (∀ q, q ≠ params.m_currentSystem → (h1.objs q).m_children = (h.objs q).m_children) := by
  refine ⟨_, Insert_of_not_held h _ n hheld, ?_, ?_, rfl, ?_, ?_, ?_, ?_, ?_⟩
  · have hfs : finishedSystems ((h.setChildren params.m_currentSystem
          ((h.objs params.m_currentSystem).m_children ++ [n])).setParent n
            (some params.m_currentSystem)) params = finishedSystems h params := by
      apply finishedSystems_congr
      · simp [children_setParent, children_setChildren, Ne.symm hinv.cur_ne_doc]
      · intro pg hpg
        simp [children_setParent, children_setChildren, (hinv.pages pg hpg).2.2.2.2]
      · simp [children_setParent, children_setChildren, Ne.symm hinv.cur_ne_page]
    refine ⟨?_, hinv.cs_lt, hinv.doc_lt, hinv.page_lt, hinv.cur_lt, hinv.doc_ne_cs,
      hinv.page_ne_cs, hinv.cur_ne_cs, hinv.page_ne_doc, hinv.cur_ne_doc, hinv.cur_ne_page,
      ?_, ?_, ?_, ?_, ?_, ?_, ?_, ?_⟩
    · simpa [classId_setParent, classId_setChildren] using hinv.cs_system
    · intro pg hpg
      have hpg1 : pg ∈ (h.objs params.m_doc).m_children := by
        simpa [children_setParent, children_setChildren, Ne.symm hinv.cur_ne_doc] using hpg
      exact hinv.pages pg hpg1
    · intro s hs
      rw [hfs] at hs
      exact hinv.systems s hs
    · intro s hs m hm
      rw [hfs] at hs
      rcases List.mem_append.mp hs with hs1 | hs1
      · have hm1 : m ∈ (h.objs s).m_children := by
          simpa [children_setParent, children_setChildren, (hinv.systems s hs1).2.2.2.2] using hm
        exact hinv.placed s hs m hm1
      · simp only [List.mem_singleton] at hs1
        subst hs1
        have hm1 : m ∈ (h.objs params.m_currentSystem).m_children ∨ m = n := by
          simpa [children_setParent, children_setChildren] using hm
        rcases hm1 with hm1 | hm1
        · exact hinv.placed _ hs m hm1
        · subst hm1; exact hlt
    · simpa [parent_setParent, parent_setChildren, Ne.symm hcur] using hinv.cur_free
    · simpa [parent_setParent, parent_setChildren, Ne.symm hpage] using hinv.page_free
    · intro d hd
      have hd1 : d ∈ (h.objs params.m_contentSystem).m_children := by
        simpa [children_setParent, children_setChildren, Ne.symm hinv.cur_ne_cs] using hd
      have hdn : d ≠ n := fun e => hnc (e ▸ hd1)
      simpa [classId_setParent, classId_setChildren, parent_setParent, parent_setChildren, hdn]
        using hinv.content d hd1
    · intro e he
      obtain ⟨m, hem, hrest⟩ := hinv.pending e he
      have hmn : m ≠ n := by
        intro e1
        subst e1
        exact hnp (hem ▸ he)
      exact ⟨m, hem, by
        simpa [classId_setParent, classId_setChildren, parent_setParent, parent_setChildren, hmn]
          using hrest⟩
    · simpa [children_setParent, children_setChildren, Ne.symm hinv.cur_ne_cs] using hinv.nodup
  · unfold laidOut
    have hfs : finishedSystems ((h.setChildren params.m_currentSystem
          ((h.objs params.m_currentSystem).m_children ++ [n])).setParent n
            (some params.m_currentSystem)) params = finishedSystems h params := by
      apply finishedSystems_congr
      · simp [children_setParent, children_setChildren, Ne.symm hinv.cur_ne_doc]
      · intro pg hpg
        simp [children_setParent, children_setChildren, (hinv.pages pg hpg).2.2.2.2]
      · simp [children_setParent, children_setChildren, Ne.symm hinv.cur_ne_page]
    rw [hfs, flatten_map_append_singleton, flatten_map_append_singleton, List.append_assoc]
    congr 1
    · congr 1
      apply List.map_congr_left
      intro s hs
      apply systemMeasures_congr
      · simp [children_setParent, children_setChildren, (hinv.systems s hs).2.2.2.2]
      · intro m _
        simp [classId_setParent, classId_setChildren]
    · simp [systemMeasures, measuresIn, children_setParent, children_setChildren,
        classId_setParent, classId_setChildren, List.filter_append]
  · intro q
    simp [classId_setParent, classId_setChildren]
  · intro q hq
    simp [parent_setParent, parent_setChildren, hq]
  · simp [children_setParent, children_setChildren, Ne.symm hinv.cur_ne_cs]
  · simp [children_setParent, children_setChildren]
  · intro q hq
    simp [children_setParent, children_setChildren, hq]

/-- Draining free nodes of the content into the system being filled keeps the
invariant and lays out the measures among them, in order. -/
theorem castOffInv_drain (params : CastOffSystemsParams) :
    ∀ (L : List (Option Nat)) (h : Heap), CastOffInv h params →
      (∀ e ∈ L, ∃ n, e = some n ∧ (h.objs n).m_parent = some params.m_contentSystem ∧
        n < h.next ∧ n ≠ params.m_currentSystem ∧ n ≠ params.m_page ∧
        n ∉ (h.objs params.m_contentSystem).m_children ∧
        some n ∉ params.m_pendingObjects) →
      L.Nodup →
      ∃ h1, drainPending h params.m_currentSystem L = .ok h1 ∧
        CastOffInv h1 params ∧
        laidOut h1 params = laidOut h params ++ measuresIn h (L.filterMap id) ∧
        h1.next = h.next ∧
        (∀ q, (h1.objs q).classId = (h.objs q).classId) ∧
        (h1.objs params.m_contentSystem).m_children =
          (h.objs params.m_contentSystem).m_children ∧
        (h1.objs params.m_currentSystem).m_children =
          (h.objs params.m_currentSystem).m_children ++ L.filterMap id ∧
        (∀ q, q ≠ params.m_currentSystem →
          (h1.objs q).m_children = (h.objs q).m_children) := by
  intro L
  induction L with
  | nil =>
    intro h hinv _ _
    exact ⟨h, rfl, hinv, by simp [measuresIn], rfl, fun _ => rfl, rfl, by simp,
      fun _ _ => rfl⟩
  | cons e rest ih =>
    intro h hinv hL hnd
    obtain ⟨n, hen, hp, hlt, hcur, hpage, hnc, hnp⟩ := hL e (List.mem_cons_self _ _)
    subst hen
    have hheld : isHeld h n = false := by
      unfold isHeld
      rw [hp]
      simpa using hnc
    obtain ⟨h1, hins, hinv1, hlaid1, hnext1, hcls1, hpar1, hch1, hcur1, hoth1⟩ :=
      castOffInv_insert h params n hinv hheld hlt hcur hpage hnc hnp
    have hL1 : ∀ e ∈ rest, ∃ m, e = some m ∧
        (h1.objs m).m_parent = some params.m_contentSystem ∧
        m < h1.next ∧ m ≠ params.m_currentSystem ∧ m ≠ params.m_page ∧
        m ∉ (h1.objs params.m_contentSystem).m_children ∧
        some m ∉ params.m_pendingObjects := by
      intro e he
      obtain ⟨m, hem, hp2, hlt2, hcur2, hpage2, hnc2, hnp2⟩ := hL e (List.mem_cons_of_mem _ he)
      have hmn : m ≠ n := by
        intro e1
        subst e1
        exact (List.nodup_cons.mp hnd).1 (hem ▸ he)
      exact ⟨m, hem, by rw [hpar1 m hmn]; exact hp2, by rw [hnext1]; exact hlt2, hcur2, hpage2,
        by rw [hch1]; exact hnc2, hnp2⟩
    obtain ⟨h2, hdr, hinv2, hlaid2, hnext2, hcls2, hch2, hcur2, hoth2⟩ :=
      ih h1 hinv1 hL1 (List.nodup_cons.mp hnd).2
    refine ⟨h2, ?_, hinv2, ?_, by rw [hnext2, hnext1], ?_, by rw [hch2, hch1],
      by rw [hcur2, hcur1]; simp, fun q hq => by rw [hoth2 q hq, hoth1 q hq]⟩
    · unfold drainPending
      simp only [hins]
      exact hdr
    · rw [hlaid2, hlaid1, measuresIn_congr h h1 _ (fun q _ => hcls1 q), List.append_assoc]
      simp only [measuresIn, List.filterMap_cons, id, List.filter_cons]
      split <;> simp
    · intro q
      rw [hcls2, hcls1]

/-- Finalising the system being filled, when the page has room for it. -/
theorem flushSystem_room (ext : Heap → Nat → Int) (h : Heap) (params : CastOffSystemsParams)
    (hinv : CastOffInv h params)
    (hroom : ¬ ((h.objs params.m_page).m_children ≠ [] ∧
      cumulativeExtent ext h params.m_page + nodeExtent ext h params.m_currentSystem >
        params.m_pageHeight)) :
    ∃ h2 page2, flushSystem ext h params = .ok (h2, { params with m_page := page2 }) ∧
      FlushPost h params h2 page2 := by
  have hheld : isHeld h params.m_currentSystem = false := by
    unfold isHeld
    rw [hinv.cur_free]
  refine ⟨(h.setChildren params.m_page
      ((h.objs params.m_page).m_children ++ [params.m_currentSystem])).setParent
        params.m_currentSystem (some params.m_page), params.m_page, ?_, ?_⟩
  · unfold flushSystem
    rw [if_neg hroom, Insert_of_not_held h _ _ hheld]
  · refine ⟨le_refl _, hinv.page_lt, Or.inl rfl, hinv.page_ne_cs, hinv.page_ne_doc, ?_, ?_, ?_,
      ?_, ?_, ?_, ?_⟩
    · simpa [parent_setParent, parent_setChildren, Ne.symm hinv.cur_ne_page] using hinv.page_free
    · intro pg hpg
      have hpg1 : pg ∈ (h.objs params.m_doc).m_children := by
        simpa [children_setParent, children_setChildren, Ne.symm hinv.page_ne_doc] using hpg
      obtain ⟨a, b, c, d, _⟩ := hinv.pages pg hpg1
      exact ⟨a, b, c, d⟩
    · unfold finishedSystems
      simp only [children_setParent, children_setChildren, Ne.symm hinv.page_ne_doc, if_false,
        if_true, ← List.append_assoc]
      congr 3
      apply List.map_congr_left
      intro pg hpg
      simp [(hinv.pages pg hpg).2.2.2.1]
    · intro s hs
      rcases List.mem_append.mp hs with hs | hs
      · simp [children_setParent, children_setChildren, (hinv.systems s hs).2.2.2.1]
      · simp only [List.mem_singleton] at hs
        subst hs
        simp [children_setParent, children_setChildren, hinv.cur_ne_page]
    · simp [children_setParent, children_setChildren, Ne.symm hinv.page_ne_cs]
    · intro q _
      simp [classId_setParent, classId_setChildren]
    · intro q _ hq _
      simp [parent_setParent, parent_setChildren, hq]

/-- Finalising the system being filled, when it seeds a new page. -/
theorem flushSystem_newPage (ext : Heap → Nat → Int) (h : Heap) (params : CastOffSystemsParams)
    (hinv : CastOffInv h params)
    (hover : (h.objs params.m_page).m_children ≠ [] ∧
      cumulativeExtent ext h params.m_page + nodeExtent ext h params.m_currentSystem >
        params.m_pageHeight) :
    ∃ h2 page2, flushSystem ext h params = .ok (h2, { params with m_page := page2 }) ∧
      FlushPost h params h2 page2 := by
  have hheld : isHeld h params.m_page = false := by
    unfold isHeld
    rw [hinv.page_free]
  have hcs : params.m_contentSystem ≠ h.next := Nat.ne_of_lt hinv.cs_lt
  have hdoc : params.m_doc ≠ h.next := Nat.ne_of_lt hinv.doc_lt
  have hpage : params.m_page ≠ h.next := Nat.ne_of_lt hinv.page_lt
  have hcur : params.m_currentSystem ≠ h.next := Nat.ne_of_lt hinv.cur_lt
  refine ⟨((((h.setChildren params.m_doc
      ((h.objs params.m_doc).m_children ++ [params.m_page])).setParent params.m_page
        (some params.m_doc)).alloc .PAGE "page-").1.setChildren h.next
          [params.m_currentSystem]).setParent params.m_currentSystem (some h.next),
    h.next, ?_, ?_⟩
  · unfold flushSystem
    rw [if_pos hover, Insert_of_not_held h _ _ hheld]
    simp only [snd_alloc, next_setParent, next_setChildren]
    unfold Object.Insert isHeld
    simp [parent_alloc, parent_setParent, parent_setChildren, children_alloc, hcur,
      hinv.cur_ne_page, hinv.cur_free, next_setParent, next_setChildren]
  · refine ⟨?_, ?_, Or.inr (le_refl _), Ne.symm hcs, Ne.symm hdoc, ?_, ?_, ?_, ?_, ?_, ?_, ?_⟩
    · simp [next_setParent, next_setChildren, next_alloc]
    · simp [next_setParent, next_setChildren, next_alloc]
    · simp [parent_setParent, parent_setChildren, parent_alloc, next_setParent,
        next_setChildren, Ne.symm hcur]
    · intro pg hpg
      have hpg1 : pg ∈ (h.objs params.m_doc).m_children ∨ pg = params.m_page := by
        simpa [children_setParent, children_setChildren, children_alloc, next_setParent,
          next_setChildren, hdoc] using hpg
      simp only [next_setParent, next_setChildren, next_alloc]
      rcases hpg1 with hpg1 | hpg1
      · obtain ⟨a, b, c, _, _⟩ := hinv.pages pg hpg1
        exact ⟨Nat.lt_succ_of_lt a, b, c, Nat.ne_of_lt a⟩
      · subst hpg1
        exact ⟨Nat.lt_succ_of_lt hinv.page_lt, hinv.page_ne_cs, hinv.page_ne_doc, hpage⟩
    · unfold finishedSystems
      simp only [children_setParent, children_setChildren, children_alloc, next_setParent,
        next_setChildren, hdoc, if_false, if_true, List.map_append, List.flatten_append,
        List.map_cons, List.map_nil, List.flatten_cons, List.flatten_nil, hpage,
        hinv.page_ne_doc, List.append_nil]
      congr 3
      apply List.map_congr_left
      intro pg hpg
      simp [Nat.ne_of_lt (hinv.pages pg hpg).1, (hinv.pages pg hpg).2.2.1]
    · intro s hs
      have hs1 : s < h.next ∧ s ≠ params.m_doc := by
        rcases List.mem_append.mp hs with hs | hs
        · exact ⟨(hinv.systems s hs).1, (hinv.systems s hs).2.2.1⟩
        · simp only [List.mem_singleton] at hs
          subst hs
          exact ⟨hinv.cur_lt, hinv.cur_ne_doc⟩
      simp [children_setParent, children_setChildren, children_alloc, next_setParent,
        next_setChildren, Nat.ne_of_lt hs1.1, hs1.2]
    · simp [children_setParent, children_setChildren, children_alloc, next_setParent,
        next_setChildren, hcs, Ne.symm hinv.doc_ne_cs]
    · intro q hq
      simp [classId_setParent, classId_setChildren, classId_alloc, next_setParent,
        next_setChildren, Nat.ne_of_lt hq]
    · intro q hq hqc hqp
      simp [parent_setParent, parent_setChildren, parent_alloc, next_setParent,
        next_setChildren, Nat.ne_of_lt hq, hqc, hqp]

/-- Finalising the system being filled. -/
theorem flushSystem_spec (ext : Heap → Nat → Int) (h : Heap) (params : CastOffSystemsParams)
    (hinv : CastOffInv h params) :
    ∃ h2 page2, flushSystem ext h params = .ok (h2, { params with m_page := page2 }) ∧
      FlushPost h params h2 page2 := by
  by_cases hover : (h.objs params.m_page).m_children ≠ [] ∧
      cumulativeExtent ext h params.m_page + nodeExtent ext h params.m_currentSystem >
        params.m_pageHeight
  · exact flushSystem_newPage ext h params hinv hover
  · exact flushSystem_room ext h params hinv hover

/-- After the flush, a new empty system is opened: the invariant holds again,
with nothing pending, and what is laid out is unchanged. -/
theorem castOffInv_open (h : Heap) (params : CastOffSystemsParams) (h2 : Heap) (page2 : Nat)
    (pre : String) (hinv : CastOffInv h params) (hpost : FlushPost h params h2 page2) :
    CastOffInv (h2.alloc .SYSTEM pre).1
      { params with m_page := page2, m_currentSystem := h2.next, m_pendingObjects := [] } ∧
    laidOut (h2.alloc .SYSTEM pre).1
      { params with m_page := page2, m_currentSystem := h2.next, m_pendingObjects := [] } =
        laidOut h params ∧
    ((h2.alloc .SYSTEM pre).1.objs params.m_contentSystem).m_children =
      (h.objs params.m_contentSystem).m_children ∧
    (∀ q, q < h.next → ((h2.alloc .SYSTEM pre).1.objs q).classId = (h.objs q).classId) ∧
    (∀ q, q < h.next → q ≠ params.m_currentSystem → q ≠ params.m_page →
      ((h2.alloc .SYSTEM pre).1.objs q).m_parent = (h.objs q).m_parent) ∧
    finishedSystems (h2.alloc .SYSTEM pre).1
      { params with m_page := page2, m_currentSystem := h2.next, m_pendingObjects := [] } =
        finishedSystems h params ++ [params.m_currentSystem] ∧
    (∀ s ∈ finishedSystems h params ++ [params.m_currentSystem],
      ((h2.alloc .SYSTEM pre).1.objs s).m_children = (h.objs s).m_children) := by
  have hcs : params.m_contentSystem ≠ h2.next :=
    Nat.ne_of_lt (Nat.lt_of_lt_of_le hinv.cs_lt hpost.next_le)
  have hdoc : params.m_doc ≠ h2.next :=
    Nat.ne_of_lt (Nat.lt_of_lt_of_le hinv.doc_lt hpost.next_le)
  have hpage2 : page2 ≠ h2.next := Nat.ne_of_lt hpost.page_lt
  have hold : ∀ q, q < h.next → q ≠ h2.next := fun q hq =>
    Nat.ne_of_lt (Nat.lt_of_lt_of_le hq hpost.next_le)
  have hsys_lt : ∀ s ∈ finishedSystems h params ++ [params.m_currentSystem], s < h.next := by
    intro s hs
    rcases List.mem_append.mp hs with hs | hs
    · exact (hinv.systems s hs).1
    · simp only [List.mem_singleton] at hs
      subst hs
      exact hinv.cur_lt
  have hsys_page : ∀ s ∈ finishedSystems h params ++ [params.m_currentSystem], s ≠ page2 := by
    intro s hs
    rcases hpost.page_old_or_new with hp | hp
    · rw [hp]
      rcases List.mem_append.mp hs with hs | hs
      · exact (hinv.systems s hs).2.2.2.1
      · simp only [List.mem_singleton] at hs
        subst hs
        exact hinv.cur_ne_page
    · exact Nat.ne_of_lt (Nat.lt_of_lt_of_le (hsys_lt s hs) hp)
  have hnode_page : ∀ q, q < h.next → q ≠ params.m_page → q ≠ page2 := by
    intro q hq hqp
    rcases hpost.page_old_or_new with hp | hp
    · rw [hp]; exact hqp
    · exact Nat.ne_of_lt (Nat.lt_of_lt_of_le hq hp)
  have hfs : finishedSystems (h2.alloc .SYSTEM pre).1
      { params with m_page := page2, m_currentSystem := h2.next, m_pendingObjects := [] } =
        finishedSystems h params ++ [params.m_currentSystem] := by
    rw [← hpost.finished]
    apply finishedSystems_congr
    · simp [children_alloc, hdoc]
    · intro pg hpg
      simp [children_alloc, Nat.ne_of_lt (hpost.pages pg hpg).1]
    · simp [children_alloc, hpage2]
  have hsysch : ∀ s ∈ finishedSystems h params ++ [params.m_currentSystem],
      ((h2.alloc .SYSTEM pre).1.objs s).m_children = (h.objs s).m_children := by
    intro s hs
    rw [children_alloc, if_neg (hold s (hsys_lt s hs))]
    exact hpost.systems s hs
  have hkinds : ∀ q, q < h.next →
      ((h2.alloc .SYSTEM pre).1.objs q).classId = (h.objs q).classId := by
    intro q hq
    rw [classId_alloc, if_neg (hold q hq)]
    exact hpost.kinds q hq
  have hparents : ∀ q, q < h.next → q ≠ params.m_currentSystem → q ≠ params.m_page →
      ((h2.alloc .SYSTEM pre).1.objs q).m_parent = (h.objs q).m_parent := by
    intro q hq hqc hqp
    rw [parent_alloc, if_neg (hold q hq)]
    exact hpost.parents q hq hqc hqp
  have hcontent : ((h2.alloc .SYSTEM pre).1.objs params.m_contentSystem).m_children =
      (h.objs params.m_contentSystem).m_children := by
    rw [children_alloc, if_neg hcs]
    exact hpost.content
  refine ⟨⟨?_, ?_, ?_, ?_, ?_, hinv.doc_ne_cs, hpost.page_ne_cs, Ne.symm hcs,
    hpost.page_ne_doc, Ne.symm hdoc, Ne.symm hpage2, ?_, ?_, ?_, ?_, ?_, ?_, ?_, ?_⟩,
    ?_, hcontent, hkinds, hparents, hfs, hsysch⟩
  · rw [hkinds _ hinv.cs_lt]
    exact hinv.cs_system
  · exact Nat.lt_succ_of_lt (Nat.lt_of_lt_of_le hinv.cs_lt hpost.next_le)
  · exact Nat.lt_succ_of_lt (Nat.lt_of_lt_of_le hinv.doc_lt hpost.next_le)
  · exact Nat.lt_succ_of_lt hpost.page_lt
  · exact Nat.lt_succ_self _
  · intro pg hpg
    have hpg1 : pg ∈ (h2.objs params.m_doc).m_children := by
      simpa [children_alloc, hdoc] using hpg
    obtain ⟨a, b, c, d⟩ := hpost.pages pg hpg1
    exact ⟨Nat.lt_succ_of_lt a, b, c, d, Nat.ne_of_lt a⟩
  · intro s hs
    rw [hfs] at hs
    have hlt := hsys_lt s hs
    refine ⟨Nat.lt_succ_of_lt (Nat.lt_of_lt_of_le hlt hpost.next_le), ?_, ?_, hsys_page s hs,
      hold s hlt⟩
    · rcases List.mem_append.mp hs with hs | hs
      · exact (hinv.systems s hs).2.1
      · simp only [List.mem_singleton] at hs
        subst hs
        exact hinv.cur_ne_cs
    · rcases List.mem_append.mp hs with hs | hs
      · exact (hinv.systems s hs).2.2.1
      · simp only [List.mem_singleton] at hs
        subst hs
        exact hinv.cur_ne_doc
  · intro s hs n hn
    rw [hfs] at hs
    rcases List.mem_append.mp hs with hs | hs
    · rw [hsysch s hs] at hn
      exact Nat.lt_succ_of_lt (Nat.lt_of_lt_of_le (hinv.placed s hs n hn) hpost.next_le)
    · simp only [List.mem_singleton] at hs
      subst hs
      simp [children_alloc] at hn
  · simp [parent_alloc]
  · rw [parent_alloc, if_neg hpage2]
    exact hpost.page_free
  · intro c hc
    rw [hcontent] at hc
    obtain ⟨hp, hlt, hcur, hpage, hcls⟩ := hinv.content c hc
    refine ⟨?_, Nat.lt_succ_of_lt (Nat.lt_of_lt_of_le hlt hpost.next_le), hold c hlt,
      hnode_page c hlt hpage, ?_⟩
    · rw [hparents c hlt hcur hpage]
      exact hp
    · rw [hkinds c hlt]
      exact hcls
  · intro e he
    simp at he
  · have hnd := hinv.nodup
    rw [List.nodup_append] at hnd
    simpa [hcontent] using hnd.2.1
  · unfold laidOut
    rw [hfs, flatten_map_append_singleton]
    have hnew : systemMeasures (h2.alloc .SYSTEM pre).1 h2.next = [] := by
      simp [systemMeasures, measuresIn, children_alloc]
    dsimp only
    rw [hnew, List.append_nil]
    congr 1
    apply List.map_congr_left
    intro s hs
    apply systemMeasures_congr _ _ _ (hsysch s hs)
    intro n hn
    exact hkinds n (hinv.placed s hs n hn)

/-! ### Boundaries re-opened on a new system -/

theorem children_allocContinuation (h : Heap) (b q : Nat) :
    (((h.allocContinuation b).1).objs q).m_children =
      if q = h.next then [] else (h.objs q).m_children := by
  unfold Heap.allocContinuation Heap.setBoundary Heap.alloc
  by_cases hq : q = h.next
  · subst hq; simp
  · simp [Function.update_noteq hq, hq]

theorem classId_allocContinuation (h : Heap) (b q : Nat) :
    (((h.allocContinuation b).1).objs q).classId =
      if q = h.next then .BOUNDARY_CONTINUATION else (h.objs q).classId := by
  unfold Heap.allocContinuation Heap.setBoundary Heap.alloc
  by_cases hq : q = h.next
  · subst hq; simp
  · simp [Function.update_noteq hq, hq]

theorem parent_allocContinuation (h : Heap) (b q : Nat) :
    (((h.allocContinuation b).1).objs q).m_parent =
      if q = h.next then none else (h.objs q).m_parent := by
  unfold Heap.allocContinuation Heap.setBoundary Heap.alloc
  by_cases hq : q = h.next
  · subst hq; simp
  · simp [Function.update_noteq hq, hq]

theorem next_allocContinuation (h : Heap) (b : Nat) :
    ((h.allocContinuation b).1).next = h.next + 1 := rfl

theorem snd_allocContinuation (h : Heap) (b : Nat) :
    (h.allocContinuation b).2 = h.next := rfl

/-- A newly created wrapper leaves the invariant and what is laid out as they
are. -/
theorem castOffInv_allocContinuation (h : Heap) (params : CastOffSystemsParams) (b : Nat)
    (hinv : CastOffInv h params) :
    CastOffInv (h.allocContinuation b).1 params ∧
    laidOut (h.allocContinuation b).1 params = laidOut h params := by
  have hcs : params.m_contentSystem ≠ h.next := Nat.ne_of_lt hinv.cs_lt
  have hdoc : params.m_doc ≠ h.next := Nat.ne_of_lt hinv.doc_lt
  have hpage : params.m_page ≠ h.next := Nat.ne_of_lt hinv.page_lt
  have hcur : params.m_currentSystem ≠ h.next := Nat.ne_of_lt hinv.cur_lt
  have hfs : finishedSystems (h.allocContinuation b).1 params = finishedSystems h params := by
    apply finishedSystems_congr
    · simp [children_allocContinuation, hdoc]
    · intro pg hpg
      simp [children_allocContinuation, Nat.ne_of_lt (hinv.pages pg hpg).1]
    · simp [children_allocContinuation, hpage]
  have hsys_lt : ∀ s ∈ finishedSystems h params ++ [params.m_currentSystem], s < h.next := by
    intro s hs
    rcases List.mem_append.mp hs with hs | hs
    · exact (hinv.systems s hs).1
    · simp only [List.mem_singleton] at hs
      subst hs
      exact hinv.cur_lt
  have hsysch : ∀ s ∈ finishedSystems h params ++ [params.m_currentSystem],
      ((h.allocContinuation b).1.objs s).m_children = (h.objs s).m_children := by
    intro s hs
    rw [children_allocContinuation, if_neg (Nat.ne_of_lt (hsys_lt s hs))]
  have hcontent : ((h.allocContinuation b).1.objs params.m_contentSystem).m_children =
      (h.objs params.m_contentSystem).m_children := by
    rw [children_allocContinuation, if_neg hcs]
  refine ⟨⟨?_, ?_, ?_, ?_, ?_, hinv.doc_ne_cs, hinv.page_ne_cs, hinv.cur_ne_cs,
    hinv.page_ne_doc, hinv.cur_ne_doc, hinv.cur_ne_page, ?_, ?_, ?_, ?_, ?_, ?_, ?_, ?_⟩, ?_⟩
  · rw [classId_allocContinuation, if_neg hcs]
    exact hinv.cs_system
  · exact Nat.lt_succ_of_lt hinv.cs_lt
  · exact Nat.lt_succ_of_lt hinv.doc_lt
  · exact Nat.lt_succ_of_lt hinv.page_lt
  · exact Nat.lt_succ_of_lt hinv.cur_lt
  · intro pg hpg
    have hpg1 : pg ∈ (h.objs params.m_doc).m_children := by
      simpa [children_allocContinuation, hdoc] using hpg
    obtain ⟨a, r⟩ := hinv.pages pg hpg1
    exact ⟨Nat.lt_succ_of_lt a, r⟩
  · intro s hs
    rw [hfs] at hs
    obtain ⟨a, r⟩ := hinv.systems s hs
    exact ⟨Nat.lt_succ_of_lt a, r⟩
  · intro s hs n hn
    rw [hfs] at hs
    rw [hsysch s hs] at hn
    exact Nat.lt_succ_of_lt (hinv.placed s hs n hn)
  · rw [parent_allocContinuation, if_neg hcur]
    exact hinv.cur_free
  · rw [parent_allocContinuation, if_neg hpage]
    exact hinv.page_free
  · intro c hc
    rw [hcontent] at hc
    obtain ⟨hp, hlt, r1, r2, hk⟩ := hinv.content c hc
    refine ⟨?_, Nat.lt_succ_of_lt hlt, r1, r2, ?_⟩
    · rw [parent_allocContinuation, if_neg (Nat.ne_of_lt hlt)]
      exact hp
    · rw [classId_allocContinuation, if_neg (Nat.ne_of_lt hlt)]
      exact hk
  · intro e he
    obtain ⟨n, hen, hp, hlt, r1, r2, hk⟩ := hinv.pending e he
    refine ⟨n, hen, ?_, Nat.lt_succ_of_lt hlt, r1, r2, ?_⟩
    · rw [parent_allocContinuation, if_neg (Nat.ne_of_lt hlt)]
      exact hp
    · rw [classId_allocContinuation, if_neg (Nat.ne_of_lt hlt)]
      exact hk
  · rw [hcontent]
    exact hinv.nodup
  · apply laidOut_congr _ _ _ _ hfs rfl
    intro s hs
    apply systemMeasures_congr _ _ _ (hsysch s hs)
    intro n hn
    rw [classId_allocContinuation, if_neg (Nat.ne_of_lt (hinv.placed s hs n hn))]

/-- One boundary re-opened on the system being filled: the wrapper becomes its
last child, the invariant holds and what is laid out is unchanged. -/
theorem castOffInv_wrapper (h : Heap) (params : CastOffSystemsParams) (b : Nat)
    (hinv : CastOffInv h params) :
    ∃ h1, Object.Insert (h.allocContinuation b).1 params.m_currentSystem
        (h.allocContinuation b).2
        ((h.allocContinuation b).1.objs params.m_currentSystem).m_children.length = .ok h1 ∧
      CastOffInv h1 params ∧
      laidOut h1 params = laidOut h params ∧
      h1.next = h.next + 1 ∧
      (∀ q, q < h.next → (h1.objs q).classId = (h.objs q).classId) ∧
      (h1.objs h.next).classId = .BOUNDARY_CONTINUATION ∧
      (∀ q, q < h.next → (h1.objs q).m_parent = (h.objs q).m_parent) ∧
      (h1.objs params.m_contentSystem).m_children =
        (h.objs params.m_contentSystem).m_children ∧
      (h1.objs params.m_currentSystem).m_children =
        (h.objs params.m_currentSystem).m_children ++ [h.next] ∧
      (∀ q, q ≠ params.m_currentSystem → q < h.next →
        (h1.objs q).m_children = (h.objs q).m_children) := by
  obtain ⟨hinv0, hlaid0⟩ := castOffInv_allocContinuation h params b hinv
  have hcs : params.m_contentSystem ≠ h.next := Nat.ne_of_lt hinv.cs_lt
  have hcur : params.m_currentSystem ≠ h.next := Nat.ne_of_lt hinv.cur_lt
  have hpage : params.m_page ≠ h.next := Nat.ne_of_lt hinv.page_lt
  have hheld : isHeld (h.allocContinuation b).1 h.next = false := by
    unfold isHeld
    rw [parent_allocContinuation, if_pos rfl]
  have hnc : h.next ∉ ((h.allocContinuation b).1.objs params.m_contentSystem).m_children := by
    rw [children_allocContinuation, if_neg hcs]
    intro hmem
    exact Nat.lt_irrefl _ (hinv.content _ hmem).2.1
  have hnp : some h.next ∉ params.m_pendingObjects := by
    intro hmem
    obtain ⟨n, hen, _, hlt, _⟩ := hinv.pending _ hmem
    simp only [Option.some.injEq] at hen
    subst hen
    exact Nat.lt_irrefl _ hlt
  obtain ⟨h1, hins, hinv1, hlaid1, hnext1, hcls1, hpar1, hcont1, hcur1, hoth1⟩ :=
    castOffInv_insert (h.allocContinuation b).1 params h.next hinv0 hheld
      (by rw [next_allocContinuation]; exact Nat.lt_succ_self _) (Ne.symm hcur) (Ne.symm hpage)
      hnc hnp
  refine ⟨h1, hins, hinv1, ?_, by rw [hnext1, next_allocContinuation], ?_, ?_, ?_, ?_, ?_, ?_⟩
  · rw [hlaid1, hlaid0]
    simp [measuresIn, classId_allocContinuation]
  · intro q hq
    rw [hcls1, classId_allocContinuation, if_neg (Nat.ne_of_lt hq)]
  · rw [hcls1, classId_allocContinuation, if_pos rfl]
  · intro q hq
    rw [hpar1 q (Nat.ne_of_lt hq), parent_allocContinuation, if_neg (Nat.ne_of_lt hq)]
  · rw [hcont1, children_allocContinuation, if_neg hcs]
  · rw [hcur1, children_allocContinuation, if_neg hcur]
  · intro q hq hlt
    rw [hoth1 q hq, children_allocContinuation, if_neg (Nat.ne_of_lt hlt)]

/-- The boundaries re-opened on the system being filled: the wrappers become
its last children, the invariant holds and what is laid out is unchanged. -/
theorem castOffInv_reopen (params : CastOffSystemsParams) :
    ∀ (bs : List Nat) (h : Heap), CastOffInv h params →
      ∃ h1 ws, reopenBoundaries h params.m_currentSystem bs = .ok h1 ∧
        CastOffInv h1 params ∧
        laidOut h1 params = laidOut h params ∧
        h.next ≤ h1.next ∧
        (∀ q, q < h.next → (h1.objs q).classId = (h.objs q).classId) ∧
        (∀ q, q < h.next → (h1.objs q).m_parent = (h.objs q).m_parent) ∧
        (h1.objs params.m_contentSystem).m_children =
          (h.objs params.m_contentSystem).m_children ∧
        (h1.objs params.m_currentSystem).m_children =
          (h.objs params.m_currentSystem).m_children ++ ws ∧
        (∀ w ∈ ws, (h1.objs w).classId = .BOUNDARY_CONTINUATION) ∧
        (∀ q, q ≠ params.m_currentSystem → q < h.next →
          (h1.objs q).m_children = (h.objs q).m_children) := by
  intro bs
  induction bs with
  | nil =>
    intro h hinv
    exact ⟨h, [], rfl, hinv, rfl, le_refl _, fun _ _ => rfl, fun _ _ => rfl, rfl, by simp,
      by simp, fun _ _ _ => rfl⟩
  | cons b rest ih =>
    intro h hinv
    obtain ⟨h1, hins, hinv1, hlaid1, hnext1, hcls1, hw1, hpar1, hcont1, hcur1, hoth1⟩ :=
      castOffInv_wrapper h params b hinv
    obtain ⟨h2, ws, hrun, hinv2, hlaid2, hnext2, hcls2, hpar2, hcont2, hcur2, hws2, hoth2⟩ :=
      ih h1 hinv1
    have hlt1 : ∀ q, q < h.next → q < h1.next := fun q hq => by
      rw [hnext1]; exact Nat.lt_succ_of_lt hq
    refine ⟨h2, h.next :: ws, ?_, hinv2, by rw [hlaid2, hlaid1], ?_, ?_, ?_,
      by rw [hcont2, hcont1], ?_, ?_, ?_⟩
    · unfold reopenBoundaries
      simp only [hins]
      exact hrun
    · rw [hnext1] at hnext2
      omega
    · intro q hq
      rw [hcls2 q (hlt1 q hq), hcls1 q hq]
    · intro q hq
      rw [hpar2 q (hlt1 q hq), hpar1 q hq]
    · rw [hcur2, hcur1]
      simp
    · intro w hw
      rcases List.mem_cons.mp hw with e | hw
      · subst e
        rw [hcls2 _ (by rw [hnext1]; exact Nat.lt_succ_self _)]
        exact hw1
      · exact hws2 w hw
    · intro q hq hlt
      rw [hoth2 q hq (hlt1 q hlt), hoth1 q hq hlt]

/-! ### The step of ordinary content -/

theorem not_measure_of_sectionOrBreak (c : ClassId) (hk : isSectionOrBreak c = true) :
    c ≠ .MEASURE := by
  intro e
  subst e
  simp [isSectionOrBreak] at hk

theorem not_ordinary_of_sectionOrBreak (c : ClassId) (hk : isSectionOrBreak c = true) :
    isOrdinaryContent c = false := by
  cases c <;> simp [isSectionOrBreak] at hk <;> simp [isOrdinaryContent]

theorem measuresIn_pending (h : Heap) (P : List (Option Nat))
    (hP : ∀ e ∈ P, ∃ n, e = some n ∧ isSectionOrBreak (h.objs n).classId = true) :
    measuresIn h (P.filterMap id) = [] := by
  unfold measuresIn
  rw [List.filter_eq_nil_iff]
  intro n hn
  rw [List.mem_filterMap] at hn
  obtain ⟨e, he, hen⟩ := hn
  obtain ⟨m, hem, hk⟩ := hP e he
  subst hem
  simp only [id, Option.some.injEq] at hen
  subst hen
  simpa using not_measure_of_sectionOrBreak _ hk

/-- The finalised systems and their children are those of a heap that differs
only in the children of the content system and of the system being filled. -/
theorem finishedSystems_frame (h h1 : Heap) (params : CastOffSystemsParams)
    (hinv : CastOffInv h params)
    (hfr : ∀ q, q < h.next → q ≠ params.m_contentSystem → q ≠ params.m_currentSystem →
      (h1.objs q).m_children = (h.objs q).m_children) :
    finishedSystems h1 params = finishedSystems h params ∧
    ∀ s ∈ finishedSystems h params, (h1.objs s).m_children = (h.objs s).m_children := by
  refine ⟨?_, ?_⟩
  · apply finishedSystems_congr
    · exact hfr _ hinv.doc_lt hinv.doc_ne_cs (Ne.symm hinv.cur_ne_doc)
    · intro pg hpg
      obtain ⟨a, b, _, _, e⟩ := hinv.pages pg hpg
      exact hfr pg a b e
    · exact hfr _ hinv.page_lt hinv.page_ne_cs (Ne.symm hinv.cur_ne_page)
  · intro s hs
    obtain ⟨a, b, _, _, e⟩ := hinv.systems s hs
    exact hfr s a b e

theorem castOffContent_head (ext : Heap → Nat → Int) (isOpenAt : Heap → Nat → Nat → Bool)
    (h : Heap) (params : CastOffSystemsParams) (c : Nat) (rest : List Nat)
    (hl : (h.objs params.m_contentSystem).m_children = c :: rest)
    (hp : (h.objs c).m_parent = some params.m_contentSystem) :
    castOffContent ext isOpenAt h params c =
      if breakPending h params = true ∨
          ((h.objs params.m_currentSystem).m_children ≠ [] ∧
            cumulativeExtent ext h params.m_currentSystem + nodeExtent ext h c >
              params.m_systemWidth) then
        match flushSystem ext (h.setChildren params.m_contentSystem rest) params with
        | .error e => .error e
        | .ok (h2, params2) =>
          match reopenBoundaries (h2.alloc .SYSTEM "system-").1 (h2.alloc .SYSTEM "system-").2
              (openBoundaries isOpenAt h params c) with
          | .error e => .error e
          | .ok h3 =>
            match drainPending h3 (h2.alloc .SYSTEM "system-").2
                (params.m_pendingObjects ++ [some c]) with
            | .error e => .error e
            | .ok h4 =>
              .ok (h4, { params2 with m_currentSystem := (h2.alloc .SYSTEM "system-").2,
                                      m_pendingObjects := [] }, .FUNCTOR_SIBLINGS)
      else
        match Object.Insert (h.setChildren params.m_contentSystem rest) params.m_currentSystem c
            ((h.setChildren params.m_contentSystem rest).objs
              params.m_currentSystem).m_children.length with
        | .error e => .error e
        | .ok h2 => .ok (h2, params, .FUNCTOR_SIBLINGS) := by
  have hm : c ∈ (h.objs params.m_contentSystem).m_children := by simp [hl]
  unfold castOffContent
  rw [GetIdx_of_child h c _ ⟨hp, hm⟩]
  simp only [Relinquish_indexOf h _ c hm]
  rw [hl, List.erase_cons_head]

/-- The visit of ordinary content at the head of the content system keeps the
invariant, lays the node out last if it is a measure, and leaves the finalised
systems as they are. When a break is pending, the system being filled is
finalised as it is, and the node lands in a new system, behind the re-opened
boundaries and the nodes that were pending. -/
theorem castOffInv_content (ext : Heap → Nat → Int) (isOpenAt : Heap → Nat → Nat → Bool)
    (h : Heap) (params : CastOffSystemsParams)
    (c : Nat) (rest : List Nat) (hinv : CastOffInv h params)
    (hl : (h.objs params.m_contentSystem).m_children = c :: rest) :
    ∃ h1 params1, castOffContent ext isOpenAt h params c =
        .ok (h1, params1, .FUNCTOR_SIBLINGS) ∧
      CastOffInv h1 params1 ∧
      params1.m_contentSystem = params.m_contentSystem ∧ params1.m_doc = params.m_doc ∧
      (h1.objs params.m_contentSystem).m_children = rest ∧
      laidOut h1 params1 = laidOut h params ++ measuresIn h [c] ∧
      (∀ q, q < h.next → (h1.objs q).classId = (h.objs q).classId) ∧
      h.next ≤ h1.next ∧
      (∀ s ∈ finishedSystems h params,
        s ∈ finishedSystems h1 params1 ∧ (h1.objs s).m_children = (h.objs s).m_children) ∧
      (breakPending h params = true →
        (h1.objs params.m_currentSystem).m_children =
          (h.objs params.m_currentSystem).m_children ∧
        params.m_currentSystem ∈ finishedSystems h1 params1 ∧
        h.next ≤ params1.m_currentSystem ∧
        ∃ ws, (h1.objs params1.m_currentSystem).m_children =
            ws ++ params.m_pendingObjects.filterMap id ++ [c] ∧
          ∀ w ∈ ws, (h1.objs w).classId = .BOUNDARY_CONTINUATION) := by
  obtain ⟨hp, hlt, hcur, hpage, hnrest, hnpend, _⟩ := castOffInv_head h params c rest hinv hl
  obtain ⟨hrel, hlaidrel⟩ := castOffInv_relinquish h params c rest hinv hl
  have hrest : ((h.setChildren params.m_contentSystem rest).objs
      params.m_contentSystem).m_children = rest := by
    simp [children_setChildren]
  have hrelfs := finishedSystems_frame h (h.setChildren params.m_contentSystem rest) params hinv
    (fun q _ hq _ => by simp [children_setChildren, hq])
  have hrelcur : ((h.setChildren params.m_contentSystem rest).objs
      params.m_currentSystem).m_children = (h.objs params.m_currentSystem).m_children := by
    simp [children_setChildren, hinv.cur_ne_cs]
  rw [castOffContent_head ext isOpenAt h params c rest hl hp]
  split
  · -- the node seeds the next system
    obtain ⟨h2, page2, hflush, hpost⟩ :=
      flushSystem_spec ext (h.setChildren params.m_contentSystem rest) params hrel
    obtain ⟨hinv3, hlaid3, hcont3, hkinds3, hparents3, hfs3, hsysch3⟩ :=
      castOffInv_open _ params h2 page2 "system-" hrel hpost
    obtain ⟨h3, ws, hreopen, hinv4, hlaid4, hnext4, hcls4, hpar4, hcont4, hcur4, hws4, hoth4⟩ :=
      castOffInv_reopen
        { params with m_page := page2, m_currentSystem := h2.next, m_pendingObjects := [] }
        (openBoundaries isOpenAt h params c) (h2.alloc .SYSTEM "system-").1 hinv3
    have hnext2 : h.next ≤ h2.next := hpost.next_le
    have hnext3 : h2.next + 1 ≤ h3.next := hnext4
    have hL : ∀ e ∈ params.m_pendingObjects ++ [some c], ∃ n, e = some n ∧
        (h3.objs n).m_parent = some params.m_contentSystem ∧
        n < h3.next ∧ n ≠ h2.next ∧ n ≠ page2 ∧
        n ∉ (h3.objs params.m_contentSystem).m_children ∧
        some n ∉ ([] : List (Option Nat)) := by
      have key : ∀ n, (h.objs n).m_parent = some params.m_contentSystem → n < h.next →
          n ≠ params.m_currentSystem → n ≠ params.m_page → n ∉ rest →
          (h3.objs n).m_parent = some params.m_contentSystem ∧
          n < h3.next ∧ n ≠ h2.next ∧ n ≠ page2 ∧
          n ∉ (h3.objs params.m_contentSystem).m_children ∧
          some n ∉ ([] : List (Option Nat)) := by
        intro n hpn hltn hcurn hpagen hnr
        have hlt2 : n < h2.next := Nat.lt_of_lt_of_le hltn hpost.next_le
        refine ⟨?_, ?_, Nat.ne_of_lt hlt2, ?_, ?_, by simp⟩
        · rw [hpar4 n (by rw [next_alloc]; exact Nat.lt_succ_of_lt hlt2),
            hparents3 n hltn hcurn hpagen, parent_setChildren]
          exact hpn
        · omega
        · rcases hpost.page_old_or_new with e | e
          · rw [e]; exact hpagen
          · exact Nat.ne_of_lt (Nat.lt_of_lt_of_le hltn e)
        · rw [hcont4, hcont3, hrest]
          exact hnr
      intro e he
      rcases List.mem_append.mp he with he | he
      · obtain ⟨n, hen, hpn, hltn, hcurn, hpagen, _⟩ := hinv.pending e he
        refine ⟨n, hen, key n hpn hltn hcurn hpagen ?_⟩
        intro hmem
        have hnd := hinv.nodup
        rw [hl, List.nodup_append] at hnd
        exact hnd.2.2 he (by rw [hen]; exact List.mem_map_of_mem _ (List.mem_cons_of_mem _ hmem))
      · simp only [List.mem_singleton] at he
        exact ⟨c, he, key c hp hlt hcur hpage hnrest⟩
    have hLnd : (params.m_pendingObjects ++ [some c]).Nodup := by
      have hnd := hinv.nodup
      rw [List.nodup_append] at hnd
      rw [List.nodup_append]
      refine ⟨hnd.1, by simp, ?_⟩
      intro a ha hb
      simp only [List.mem_singleton] at hb
      subst hb
      exact hnpend ha
    obtain ⟨h4, hdrain, hinv5, hlaid5, hnext5, hcls5, hcont5, hcur5, hoth5⟩ :=
      castOffInv_drain
        { params with m_page := page2, m_currentSystem := h2.next, m_pendingObjects := [] }
        _ h3 hinv4 hL hLnd
    -- the finalised systems, the flushed one among them, through the re-opening and the drain
    have hfr4 := finishedSystems_frame (h2.alloc .SYSTEM "system-").1 h3
      { params with m_page := page2, m_currentSystem := h2.next, m_pendingObjects := [] } hinv3
      (fun q hq _ hqc => hoth4 q hqc hq)
    have hfr5 := finishedSystems_frame h3 h4
      { params with m_page := page2, m_currentSystem := h2.next, m_pendingObjects := [] } hinv4
      (fun q _ _ hqc => hoth5 q hqc)
    have hfin : finishedSystems h4
        { params with m_page := page2, m_currentSystem := h2.next, m_pendingObjects := [] } =
          finishedSystems h params ++ [params.m_currentSystem] := by
      rw [hfr5.1, hfr4.1, hfs3, hrelfs.1]
    have hfinch : ∀ s ∈ finishedSystems h params ++ [params.m_currentSystem],
        (h4.objs s).m_children = (h.objs s).m_children := by
      intro s hs
      have hs3 : s ∈ finishedSystems (h2.alloc .SYSTEM "system-").1
          { params with m_page := page2, m_currentSystem := h2.next, m_pendingObjects := [] } := by
        rw [hfs3, hrelfs.1]; exact hs
      have hs4 : s ∈ finishedSystems h3
          { params with m_page := page2, m_currentSystem := h2.next, m_pendingObjects := [] } := by
        rw [hfr4.1]; exact hs3
      rw [hfr5.2 s hs4, hfr4.2 s hs3, hsysch3 s (by rw [hrelfs.1]; exact hs)]
      rcases List.mem_append.mp hs with hs | hs
      · exact hrelfs.2 s hs
      · simp only [List.mem_singleton] at hs
        subst hs
        exact hrelcur
    have hkinds : ∀ q, q < h.next → (h4.objs q).classId = (h.objs q).classId := by
      intro q hq
      rw [hcls5, hcls4 q (by rw [next_alloc]; omega), hkinds3 q hq, classId_setChildren]
    refine ⟨h4, _, ?_, hinv5, rfl, rfl, ?_, ?_, hkinds, by omega, ?_, ?_⟩
    · simp only [hflush]
      simp only [snd_alloc]
      rw [show reopenBoundaries (h2.alloc .SYSTEM "system-").1 h2.next
        (openBoundaries isOpenAt h params c) = .ok h3 from hreopen]
      simp only []
      rw [show drainPending h3 h2.next
        (params.m_pendingObjects ++ [some c]) = .ok h4 from hdrain]
    · rw [hcont5, hcont4, hcont3, hrest]
    · rw [hlaid5, hlaid4, hlaid3, hlaidrel, List.filterMap_append, measuresIn]
      rw [List.filter_append]
      have hpend0 : measuresIn h3 (params.m_pendingObjects.filterMap id) = [] := by
        apply measuresIn_pending
        intro e he
        obtain ⟨n, hen, _, hltn, _, _, hkn⟩ := hinv.pending e he
        refine ⟨n, hen, ?_⟩
        rw [hcls4 n (by rw [next_alloc]; omega), hkinds3 n hltn, classId_setChildren]
        exact hkn
      unfold measuresIn at hpend0
      rw [hpend0, List.nil_append]
      have hc3 : (h3.objs c).classId = (h.objs c).classId := by
        rw [hcls4 c (by rw [next_alloc]; omega), hkinds3 c hlt, classId_setChildren]
      simp [measuresIn, List.filter_cons, hc3]
    · intro s hs
      refine ⟨?_, hfinch s (List.mem_append_left _ hs)⟩
      rw [hfin]
      exact List.mem_append_left _ hs
    · intro _
      refine ⟨hfinch _ (by simp), ?_, hnext2, ws, ?_, ?_⟩
      · rw [hfin]
        simp
      · show (h4.objs h2.next).m_children = _
        have e5 : (h4.objs h2.next).m_children =
            (h3.objs h2.next).m_children ++ (params.m_pendingObjects ++ [some c]).filterMap id :=
          hcur5
        have e4 : (h3.objs h2.next).m_children =
            ((h2.alloc .SYSTEM "system-").1.objs h2.next).m_children ++ ws := hcur4
        rw [e5, e4, children_alloc, if_pos rfl]
        simp [List.filterMap_append]
      · intro w hw
        rw [hcls5]
        exact hws4 w hw
  · -- the node fits the system being filled
    rename_i hfit
    have hnc : c ∉ ((h.setChildren params.m_contentSystem rest).objs
        params.m_contentSystem).m_children := by
      rw [hrest]; exact hnrest
    have hheld : isHeld (h.setChildren params.m_contentSystem rest) c = false := by
      unfold isHeld
      rw [parent_setChildren, hp]
      simpa using hnc
    obtain ⟨h1, hins, hinv1, hlaid1, hnext1, hcls1, _, hcont1, _, hoth1⟩ :=
      castOffInv_insert (h.setChildren params.m_contentSystem rest) params c hrel
        hheld hlt hcur hpage hnc hnpend
    have hfr1 := finishedSystems_frame (h.setChildren params.m_contentSystem rest) h1 params hrel
      (fun q _ _ hqc => hoth1 q hqc)
    refine ⟨h1, params, ?_, hinv1, rfl, rfl, ?_, ?_, ?_, ?_, ?_, ?_⟩
    · rw [hins]
    · rw [hcont1, hrest]
    · rw [hlaid1, hlaidrel, measuresIn_congr h _ [c] (fun q _ => classId_setChildren _ _ _ _)]
    · intro q _
      rw [hcls1, classId_setChildren]
    · rw [hnext1]
      exact le_refl _
    · intro s hs
      have hs1 : s ∈ finishedSystems (h.setChildren params.m_contentSystem rest) params := by
        rw [hrelfs.1]; exact hs
      refine ⟨?_, ?_⟩
      · rw [hfr1.1]; exact hs1
      · rw [hfr1.2 s hs1, hrelfs.2 s hs]
    · intro hbp
      exact absurd (Or.inl hbp) hfit

/-! ### Order of the measures across cast-off -/

/-- The visit of a section or break at the head of the content system. -/
theorem castOffVisit_sectionOrBreak_head (ext : Heap → Nat → Int)
    (isOpenAt : Heap → Nat → Nat → Bool) (h : Heap) (params : CastOffSystemsParams)
    (c : Nat) (rest : List Nat) (hinv : CastOffInv h params)
    (hl : (h.objs params.m_contentSystem).m_children = c :: rest)
    (hk : isSectionOrBreak (h.objs c).classId = true) :
    castOffVisit ext isOpenAt h params c =
      .ok (h.setChildren params.m_contentSystem rest,
        { params with m_pendingObjects := params.m_pendingObjects ++ [some c] },
        .FUNCTOR_SIBLINGS) := by
  have hmem : c ∈ (h.objs params.m_contentSystem).m_children := by simp [hl]
  have hp := (hinv.content c hmem).1
  have hstep := castOffSectionOrBreak_child h params c hk ⟨hp, hmem⟩ hinv.cs_system
  rw [hl, List.erase_cons_head, ← castOffVisit_sectionOrBreak ext isOpenAt h params c hk] at hstep
  exact hstep

/-- A section or break moved to the pending queue: a break is pending then if
one was pending before or the node is a break marker. -/
theorem breakPending_sectionOrBreak (h : Heap) (params : CastOffSystemsParams) (c : Nat)
    (rest : List Nat) :
    breakPending (h.setChildren params.m_contentSystem rest)
      { params with m_pendingObjects := params.m_pendingObjects ++ [some c] } =
      (breakPending h params || isBreakMarker (h.objs c).classId) := by
  unfold breakPending
  simp only [List.any_append, classId_setChildren]
  simp

/-- The visit of the head of the content system succeeds, answers
`FUNCTOR_SIBLINGS`, consumes the head, keeps the invariant, lays the head out
last if it is a measure, and leaves the finalised systems as they are. -/
theorem castOffVisit_inv (ext : Heap → Nat → Int) (isOpenAt : Heap → Nat → Nat → Bool)
    (h : Heap) (params : CastOffSystemsParams)
    (c : Nat) (rest : List Nat) (hinv : CastOffInv h params)
    (hl : (h.objs params.m_contentSystem).m_children = c :: rest) :
    ∃ h1 params1, castOffVisit ext isOpenAt h params c = .ok (h1, params1, .FUNCTOR_SIBLINGS) ∧
      CastOffInv h1 params1 ∧
      params1.m_contentSystem = params.m_contentSystem ∧ params1.m_doc = params.m_doc ∧
      (h1.objs params.m_contentSystem).m_children = rest ∧
      laidOut h1 params1 ++ measuresIn h1 rest = laidOut h params ++ measuresIn h (c :: rest) ∧
      (∀ s ∈ finishedSystems h params,
        s ∈ finishedSystems h1 params1 ∧ (h1.objs s).m_children = (h.objs s).m_children) := by
  obtain ⟨hp, hlt, hcur, hpage, hnrest, hnpend, hkind⟩ :=
    castOffInv_head h params c rest hinv hl
  have hrest_lt : ∀ n ∈ rest, n < h.next := by
    intro n hn
    exact (hinv.content n (by rw [hl]; exact List.mem_cons_of_mem _ hn)).2.1
  have hsplit : measuresIn h (c :: rest) = measuresIn h [c] ++ measuresIn h rest := by
    unfold measuresIn
    rw [← List.filter_append]
    rfl
  rcases hkind with hk | hk
  · obtain ⟨h1, params1, hstep, hinv1, hcs1, hdoc1, hcont1, hlaid1, hcls1, _, hfin1, _⟩ :=
      castOffInv_content ext isOpenAt h params c rest hinv hl
    refine ⟨h1, params1, ?_, hinv1, hcs1, hdoc1, hcont1, ?_, hfin1⟩
    · unfold castOffVisit
      rw [hk]
      exact hstep
    · rw [hlaid1, measuresIn_congr h h1 rest (fun q hq => hcls1 q (hrest_lt q hq)),
        List.append_assoc, hsplit]
  · obtain ⟨hinv1, hlaid1⟩ := castOffInv_sectionOrBreak h params c rest hinv hl hk
    have hfr := finishedSystems_frame h (h.setChildren params.m_contentSystem rest) params hinv
      (fun q _ hq _ => by simp [children_setChildren, hq])
    refine ⟨_, _, castOffVisit_sectionOrBreak_head ext isOpenAt h params c rest hinv hl hk,
      hinv1, rfl, rfl, by simp [children_setChildren], ?_, ?_⟩
    · rw [hlaid1, measuresIn_congr h _ rest (fun q _ => classId_setChildren _ _ _ _)]
      simp [measuresIn, List.filter_cons, not_measure_of_sectionOrBreak _ hk]
    · intro s hs
      have e : finishedSystems (h.setChildren params.m_contentSystem rest)
          { params with m_pendingObjects := params.m_pendingObjects ++ [some c] } =
            finishedSystems h params := hfr.1
      exact ⟨by rw [e]; exact hs, hfr.2 s hs⟩

/-- The traversal of the content system visits each of its children once and
lays the measures out in their order. -/
theorem castOffTraverse_inv (ext : Heap → Nat → Int) (isOpenAt : Heap → Nat → Nat → Bool) :
    ∀ (l : List Nat) (h : Heap) (params : CastOffSystemsParams),
      (h.objs params.m_contentSystem).m_children = l → CastOffInv h params →
      ∃ h1 params1, castOffTraverse ext isOpenAt l.length h params = .ok (some (h1, params1)) ∧
        CastOffInv h1 params1 ∧ params1.m_doc = params.m_doc ∧
        (h1.objs params1.m_contentSystem).m_children = [] ∧
        laidOut h1 params1 = laidOut h params ++ measuresIn h l := by
  intro l
  induction l with
  | nil =>
    intro h params hl hinv
    refine ⟨h, params, ?_, hinv, rfl, hl, by simp [measuresIn]⟩
    unfold castOffTraverse
    simp [hl]
  | cons c rest ih =>
    intro h params hl hinv
    obtain ⟨h1, params1, hstep, hinv1, hcs1, hdoc1, hcont1, hlaid1, _⟩ :=
      castOffVisit_inv ext isOpenAt h params c rest hinv hl
    rw [← hcs1] at hcont1
    obtain ⟨h2, params2, hrun, hinv2, hdoc2, hcont2, hlaid2⟩ := ih h1 params1 hcont1 hinv1
    refine ⟨h2, params2, ?_, hinv2, by rw [hdoc2, hdoc1], hcont2, by rw [hlaid2, hlaid1]⟩
    rw [List.length_cons]
    unfold castOffTraverse
    rw [hl]
    simp only [hstep]
    exact hrun

theorem flatten_map_flatten_map (f : Nat → List Nat) (g : Nat → List Nat) (L : List Nat) :
    (L.map (fun pg => ((g pg).map f).flatten)).flatten = ((L.map g).flatten.map f).flatten := by
  induction L with
  | nil => rfl
  | cons a L ih => simp [ih]

/-- The terminal step hands the root every measure laid out, in order. -/
theorem castOffEnd_measures (ext : Heap → Nat → Int) (h : Heap) (params : CastOffSystemsParams)
    (hinv : CastOffInv h params) :
    ∃ h2 params2, castOffEnd ext h params = .ok (h2, params2) ∧
      docMeasures h2 params.m_doc = laidOut h params := by
  obtain ⟨h1, page2, hflush, hpost⟩ := flushSystem_spec ext h params hinv
  have hheld : isHeld h1 page2 = false := by
    unfold isHeld
    rw [hpost.page_free]
  refine ⟨(h1.setChildren params.m_doc
      ((h1.objs params.m_doc).m_children ++ [page2])).setParent page2 (some params.m_doc),
    { params with m_page := page2 }, ?_, ?_⟩
  · unfold castOffEnd
    simp only [hflush]
    rw [Insert_of_not_held h1 _ _ hheld]
  · have hsys : ∀ s ∈ finishedSystems h params ++ [params.m_currentSystem],
        s < h.next ∧ s ≠ params.m_doc := by
      intro s hs
      rcases List.mem_append.mp hs with hs | hs
      · exact ⟨(hinv.systems s hs).1, (hinv.systems s hs).2.2.1⟩
      · simp only [List.mem_singleton] at hs
        subst hs
        exact ⟨hinv.cur_lt, hinv.cur_ne_doc⟩
    unfold docMeasures pageMeasures laidOut
    rw [flatten_map_flatten_map]
    have hfs : (List.map (fun pg =>
          (((h1.setChildren params.m_doc
            ((h1.objs params.m_doc).m_children ++ [page2])).setParent page2
              (some params.m_doc)).objs pg).m_children)
        (((h1.setChildren params.m_doc
            ((h1.objs params.m_doc).m_children ++ [page2])).setParent page2
              (some params.m_doc)).objs params.m_doc).m_children).flatten =
        finishedSystems h params ++ [params.m_currentSystem] := by
      rw [← hpost.finished]
      unfold finishedSystems
      simp only [children_setParent, children_setChildren, if_true, List.map_append,
        List.flatten_append, List.map_cons, List.map_nil, List.flatten_cons, List.flatten_nil,
        List.append_nil, hpost.page_ne_doc, if_false]
      congr 2
      apply List.map_congr_left
      intro pg hpg
      simp [(hpost.pages pg hpg).2.2.1]
    rw [hfs]
    congr 1
    apply List.map_congr_left
    intro s hs
    apply systemMeasures_congr
    · rw [children_setParent, children_setChildren, if_neg (hsys s hs).2]
      exact hpost.systems s hs
    · intro n hn
      rw [classId_setParent, classId_setChildren]
      exact hpost.kinds n (hinv.placed s hs n hn)

/-- C8: from the start state of a cast-off pass over a content system whose
children are distinct sections, page breaks, system breaks, measures, endings,
scoreDefs and editorial elements in any interleaving, whatever the metrics and
whatever regions boundary tracking reports open, the pass ends (as many visits
as children) and the measures of the physical tree under the root, page after
page and system after system, are exactly the measures of the original content
system, in their order: none is duplicated, none is dropped. -/
theorem C8_castOff_preserves_measure_order (ext : Heap → Nat → Int)
    (isOpenAt : Heap → Nat → Nat → Bool) (h : Heap)
    (params : CastOffSystemsParams) (hstart : CastOffStart h params) :
    ∃ h1 params1,
      castOffDoc ext isOpenAt (h.objs params.m_contentSystem).m_children.length h params =
        .ok (some (h1, params1)) ∧
      docMeasures h1 params.m_doc = measuresIn h (h.objs params.m_contentSystem).m_children := by
  obtain ⟨h1, params1, hrun, hinv1, hdoc1, _, hlaid1⟩ :=
    castOffTraverse_inv ext isOpenAt _ h params rfl (CastOffInv_of_start h params hstart)
  obtain ⟨h2, params2, hend, hmeas⟩ := castOffEnd_measures ext h1 params1 hinv1
  refine ⟨h2, params2, ?_, ?_⟩
  · unfold castOffDoc
    simp only [hrun, hend]
  · rw [← hdoc1, hmeas, hlaid1, laidOut_of_start h params hstart, List.nil_append]

/-- Witness for C8: the sample score of mixed content, in which a scoreDef, a
section, an ending, a system break and an editorial element are interleaved
with the measures, the region of the ending being open across two breaks. -/
theorem C8_castOff_preserves_measure_order_witness :
    ∃ h1 params1,
      castOffDoc scenarioCExtent sampleIsOpenAt
        (sampleMixedHeap.objs sampleMixedParams.m_contentSystem).m_children.length
        sampleMixedHeap sampleMixedParams = .ok (some (h1, params1)) ∧
      docMeasures h1 sampleMixedParams.m_doc =
        measuresIn sampleMixedHeap
          (sampleMixedHeap.objs sampleMixedParams.m_contentSystem).m_children :=
  C8_castOff_preserves_measure_order scenarioCExtent sampleIsOpenAt sampleMixedHeap
    sampleMixedParams (by decide)

/-- The sample score of mixed content, cast off: three systems on one page.
The overflow before measure 7 and the system break before measure 9 both fall
inside the region of the ending at address 5, and each of the two new systems
starts with a boundary-continuation wrapper (addresses 16 and 18) ahead of the
nodes that were pending. -/
theorem sampleMixed_castOff :
    castOffSystems sampleMixedParams.m_doc
        (castOffDoc scenarioCExtent sampleIsOpenAt 11 sampleMixedHeap sampleMixedParams) =
      some [[[1, 3, 4, 5, 6], [16, 2, 7], [18, 8, 9, 10, 11]]] ∧
    castOffLayout sampleMixedParams.m_doc
        (castOffDoc scenarioCExtent sampleIsOpenAt 11 sampleMixedHeap sampleMixedParams) =
      some [[[3, 4, 6], [7], [9, 11]]] := by
  constructor <;> decide!

/-! ### The parent of a visited node is a system -/

/-- The traversal stopped after any number of visits has not failed; the
invariant holds, and the systems that were finalised are finalised still, with
the children they had. -/
theorem castOffAfter_inv (ext : Heap → Nat → Int) (isOpenAt : Heap → Nat → Nat → Bool) :
    ∀ (k : Nat) (h : Heap) (params : CastOffSystemsParams), CastOffInv h params →
      ∃ hk paramsk, castOffAfter ext isOpenAt k h params = .ok (hk, paramsk) ∧
        CastOffInv hk paramsk ∧ paramsk.m_contentSystem = params.m_contentSystem ∧
        (∀ s ∈ finishedSystems h params,
          s ∈ finishedSystems hk paramsk ∧ (hk.objs s).m_children = (h.objs s).m_children) := by
  intro k
  induction k with
  | zero =>
    intro h params hinv
    exact ⟨h, params, rfl, hinv, rfl, fun s hs => ⟨hs, rfl⟩⟩
  | succ k ih =>
    intro h params hinv
    cases hl : (h.objs params.m_contentSystem).m_children with
    | nil =>
      refine ⟨h, params, ?_, hinv, rfl, fun s hs => ⟨hs, rfl⟩⟩
      unfold castOffAfter
      simp [hl]
    | cons c rest =>
      obtain ⟨h1, params1, hstep, hinv1, hcs1, _, _, _, hfin1⟩ :=
        castOffVisit_inv ext isOpenAt h params c rest hinv hl
      obtain ⟨hk, paramsk, hrun, hinvk, hcsk, hfink⟩ := ih h1 params1 hinv1
      refine ⟨hk, paramsk, ?_, hinvk, by rw [hcsk, hcs1], ?_⟩
      · unfold castOffAfter
        rw [hl]
        simp only [hstep]
        exact hrun
      · intro s hs
        obtain ⟨hs1, hc1⟩ := hfin1 s hs
        obtain ⟨hsk, hck⟩ := hfink s hs1
        exact ⟨hsk, by rw [hck, hc1]⟩

/-- C14: started on the content system of a start state, the cast-off
traversal reaches a state after any number of visits without failing, and the
node it visits next, the head of the content system, is a direct child of the
content system, which is a System: the `dynamic_cast` of the assertion at the
top of CastOffSystems yields the content system, and the visit succeeds and
answers FUNCTOR_SIBLINGS. -/
theorem C14_castOff_visits_children_of_system (ext : Heap → Nat → Int)
    (isOpenAt : Heap → Nat → Nat → Bool) (h : Heap)
    (params : CastOffSystemsParams) (k : Nat) (hstart : CastOffStart h params) :
    ∃ hk paramsk, castOffAfter ext isOpenAt k h params = .ok (hk, paramsk) ∧
      paramsk.m_contentSystem = params.m_contentSystem ∧
      ∀ c rest, (hk.objs params.m_contentSystem).m_children = c :: rest →
        IsChildOf hk c params.m_contentSystem ∧
        dynamic_cast hk .SYSTEM (hk.objs c).m_parent = some params.m_contentSystem ∧
        ∃ h1 params1, castOffVisit ext isOpenAt hk paramsk c =
          .ok (h1, params1, .FUNCTOR_SIBLINGS) := by
  obtain ⟨hk, paramsk, hrun, hinvk, hcsk, _⟩ :=
    castOffAfter_inv ext isOpenAt k h params (CastOffInv_of_start h params hstart)
  refine ⟨hk, paramsk, hrun, hcsk, ?_⟩
  intro c rest hl
  rw [← hcsk] at hl ⊢
  have hmem : c ∈ (hk.objs paramsk.m_contentSystem).m_children := by simp [hl]
  have hp := (hinvk.content c hmem).1
  obtain ⟨h1, params1, hstep, _⟩ := castOffVisit_inv ext isOpenAt hk paramsk c rest hinvk hl
  refine ⟨⟨hp, hmem⟩, ?_, h1, params1, hstep⟩
  rw [hp]
  simp [dynamic_cast, hinvk.cs_system]

/-- Witness for C14: scenario C after three visits, the system break among
them. -/
theorem C14_castOff_visits_children_of_system_witness :
    ∃ hk paramsk, castOffAfter scenarioCExtent noOpenBoundary 3 scenarioCHeap scenarioCParams =
        .ok (hk, paramsk) ∧
      paramsk.m_contentSystem = scenarioCParams.m_contentSystem ∧
      ∀ c rest, (hk.objs scenarioCParams.m_contentSystem).m_children = c :: rest →
        IsChildOf hk c scenarioCParams.m_contentSystem ∧
        dynamic_cast hk .SYSTEM (hk.objs c).m_parent = some scenarioCParams.m_contentSystem ∧
        ∃ h1 params1, castOffVisit scenarioCExtent noOpenBoundary hk paramsk c =
          .ok (h1, params1, .FUNCTOR_SIBLINGS) :=
  C14_castOff_visits_children_of_system scenarioCExtent noOpenBoundary scenarioCHeap
    scenarioCParams 3 (by decide)

/-! ### Break markers force a break -/

/-- Scenario C, cast off: the system break after the second measure ends the
first system at two measures, though the third would have fitted; the rest is
packed greedily. -/
theorem scenarioC_castOff :
    castOffLayout scenarioCParams.m_doc
        (castOffDoc scenarioCExtent noOpenBoundary 11 scenarioCHeap scenarioCParams) =
      some [[[1, 2], [3, 4, 5], [6, 7, 8], [9, 10]]] := by
  decide

/-- C5: in every state that a cast-off pass reaches from a start state,
whatever the metrics. The visit of a break marker (Pb or Sb) at the head of
the content system succeeds and forces a break at once: a break is pending
after it, and the system being filled is the same, with the same children.
While a break is pending, the system being filled receives nothing more: the
visit of a further section or break leaves it as it is, with the break still
pending, and the visit of ordinary content, whatever space remains, finalises
the system with the children it had and puts the node into a newly created
system, behind the wrappers of the re-opened boundaries and the nodes that
were pending; after any number of further visits the finalised system still
has the children it had when the marker was reached. So in scenario C, a
marker after measure 2 of 10 measures of width 10 with usable width 35, the
first system has exactly 2 measures. -/
theorem C5_break_marker_forces_break (ext : Heap → Nat → Int)
    (isOpenAt : Heap → Nat → Nat → Bool) (h0 : Heap) (params0 : CastOffSystemsParams) (k : Nat)
    (hstart : CastOffStart h0 params0) :
    (∃ h params, castOffAfter ext isOpenAt k h0 params0 = .ok (h, params) ∧
      (∀ b rest, (h.objs params.m_contentSystem).m_children = b :: rest →
        isBreakMarker (h.objs b).classId = true →
        ∃ h1 params1, castOffVisit ext isOpenAt h params b =
            .ok (h1, params1, .FUNCTOR_SIBLINGS) ∧
          breakPending h1 params1 = true ∧
          params1.m_currentSystem = params.m_currentSystem ∧
          (h1.objs params.m_currentSystem).m_children =
            (h.objs params.m_currentSystem).m_children) ∧
      (breakPending h params = true →
        ∀ c rest, (h.objs params.m_contentSystem).m_children = c :: rest →
          ∃ h1 params1, castOffVisit ext isOpenAt h params c =
              .ok (h1, params1, .FUNCTOR_SIBLINGS) ∧
            (h1.objs params.m_currentSystem).m_children =
              (h.objs params.m_currentSystem).m_children ∧
            (isSectionOrBreak (h.objs c).classId = true →
              breakPending h1 params1 = true ∧
              params1.m_currentSystem = params.m_currentSystem) ∧
            (isOrdinaryContent (h.objs c).classId = true →
              params.m_currentSystem ∈ finishedSystems h1 params1 ∧
              h.next ≤ params1.m_currentSystem ∧
              (∃ ws, (h1.objs params1.m_currentSystem).m_children =
                  ws ++ params.m_pendingObjects.filterMap id ++ [c] ∧
                ∀ w ∈ ws, (h1.objs w).classId = .BOUNDARY_CONTINUATION) ∧
              ∀ j, ∃ h2 params2, castOffAfter ext isOpenAt j h1 params1 = .ok (h2, params2) ∧
                params.m_currentSystem ∈ finishedSystems h2 params2 ∧
                (h2.objs params.m_currentSystem).m_children =
                  (h.objs params.m_currentSystem).m_children))) ∧
    castOffLayout scenarioCParams.m_doc
        (castOffDoc scenarioCExtent noOpenBoundary 11 scenarioCHeap scenarioCParams) =
      some [[[1, 2], [3, 4, 5], [6, 7, 8], [9, 10]]] := by
  refine ⟨?_, scenarioC_castOff⟩
  obtain ⟨h, params, hrun, hinv, _, _⟩ :=
    castOffAfter_inv ext isOpenAt k h0 params0 (CastOffInv_of_start h0 params0 hstart)
  have hcurkeep : ∀ rest, ((h.setChildren params.m_contentSystem rest).objs
      params.m_currentSystem).m_children = (h.objs params.m_currentSystem).m_children := by
    intro rest
    simp [children_setChildren, hinv.cur_ne_cs]
  refine ⟨h, params, hrun, ?_, ?_⟩
  · intro b rest hl hb
    have hk : isSectionOrBreak (h.objs b).classId = true := by
      cases hc : (h.objs b).classId <;> simp [isBreakMarker, hc] at hb <;>
        simp [isSectionOrBreak]
    refine ⟨_, _, castOffVisit_sectionOrBreak_head ext isOpenAt h params b rest hinv hl hk,
      ?_, rfl, hcurkeep rest⟩
    rw [breakPending_sectionOrBreak, hb, Bool.or_true]
  · intro hbp c rest hl
    obtain ⟨_, _, _, _, _, _, hkind⟩ := castOffInv_head h params c rest hinv hl
    rcases hkind with hk | hk
    · obtain ⟨h1, params1, hstep, hinv1, _, _, _, _, _, _, _, hbreak⟩ :=
        castOffInv_content ext isOpenAt h params c rest hinv hl
      obtain ⟨hkeep, hfin, hnew, hws⟩ := hbreak hbp
      have hvisit : castOffVisit ext isOpenAt h params c =
          .ok (h1, params1, .FUNCTOR_SIBLINGS) := by
        unfold castOffVisit
        rw [hk]
        exact hstep
      refine ⟨h1, params1, hvisit, hkeep, ?_, ?_⟩
      · intro hsb
        rw [not_ordinary_of_sectionOrBreak _ hsb] at hk
        exact absurd hk (by simp)
      · intro _
        refine ⟨hfin, hnew, hws, ?_⟩
        intro j
        obtain ⟨h2, params2, hrun2, _, _, hfin2⟩ :=
          castOffAfter_inv ext isOpenAt j h1 params1 hinv1
        obtain ⟨hmem2, hch2⟩ := hfin2 _ hfin
        exact ⟨h2, params2, hrun2, hmem2, by rw [hch2, hkeep]⟩
    · refine ⟨_, _, castOffVisit_sectionOrBreak_head ext isOpenAt h params c rest hinv hl hk,
        hcurkeep rest, ?_, ?_⟩
      · intro _
        refine ⟨?_, rfl⟩
        rw [breakPending_sectionOrBreak, hbp, Bool.true_or]
      · intro hoc
        rw [not_ordinary_of_sectionOrBreak _ hk] at hoc
        exact absurd hoc (by simp)

/-- Witness for C5: scenario C after two visits, when the system break is at
the head of the content system and the system being filled holds the first two
measures, 20 units out of 35; and after three visits, when the break is
pending and the third measure, which would have fitted, is at the head. -/
theorem C5_break_marker_forces_break_witness :
    ((∃ h params, castOffAfter scenarioCExtent noOpenBoundary 2 scenarioCHeap scenarioCParams =
          .ok (h, params) ∧
        (∀ b rest, (h.objs params.m_contentSystem).m_children = b :: rest →
          isBreakMarker (h.objs b).classId = true →
          ∃ h1 params1, castOffVisit scenarioCExtent noOpenBoundary h params b =
              .ok (h1, params1, .FUNCTOR_SIBLINGS) ∧
            breakPending h1 params1 = true ∧
            params1.m_currentSystem = params.m_currentSystem ∧
            (h1.objs params.m_currentSystem).m_children =
              (h.objs params.m_currentSystem).m_children) ∧
        (breakPending h params = true →
          ∀ c rest, (h.objs params.m_contentSystem).m_children = c :: rest →
            ∃ h1 params1, castOffVisit scenarioCExtent noOpenBoundary h params c =
                .ok (h1, params1, .FUNCTOR_SIBLINGS) ∧
              (h1.objs params.m_currentSystem).m_children =
                (h.objs params.m_currentSystem).m_children ∧
              (isSectionOrBreak (h.objs c).classId = true →
                breakPending h1 params1 = true ∧
                params1.m_currentSystem = params.m_currentSystem) ∧
              (isOrdinaryContent (h.objs c).classId = true →
                params.m_currentSystem ∈ finishedSystems h1 params1 ∧
                h.next ≤ params1.m_currentSystem ∧
                (∃ ws, (h1.objs params1.m_currentSystem).m_children =
                    ws ++ params.m_pendingObjects.filterMap id ++ [c] ∧
                  ∀ w ∈ ws, (h1.objs w).classId = .BOUNDARY_CONTINUATION) ∧
                ∀ j, ∃ h2 params2, castOffAfter scenarioCExtent noOpenBoundary j h1 params1 =
                    .ok (h2, params2) ∧
                  params.m_currentSystem ∈ finishedSystems h2 params2 ∧
                  (h2.objs params.m_currentSystem).m_children =
                    (h.objs params.m_currentSystem).m_children))) ∧
      castOffLayout scenarioCParams.m_doc
          (castOffDoc scenarioCExtent noOpenBoundary 11 scenarioCHeap scenarioCParams) =
        some [[[1, 2], [3, 4, 5], [6, 7, 8], [9, 10]]]) ∧
    ((∃ h params, castOffAfter scenarioCExtent noOpenBoundary 3 scenarioCHeap scenarioCParams =
          .ok (h, params) ∧
        (∀ b rest, (h.objs params.m_contentSystem).m_children = b :: rest →
          isBreakMarker (h.objs b).classId = true →
          ∃ h1 params1, castOffVisit scenarioCExtent noOpenBoundary h params b =
              .ok (h1, params1, .FUNCTOR_SIBLINGS) ∧
            breakPending h1 params1 = true ∧
            params1.m_currentSystem = params.m_currentSystem ∧
            (h1.objs params.m_currentSystem).m_children =
              (h.objs params.m_currentSystem).m_children) ∧
        (breakPending h params = true →
          ∀ c rest, (h.objs params.m_contentSystem).m_children = c :: rest →
            ∃ h1 params1, castOffVisit scenarioCExtent noOpenBoundary h params c =
                .ok (h1, params1, .FUNCTOR_SIBLINGS) ∧
              (h1.objs params.m_currentSystem).m_children =
                (h.objs params.m_currentSystem).m_children ∧
              (isSectionOrBreak (h.objs c).classId = true →
                breakPending h1 params1 = true ∧
                params1.m_currentSystem = params.m_currentSystem) ∧
              (isOrdinaryContent (h.objs c).classId = true →
                params.m_currentSystem ∈ finishedSystems h1 params1 ∧
                h.next ≤ params1.m_currentSystem ∧
                (∃ ws, (h1.objs params1.m_currentSystem).m_children =
                    ws ++ params.m_pendingObjects.filterMap id ++ [c] ∧
                  ∀ w ∈ ws, (h1.objs w).classId = .BOUNDARY_CONTINUATION) ∧
                ∀ j, ∃ h2 params2, castOffAfter scenarioCExtent noOpenBoundary j h1 params1 =
                    .ok (h2, params2) ∧
                  params.m_currentSystem ∈ finishedSystems h2 params2 ∧
                  (h2.objs params.m_currentSystem).m_children =
                    (h.objs params.m_currentSystem).m_children))) ∧
      castOffLayout scenarioCParams.m_doc
          (castOffDoc scenarioCExtent noOpenBoundary 11 scenarioCHeap scenarioCParams) =
        some [[[1, 2], [3, 4, 5], [6, 7, 8], [9, 10]]]) :=
  ⟨C5_break_marker_forces_break scenarioCExtent noOpenBoundary scenarioCHeap scenarioCParams 2
      (by decide),
    C5_break_marker_forces_break scenarioCExtent noOpenBoundary scenarioCHeap scenarioCParams 3
      (by decide)⟩

/-! ### What a section accepts as a child -/

/-- C11, refuted as stated: the page break at address 2 of the sample score is
of an accepted kind, and the content system holds it; Section::AddChild of the
section fails on it, and the failure is not the logged error of an unsupported
kind. -/
theorem C11_addChild_held_break_counterexample :
    (sampleHeap.objs 2).classId = .PB ∧
    isHeld sampleHeap 2 = true ∧
    Section.AddChild modifyNothing sampleHeap 1 2 = .error .contract ∧
    ¬ ∃ h1, Section.AddChild modifyNothing sampleHeap 1 2 = .ok h1 := by
  have hfail : Section.AddChild modifyNothing sampleHeap 1 2 = .error .contract :=
    AddChild_held modifyNothing sampleHeap 1 2 (by decide) (by decide)
  refine ⟨by decide, by decide, hfail, ?_⟩
  rw [hfail]
  simp

/-- C11, amended: Section::AddChild fails with the logged error followed by
the failed assertion if and only if the kind of the child is none of ENDING,
MEASURE, PB, SB, SCOREDEF and the child is not an editorial element; a child
of an accepted kind is added when no parent holds it, and refused with the
contract error when a parent still holds it, so that for a child that no
parent holds the call fails if and only if the kind is not accepted. -/
theorem C11_addChild_fails_iff_unsupported_amended (Modify : Heap → Nat → Heap) (h : Heap)
    (this child : Nat) :
    (Section.AddChild Modify h this child =
        .error (.unsupportedChild (h.objs child).classId (h.objs this).classId) ↔
      ((h.objs child).classId ≠ .ENDING ∧ (h.objs child).classId ≠ .MEASURE ∧
        (h.objs child).classId ≠ .PB ∧ (h.objs child).classId ≠ .SB ∧
        (h.objs child).classId ≠ .SCOREDEF ∧ Object.IsEditorialElement h child = false)) ∧
    (isAcceptedBySection h child = true → isHeld h child = false →
      ∃ h1, Section.AddChild Modify h this child = .ok h1) ∧
    (isAcceptedBySection h child = true → isHeld h child = true →
      Section.AddChild Modify h this child = .error .contract) ∧
    (isHeld h child = false →
      ((∃ e, Section.AddChild Modify h this child = .error e) ↔
        isAcceptedBySection h child = false)) := by
  have hiff : isAcceptedBySection h child = false ↔
      ((h.objs child).classId ≠ .ENDING ∧ (h.objs child).classId ≠ .MEASURE ∧
        (h.objs child).classId ≠ .PB ∧ (h.objs child).classId ≠ .SB ∧
        (h.objs child).classId ≠ .SCOREDEF ∧ Object.IsEditorialElement h child = false) := by
    simp only [isAcceptedBySection, Bool.or_eq_false_iff, decide_eq_false_iff_not]
    tauto
  refine ⟨?_, ?_, ?_, ?_⟩
  · rw [← hiff]
    constructor
    · intro hfail
      by_contra hk
      have hk1 : isAcceptedBySection h child = true := by simpa using hk
      cases hheld : isHeld h child with
      | true =>
        rw [AddChild_held Modify h this child hk1 hheld] at hfail
        simp at hfail
      | false =>
        rw [AddChild_accepted Modify h this child hk1 hheld] at hfail
        simp at hfail
    · intro hk
      exact AddChild_unsupported Modify h this child hk
  · intro hk hfree
    exact ⟨_, AddChild_accepted Modify h this child hk hfree⟩
  · intro hk hheld
    exact AddChild_held Modify h this child hk hheld
  · intro hfree
    constructor
    · rintro ⟨e, he⟩
      by_contra hk
      have hk1 : isAcceptedBySection h child = true := by simpa using hk
      rw [AddChild_accepted Modify h this child hk1 hfree] at he
      simp at he
    · intro hk
      exact ⟨_, AddChild_unsupported Modify h this child hk⟩

/-- Witness for C11, amended: a newly created page break is added to the
section of the sample score. -/
theorem C11_addChild_fails_iff_unsupported_amended_witness :
    ∃ h1, Section.AddChild modifyNothing (Pb.ctor sampleHeap).1 1 (Pb.ctor sampleHeap).2 =
      .ok h1 :=
  (C11_addChild_fails_iff_unsupported_amended modifyNothing (Pb.ctor sampleHeap).1 1
    (Pb.ctor sampleHeap).2).2.1 (by decide) (by decide)

/-- C12, refuted as stated: a freshly constructed Section handed to
Section::AddChild of the section of the sample score is rejected with the
logged error and the failed assertion. -/
theorem C12_addChild_rejects_section_counterexample :
    Section.AddChild modifyNothing (Section.ctor sampleHeap).1 1
        (Section.ctor sampleHeap).2 =
      .error (.unsupportedChild .SECTION .SECTION) ∧
    ¬ ∃ h1, Section.AddChild modifyNothing (Section.ctor sampleHeap).1 1
        (Section.ctor sampleHeap).2 = .ok h1 := by
  have hfail : Section.AddChild modifyNothing (Section.ctor sampleHeap).1 1
      (Section.ctor sampleHeap).2 = .error (.unsupportedChild .SECTION .SECTION) := by
    unfold Section.AddChild
    simp [Section.ctor, Heap.alloc, sampleHeap, Object.IsEditorialElement]
  refine ⟨hfail, ?_⟩
  rw [hfail]
  simp

/-- C12, amended: Section::AddChild succeeds for a child that no parent holds
and that is a Measure, a Pb, an Sb, an Ending or an editorial element; a child
that is another Section is rejected with the logged error and the failed
assertion. -/
theorem C12_addChild_accepts_amended (Modify : Heap → Nat → Heap) (h : Heap)
    (this child : Nat) :
    (((h.objs child).classId = .MEASURE ∨ (h.objs child).classId = .PB ∨
        (h.objs child).classId = .SB ∨ (h.objs child).classId = .ENDING ∨
        Object.IsEditorialElement h child = true) →
      isHeld h child = false →
      ∃ h1, Section.AddChild Modify h this child = .ok h1) ∧
    ((h.objs child).classId = .SECTION →
      Section.AddChild Modify h this child =
        .error (.unsupportedChild .SECTION (h.objs this).classId)) := by
  refine ⟨?_, ?_⟩
  · intro hk hfree
    refine ⟨_, AddChild_accepted Modify h this child ?_ hfree⟩
    simp only [isAcceptedBySection, Bool.or_eq_true, decide_eq_true_eq]
    tauto
  · intro hk
    unfold Section.AddChild
    simp [hk, Object.IsEditorialElement]

/-- Witness for C12, amended: a newly created system break is added to the
section of the sample score. -/
theorem C12_addChild_accepts_amended_witness :
    ∃ h1, Section.AddChild modifyNothing (Sb.ctor sampleHeap).1 1 (Sb.ctor sampleHeap).2 =
      .ok h1 :=
  (C12_addChild_accepts_amended modifyNothing (Sb.ctor sampleHeap).1 1
    (Sb.ctor sampleHeap).2).1 (by decide) (by decide)

/-! ### Boundary preparation and drawing reset -/

/-- C13: Section::PrepareBoundaries leaves a section that is not a boundary
untouched and, on a boundary, does what the boundary-start preparation does,
whatever that is; a call that returns returns FUNCTOR_CONTINUE in both cases,
whatever the preparation answered. Section::ResetDrawing is gated in the same
way. -/
theorem C13_prepareBoundaries_gated_by_isBoundary {P : Type} (IsBoundary : Heap → Nat → Bool)
    (InterfacePrepareBoundaries : Heap → P → Nat → Except Fatal (Heap × P × FunctorCode))
    (InterfaceResetDrawing : Heap → P → Nat → Except Fatal (Heap × P × FunctorCode))
    (h : Heap) (functorParams : P) (this : Nat) :
    (IsBoundary h this = false →
      Section.PrepareBoundaries IsBoundary InterfacePrepareBoundaries h functorParams this =
        .ok (h, functorParams, .FUNCTOR_CONTINUE) ∧
      Section.ResetDrawing IsBoundary InterfaceResetDrawing h functorParams this =
        .ok (h, functorParams, .FUNCTOR_CONTINUE)) ∧
    (IsBoundary h this = true →
      Section.PrepareBoundaries IsBoundary InterfacePrepareBoundaries h functorParams this =
        continueAfter (InterfacePrepareBoundaries h functorParams this) ∧
      Section.ResetDrawing IsBoundary InterfaceResetDrawing h functorParams this =
        continueAfter (InterfaceResetDrawing h functorParams this)) ∧
    (∀ h1 params1 code,
      (Section.PrepareBoundaries IsBoundary InterfacePrepareBoundaries h functorParams this =
          .ok (h1, params1, code) ∨
        Section.ResetDrawing IsBoundary InterfaceResetDrawing h functorParams this =
          .ok (h1, params1, code)) →
      code = .FUNCTOR_CONTINUE) := by
  refine ⟨?_, ?_, ?_⟩
  · intro hb
    simp [Section.PrepareBoundaries, Section.ResetDrawing, hb]
  · intro hb
    simp [Section.PrepareBoundaries, Section.ResetDrawing, hb, continueAfter]
  · intro h1 params1 code hr
    rcases hr with hr | hr
    · unfold Section.PrepareBoundaries at hr
      split at hr
      · split at hr
        · simp at hr
        · simp only [Except.ok.injEq, Prod.mk.injEq] at hr
          exact hr.2.2.symm
      · simp only [Except.ok.injEq, Prod.mk.injEq] at hr
        exact hr.2.2.symm
    · unfold Section.ResetDrawing at hr
      split at hr
      · split at hr
        · simp at hr
        · simp only [Except.ok.injEq, Prod.mk.injEq] at hr
          exact hr.2.2.symm
      · simp only [Except.ok.injEq, Prod.mk.injEq] at hr
        exact hr.2.2.symm

/-! ### Identifier prefixes -/

/-- C18, the code at the failing input: the identifier of a newly constructed
Sb starts with the prefix of a page break, and a Pb and an Sb constructed on
the same heap get the same identifier, while a Section gets its own prefix. -/
theorem C18_sb_constructed_with_pb_prefix (h : Heap) :
    ((Sb.ctor h).1.objs (Sb.ctor h).2).m_uuid = "pb-" ++ toString h.next ∧
    ((Pb.ctor h).1.objs (Pb.ctor h).2).m_uuid = "pb-" ++ toString h.next ∧
    ((Section.ctor h).1.objs (Section.ctor h).2).m_uuid = "section-" ++ toString h.next ∧
    ((Sb.ctor h).1.objs (Sb.ctor h).2).m_uuid = ((Pb.ctor h).1.objs (Pb.ctor h).2).m_uuid ∧
    ((Sb.ctor h).1.objs (Sb.ctor h).2).classId = .SB ∧
    ((Pb.ctor h).1.objs (Pb.ctor h).2).classId = .PB := by
  simp [Sb.ctor, Pb.ctor, Section.ctor, Heap.alloc]

/-! ### Positions on the staff -/

theorem neg_tmod_eq (a b : Int) : (-a).tmod b = -(a.tmod b) := by
  rw [Int.tmod_def, Int.tmod_def, Int.neg_tdiv]
  ring

theorem tmod_unit (a u : Int) (hu : 0 < u) :
    (∃ q, a - a.tmod u = u * q) ∧ -u < a.tmod u ∧ a.tmod u < u ∧
    (0 ≤ a → 0 ≤ a.tmod u) ∧ (a ≤ 0 → a.tmod u ≤ 0) := by
  have hlt := Int.tmod_lt_of_pos a hu
  have hneg := neg_tmod_eq (-a) u
  rw [neg_neg] at hneg
  have hlt2 := Int.tmod_lt_of_pos (-a) hu
  refine ⟨⟨a.tdiv u, ?_⟩, by omega, hlt, fun ha => Int.tmod_nonneg u ha, ?_⟩
  · have := Int.tmod_add_tdiv a u
    omega
  · intro ha
    have := Int.tmod_nonneg u (show 0 ≤ -a by omega)
    omega

/-- An operation whose exact result is a value of `int` does not wrap. -/
theorem wrapInt_eq (x : Int) (h1 : INT_MIN ≤ x) (h2 : x ≤ INT_MAX) : wrapInt x = x := by
  unfold INT_MIN at h1
  unfold INT_MAX at h2
  unfold wrapInt
  omega

/-- Without overflow GetNearestInterStaffPosition is the exact expression. -/
theorem GetNearestInterStaffPosition_exact (m_doc : Doc) (y : Int) (staff : Staff)
    (place : data_STAFFREL) (hu : 0 < m_doc.GetDrawingUnit staff.m_drawingStaffSize)
    (hy : INT_MIN + 2 * m_doc.GetDrawingUnit staff.m_drawingStaffSize ≤ y ∧
      y ≤ INT_MAX - 2 * m_doc.GetDrawingUnit staff.m_drawingStaffSize)
    (hpos : INT_MIN ≤ y - staff.drawingY ∧ y - staff.drawingY ≤ INT_MAX) :
    View.GetNearestInterStaffPosition m_doc y staff place =
      if place = .STAFFREL_above then
        y - (if (y - staff.drawingY).tmod (m_doc.GetDrawingUnit staff.m_drawingStaffSize) > 0
            then m_doc.GetDrawingUnit staff.m_drawingStaffSize -
              (y - staff.drawingY).tmod (m_doc.GetDrawingUnit staff.m_drawingStaffSize)
            else (y - staff.drawingY).tmod (m_doc.GetDrawingUnit staff.m_drawingStaffSize))
          + m_doc.GetDrawingUnit staff.m_drawingStaffSize
      else
        y - (if (y - staff.drawingY).tmod (m_doc.GetDrawingUnit staff.m_drawingStaffSize) < 0
            then m_doc.GetDrawingUnit staff.m_drawingStaffSize +
              (y - staff.drawingY).tmod (m_doc.GetDrawingUnit staff.m_drawingStaffSize)
            else (y - staff.drawingY).tmod (m_doc.GetDrawingUnit staff.m_drawingStaffSize))
          - m_doc.GetDrawingUnit staff.m_drawingStaffSize := by
  obtain ⟨_, hlo, hhi, _, _⟩ :=
    tmod_unit (y - staff.drawingY) (m_doc.GetDrawingUnit staff.m_drawingStaffSize) hu
  unfold View.GetNearestInterStaffPosition
  rw [wrapInt_eq _ hpos.1 hpos.2]
  simp only []
  generalize (y - staff.drawingY).tmod (m_doc.GetDrawingUnit staff.m_drawingStaffSize) = d at *
  generalize m_doc.GetDrawingUnit staff.m_drawingStaffSize = u at *
  unfold INT_MIN INT_MAX at hy
  by_cases hp : place = .STAFFREL_above
  · simp only [hp, if_true]
    by_cases hd : d > 0
    · simp only [hd, if_true]
      rw [wrapInt_eq (u - d) (by unfold INT_MIN; omega) (by unfold INT_MAX; omega),
        wrapInt_eq (y - (u - d)) (by unfold INT_MIN; omega) (by unfold INT_MAX; omega),
        wrapInt_eq _ (by unfold INT_MIN; omega) (by unfold INT_MAX; omega)]
    · simp only [hd, if_false]
      rw [wrapInt_eq (y - d) (by unfold INT_MIN; omega) (by unfold INT_MAX; omega),
        wrapInt_eq _ (by unfold INT_MIN; omega) (by unfold INT_MAX; omega)]
  · simp only [hp, if_false]
    by_cases hd : d < 0
    · simp only [hd, if_true]
      rw [wrapInt_eq (u + d) (by unfold INT_MIN; omega) (by unfold INT_MAX; omega),
        wrapInt_eq (y - (u + d)) (by unfold INT_MIN; omega) (by unfold INT_MAX; omega),
        wrapInt_eq _ (by unfold INT_MIN; omega) (by unfold INT_MAX; omega)]
    · simp only [hd, if_false]
      rw [wrapInt_eq (y - d) (by unfold INT_MIN; omega) (by unfold INT_MAX; omega),
        wrapInt_eq _ (by unfold INT_MIN; omega) (by unfold INT_MAX; omega)]


/-- Where GetNearestInterStaffPosition is on the grid of the staff, when no
operation overflows: for every placement other than above, and for the
placement above when `y` is not above the drawing Y of the staff. -/
theorem GetNearestInterStaffPosition_on_grid (m_doc : Doc) (y : Int) (staff : Staff)
    (place : data_STAFFREL) (hu : 0 < m_doc.GetDrawingUnit staff.m_drawingStaffSize)
    (hy : INT_MIN + 2 * m_doc.GetDrawingUnit staff.m_drawingStaffSize ≤ y ∧
      y ≤ INT_MAX - 2 * m_doc.GetDrawingUnit staff.m_drawingStaffSize)
    (hpos : INT_MIN ≤ y - staff.drawingY ∧ y - staff.drawingY ≤ INT_MAX)
    (hdom : place = .STAFFREL_above → y ≤ staff.drawingY) :
    ∃ m, View.GetNearestInterStaffPosition m_doc y staff place - staff.drawingY =
      m_doc.GetDrawingUnit staff.m_drawingStaffSize * m := by
  obtain ⟨⟨q, hq⟩, hlo, hhi, hpos1, hnonpos⟩ :=
    tmod_unit (y - staff.drawingY) (m_doc.GetDrawingUnit staff.m_drawingStaffSize) hu
  rw [GetNearestInterStaffPosition_exact m_doc y staff place hu hy hpos]
  by_cases hp : place = .STAFFREL_above
  · have hle := hnonpos (by have := hdom hp; omega)
    simp only [hp, if_true]
    rw [if_neg (by omega)]
    refine ⟨q + 1, ?_⟩
    rw [mul_add, ← hq]
    ring
  · simp only [hp, if_false]
    split
    · refine ⟨q - 2, ?_⟩
      rw [mul_sub, ← hq]
      ring
    · refine ⟨q - 1, ?_⟩
      rw [mul_sub, ← hq]
      ring

/-- C17, refuted as stated: with a drawing unit of 10 and the top line of the
staff at 0, GetNearestInterStaffPosition answers -2147483642 for the greatest
`int` and the placement above, which is below `y`; and 2147483636 for the
least `int` and the placement below, which is above `y`. -/
theorem C17_nearest_position_moves_counterexample :
    View.GetNearestInterStaffPosition sampleDoc INT_MAX sampleStaff .STAFFREL_above =
      -2147483642 ∧
    ¬ (INT_MAX < View.GetNearestInterStaffPosition sampleDoc INT_MAX sampleStaff
      .STAFFREL_above) ∧
    View.GetNearestInterStaffPosition sampleDoc INT_MIN sampleStaff .STAFFREL_below =
      2147483636 ∧
    ¬ (View.GetNearestInterStaffPosition sampleDoc INT_MIN sampleStaff .STAFFREL_below ≤
      INT_MIN - sampleDoc.GetDrawingUnit sampleStaff.m_drawingStaffSize) := by
  decide

/-- C17, amended: for a drawing unit `u > 0`, a `y` at least two units away
from both ends of the range of `int` and an offset of `y` from the drawing Y
of the staff within that range, GetNearestInterStaffPosition moves `y` in the
direction of the placement by less than two units: for the placement above
the result `r` satisfies `y < r < y + 2u`, for any other placement
`y - 2u < r ≤ y - u`. -/
theorem C17_nearest_position_moves_amended (m_doc : Doc) (y : Int) (staff : Staff)
    (place : data_STAFFREL) (hu : 0 < m_doc.GetDrawingUnit staff.m_drawingStaffSize)
    (hy : INT_MIN + 2 * m_doc.GetDrawingUnit staff.m_drawingStaffSize ≤ y ∧
      y ≤ INT_MAX - 2 * m_doc.GetDrawingUnit staff.m_drawingStaffSize)
    (hpos : INT_MIN ≤ y - staff.drawingY ∧ y - staff.drawingY ≤ INT_MAX) :
    (place = .STAFFREL_above →
      y < View.GetNearestInterStaffPosition m_doc y staff place ∧
      View.GetNearestInterStaffPosition m_doc y staff place <
        y + 2 * m_doc.GetDrawingUnit staff.m_drawingStaffSize) ∧
    (place ≠ .STAFFREL_above →
      y - 2 * m_doc.GetDrawingUnit staff.m_drawingStaffSize <
        View.GetNearestInterStaffPosition m_doc y staff place ∧
      View.GetNearestInterStaffPosition m_doc y staff place ≤
        y - m_doc.GetDrawingUnit staff.m_drawingStaffSize) := by
  obtain ⟨_, hlo, hhi, _, _⟩ :=
    tmod_unit (y - staff.drawingY) (m_doc.GetDrawingUnit staff.m_drawingStaffSize) hu
  rw [GetNearestInterStaffPosition_exact m_doc y staff place hu hy hpos]
  refine ⟨?_, ?_⟩
  · intro hp
    simp only [hp, if_true]
    split <;> omega
  · intro hp
    simp only [hp, if_false]
    split <;> omega

/-- Witness for C17, amended: the sample document and staff, `y = 3`,
placement above. -/
theorem C17_nearest_position_moves_amended_witness :
    (data_STAFFREL.STAFFREL_above = .STAFFREL_above →
      (3 : Int) < View.GetNearestInterStaffPosition sampleDoc 3 sampleStaff .STAFFREL_above ∧
      View.GetNearestInterStaffPosition sampleDoc 3 sampleStaff .STAFFREL_above <
        3 + 2 * sampleDoc.GetDrawingUnit sampleStaff.m_drawingStaffSize) ∧
    (data_STAFFREL.STAFFREL_above ≠ .STAFFREL_above →
      3 - 2 * sampleDoc.GetDrawingUnit sampleStaff.m_drawingStaffSize <
        View.GetNearestInterStaffPosition sampleDoc 3 sampleStaff .STAFFREL_above ∧
      View.GetNearestInterStaffPosition sampleDoc 3 sampleStaff .STAFFREL_above ≤
        3 - sampleDoc.GetDrawingUnit sampleStaff.m_drawingStaffSize) :=
  C17_nearest_position_moves_amended sampleDoc 3 sampleStaff .STAFFREL_above
    (by decide) (by decide) (by decide)

/-- Without overflow GetNearestInterStaffPosition stays less than two units
away from `y`. -/
theorem GetNearestInterStaffPosition_near (m_doc : Doc) (y : Int) (staff : Staff)
    (place : data_STAFFREL) (hu : 0 < m_doc.GetDrawingUnit staff.m_drawingStaffSize)
    (hy : INT_MIN + 2 * m_doc.GetDrawingUnit staff.m_drawingStaffSize ≤ y ∧
      y ≤ INT_MAX - 2 * m_doc.GetDrawingUnit staff.m_drawingStaffSize)
    (hpos : INT_MIN ≤ y - staff.drawingY ∧ y - staff.drawingY ≤ INT_MAX) :
    y - 2 * m_doc.GetDrawingUnit staff.m_drawingStaffSize <
        View.GetNearestInterStaffPosition m_doc y staff place ∧
      View.GetNearestInterStaffPosition m_doc y staff place <
        y + 2 * m_doc.GetDrawingUnit staff.m_drawingStaffSize := by
  obtain ⟨_, hlo, hhi, _, _⟩ :=
    tmod_unit (y - staff.drawingY) (m_doc.GetDrawingUnit staff.m_drawingStaffSize) hu
  rw [GetNearestInterStaffPosition_exact m_doc y staff place hu hy hpos]
  by_cases hp : place = .STAFFREL_above
  · simp only [hp, if_true]
    split <;> omega
  · simp only [hp, if_false]
    split <;> omega

/-- Without overflow IsOnStaffLine tests whether the offset from the drawing Y
of the staff is a multiple of two units. -/
theorem IsOnStaffLine_iff (m_doc : Doc) (y : Int) (staff : Staff)
    (hpos : INT_MIN ≤ y - staff.drawingY ∧ y - staff.drawingY ≤ INT_MAX)
    (hu2 : INT_MIN ≤ 2 * m_doc.GetDrawingUnit staff.m_drawingStaffSize ∧
      2 * m_doc.GetDrawingUnit staff.m_drawingStaffSize ≤ INT_MAX) :
    View.IsOnStaffLine m_doc y staff = true ↔
      2 * m_doc.GetDrawingUnit staff.m_drawingStaffSize ∣ y - staff.drawingY := by
  unfold View.IsOnStaffLine
  rw [wrapInt_eq _ hpos.1 hpos.2, wrapInt_eq _ hu2.1 hu2.2, Int.dvd_iff_tmod_eq_zero]
  simp

theorem not_two_unit_dvd_odd (u k : Int) (hu : 0 < u) : ¬ (2 * u ∣ (2 * k + 1) * u) := by
  rintro ⟨t, ht⟩
  have h1 : u * (2 * k + 1) = u * (2 * t) := by
    rw [mul_comm u (2 * k + 1), ht]
    ring
  have h2 := Int.eq_of_mul_eq_mul_left (Int.ne_of_gt hu) h1
  omega

/-- C15, refuted as stated: with a drawing unit of 10 and the top line of the
staff at 0, an inside articulation part without placement at the least `int`
is neither above the top nor below the bottom of the staff, and DrawArticPart
places it at 2147483636, whose offset from the drawing Y of the staff is no
multiple of 10. -/
theorem C15_inside_artic_fits_staff_space_counterexample :
    View.DrawArticPart_placeY sampleDoc .ARTIC_PART_INSIDE .STAFFREL_NONE sampleStaff 7 INT_MIN =
      2147483636 ∧
    ¬ (sampleDoc.GetDrawingUnit sampleStaff.m_drawingStaffSize ∣
      View.DrawArticPart_placeY sampleDoc .ARTIC_PART_INSIDE .STAFFREL_NONE sampleStaff 7
        INT_MIN - sampleStaff.drawingY) := by
  decide

/-- C15, amended: for an inside articulation part that is neither above the
top of the staff nor below its bottom, a drawing unit `u > 0`, and a `y` and
an offset of `y` from the drawing Y of the staff both at least three units
away from the ends of the range of `int` (so that no operation overflows),
the `y` that DrawArticPart obtains from GetNearestInterStaffPosition and the
correction for a position on a staff line has an offset from the drawing Y of
the staff that is an odd multiple of `u`; IsOnStaffLine is false for it. -/
theorem C15_inside_artic_fits_staff_space_amended (m_doc : Doc) (place : data_STAFFREL)
    (staff : Staff) (yShift y : Int) (hu : 0 < m_doc.GetDrawingUnit staff.m_drawingStaffSize)
    (hy : INT_MIN + 3 * m_doc.GetDrawingUnit staff.m_drawingStaffSize ≤ y ∧
      y ≤ INT_MAX - 3 * m_doc.GetDrawingUnit staff.m_drawingStaffSize)
    (hpos : INT_MIN + 3 * m_doc.GetDrawingUnit staff.m_drawingStaffSize ≤ y - staff.drawingY ∧
      y - staff.drawingY ≤ INT_MAX - 3 * m_doc.GetDrawingUnit staff.m_drawingStaffSize)
    (hbottom : INT_MIN ≤ staff.drawingY - m_doc.GetDrawingStaffSize staff.m_drawingStaffSize ∧
      staff.drawingY - m_doc.GetDrawingStaffSize staff.m_drawingStaffSize ≤ INT_MAX)
    (hnotAbove : ¬ (place = .STAFFREL_above ∧ y > staff.drawingY))
    (hnotBelow : ¬ (place = .STAFFREL_below ∧
      y < staff.drawingY - m_doc.GetDrawingStaffSize staff.m_drawingStaffSize)) :
    View.DrawArticPart_placeY m_doc .ARTIC_PART_INSIDE place staff yShift y =
      (if View.IsOnStaffLine m_doc (View.GetNearestInterStaffPosition m_doc y staff place) staff
        then View.GetNearestInterStaffPosition m_doc y staff place +
          m_doc.GetDrawingUnit staff.m_drawingStaffSize *
            (if place = .STAFFREL_above then 1 else -1)
        else View.GetNearestInterStaffPosition m_doc y staff place) ∧
    (∃ k, View.DrawArticPart_placeY m_doc .ARTIC_PART_INSIDE place staff yShift y -
        staff.drawingY = (2 * k + 1) * m_doc.GetDrawingUnit staff.m_drawingStaffSize) ∧
    View.IsOnStaffLine m_doc
      (View.DrawArticPart_placeY m_doc .ARTIC_PART_INSIDE place staff yShift y) staff = false := by
  have hy2 : INT_MIN + 2 * m_doc.GetDrawingUnit staff.m_drawingStaffSize ≤ y ∧
      y ≤ INT_MAX - 2 * m_doc.GetDrawingUnit staff.m_drawingStaffSize := by
    constructor <;> omega
  have hpos0 : INT_MIN ≤ y - staff.drawingY ∧ y - staff.drawingY ≤ INT_MAX := by
    constructor <;> omega
  have hu2 : INT_MIN ≤ 2 * m_doc.GetDrawingUnit staff.m_drawingStaffSize ∧
      2 * m_doc.GetDrawingUnit staff.m_drawingStaffSize ≤ INT_MAX := by
    unfold INT_MIN INT_MAX at *
    constructor <;> omega
  -- the nearest position is less than two units away from `y`
  have hnear := GetNearestInterStaffPosition_near m_doc y staff place hu hy2 hpos0
  have hnear_y : INT_MIN + m_doc.GetDrawingUnit staff.m_drawingStaffSize ≤
        View.GetNearestInterStaffPosition m_doc y staff place ∧
      View.GetNearestInterStaffPosition m_doc y staff place ≤
        INT_MAX - m_doc.GetDrawingUnit staff.m_drawingStaffSize := by
    constructor <;> omega
  have hnear_pos : INT_MIN ≤
        View.GetNearestInterStaffPosition m_doc y staff place - staff.drawingY ∧
      View.GetNearestInterStaffPosition m_doc y staff place - staff.drawingY ≤ INT_MAX := by
    constructor <;> omega
  have hdir : wrapInt (m_doc.GetDrawingUnit staff.m_drawingStaffSize *
        (if place = .STAFFREL_above then 1 else -1)) =
      m_doc.GetDrawingUnit staff.m_drawingStaffSize *
        (if place = .STAFFREL_above then 1 else -1) := by
    apply wrapInt_eq
    · unfold INT_MIN INT_MAX at *
      split <;> omega
    · unfold INT_MIN INT_MAX at *
      split <;> omega
  have hval : View.DrawArticPart_placeY m_doc .ARTIC_PART_INSIDE place staff yShift y =
      (if View.IsOnStaffLine m_doc (View.GetNearestInterStaffPosition m_doc y staff place) staff
        then View.GetNearestInterStaffPosition m_doc y staff place +
          m_doc.GetDrawingUnit staff.m_drawingStaffSize *
            (if place = .STAFFREL_above then 1 else -1)
        else View.GetNearestInterStaffPosition m_doc y staff place) := by
    unfold View.DrawArticPart_placeY
    simp only [if_true]
    rw [wrapInt_eq _ hbottom.1 hbottom.2, if_neg hnotAbove, if_neg hnotBelow, hdir]
    split
    · apply wrapInt_eq
      · unfold INT_MIN INT_MAX at *
        split <;> omega
      · unfold INT_MIN INT_MAX at *
        split <;> omega
    · rfl
  obtain ⟨m, hm⟩ := GetNearestInterStaffPosition_on_grid m_doc y staff place hu hy2 hpos0
    (fun hp => by
      by_contra hgt
      exact hnotAbove ⟨hp, by omega⟩)
  have hodd : ∃ k, View.DrawArticPart_placeY m_doc .ARTIC_PART_INSIDE place staff yShift y -
      staff.drawingY = (2 * k + 1) * m_doc.GetDrawingUnit staff.m_drawingStaffSize := by
    rw [hval]
    by_cases hline : View.IsOnStaffLine m_doc
        (View.GetNearestInterStaffPosition m_doc y staff place) staff = true
    · rw [if_pos hline]
      obtain ⟨t, ht⟩ := (IsOnStaffLine_iff m_doc _ staff hnear_pos hu2).mp hline
      by_cases hp : place = .STAFFREL_above
      · refine ⟨t, ?_⟩
        rw [if_pos hp]
        linear_combination ht
      · refine ⟨t - 1, ?_⟩
        rw [if_neg hp]
        linear_combination ht
    · rw [if_neg hline]
      have hnd : ¬ (2 * m_doc.GetDrawingUnit staff.m_drawingStaffSize ∣
          View.GetNearestInterStaffPosition m_doc y staff place - staff.drawingY) :=
        fun hd => hline ((IsOnStaffLine_iff m_doc _ staff hnear_pos hu2).mpr hd)
      rcases Int.even_or_odd m with ⟨t, ht⟩ | ⟨t, ht⟩
      · exfalso
        apply hnd
        refine ⟨t, ?_⟩
        rw [hm, ht]
        ring
      · refine ⟨t, ?_⟩
        rw [hm, ht]
        ring
  refine ⟨hval, hodd, ?_⟩
  obtain ⟨k, hk⟩ := hodd
  have hres_pos : INT_MIN ≤
        View.DrawArticPart_placeY m_doc .ARTIC_PART_INSIDE place staff yShift y -
          staff.drawingY ∧
      View.DrawArticPart_placeY m_doc .ARTIC_PART_INSIDE place staff yShift y -
        staff.drawingY ≤ INT_MAX := by
    rw [hval]
    unfold INT_MIN INT_MAX at *
    constructor <;> split <;> (try split) <;> omega
  cases hline : View.IsOnStaffLine m_doc
      (View.DrawArticPart_placeY m_doc .ARTIC_PART_INSIDE place staff yShift y) staff with
  | false => rfl
  | true =>
    exfalso
    have hd := (IsOnStaffLine_iff m_doc _ staff hres_pos hu2).mp hline
    rw [hk] at hd
    exact not_two_unit_dvd_odd _ k hu hd

/-- Witness for C15, amended: an articulation placed above at 13 units below
the top line of the sample staff. -/
theorem C15_inside_artic_fits_staff_space_amended_witness :
    View.DrawArticPart_placeY sampleDoc .ARTIC_PART_INSIDE .STAFFREL_above sampleStaff 7 (-13) =
      (if View.IsOnStaffLine sampleDoc
          (View.GetNearestInterStaffPosition sampleDoc (-13) sampleStaff .STAFFREL_above)
          sampleStaff
        then View.GetNearestInterStaffPosition sampleDoc (-13) sampleStaff .STAFFREL_above +
          sampleDoc.GetDrawingUnit sampleStaff.m_drawingStaffSize *
            (if data_STAFFREL.STAFFREL_above = .STAFFREL_above then 1 else -1)
        else View.GetNearestInterStaffPosition sampleDoc (-13) sampleStaff .STAFFREL_above) ∧
    (∃ k, View.DrawArticPart_placeY sampleDoc .ARTIC_PART_INSIDE .STAFFREL_above sampleStaff 7
        (-13) - sampleStaff.drawingY =
      (2 * k + 1) * sampleDoc.GetDrawingUnit sampleStaff.m_drawingStaffSize) ∧
    View.IsOnStaffLine sampleDoc
      (View.DrawArticPart_placeY sampleDoc .ARTIC_PART_INSIDE .STAFFREL_above sampleStaff 7
        (-13)) sampleStaff = false :=
  C15_inside_artic_fits_staff_space_amended sampleDoc .STAFFREL_above sampleStaff 7 (-13)
    (by decide) (by decide) (by decide) (by decide) (by decide) (by decide)

/-! ### Key signatures -/

theorem drawAccidLoop_snd (accidY : Int → Int) (code : Nat) (step : Int) :
    ∀ (n : Nat) (i x : Int), (drawAccidLoop accidY code step n i x).2 = x + n * step := by
  intro n
  induction n with
  | zero => intro i x; simp [drawAccidLoop]
  | succ n ih =>
    intro i x
    simp only [drawAccidLoop, ih]
    push_cast
    ring

theorem drawAccidLoop_succ (accidY : Int → Int) (code : Nat) (step : Int) (n : Nat) (i x : Int) :
    (drawAccidLoop accidY code step (n + 1) i x).1 =
      .DrawSmuflCode x (accidY i) code ::
        (drawAccidLoop accidY code step n (i + 1) (x + step)).1 := rfl

theorem drawAccidLoop_no_start (accidY : Int → Int) (code : Nat) (step : Int) :
    ∀ (n : Nat) (i x : Int),
      (drawAccidLoop accidY code step n i x).1.filter DcEvent.isStartGraphic = [] ∧
      (drawAccidLoop accidY code step n i x).1.filter DcEvent.isEndGraphic = [] := by
  intro n
  induction n with
  | zero => intro i x; simp [drawAccidLoop]
  | succ n ih =>
    intro i x
    rw [drawAccidLoop_succ]
    simp [List.filter_cons, DcEvent.isStartGraphic, DcEvent.isEndGraphic, ih]

theorem getLast?_graphic (a e : DcEvent) (l1 l2 : List DcEvent) :
    (a :: (l1 ++ l2 ++ [e])).getLast? = some e := by
  rw [show a :: (l1 ++ l2 ++ [e]) = (a :: (l1 ++ l2)) ++ [e] by simp]
  exact List.getLast?_concat _

/-- The calls of DrawKeySig when it does not return early: one graphic opened,
the naturals, the accidentals, the graphic closed. -/
theorem DrawKeySig_drawn (accidY : Nat → data_ACCIDENTAL_EXPLICIT → Int → Int) (step : Int)
    (clef : Option Nat) (keySig : KeySig) (hdraw : ¬ keySigNotDrawn_spec clef keySig) :
    ∃ c i1, clef = some c ∧
      View.DrawKeySig accidY step clef keySig =
        { setEmptyBB := false,
          events := .StartGraphic keySig.m_uuid ::
            ((drawAccidLoop (accidY c keySig.m_drawingCancelAccidType)
                SMUFL_E261_accidentalNatural step (keySigCancelIterations keySig) i1
                keySig.drawingX).1 ++
              (drawAccidLoop (accidY c keySig.alterationType)
                (if keySig.alterationType = .ACCIDENTAL_EXPLICIT_f then SMUFL_E260_accidentalFlat
                  else SMUFL_E262_accidentalSharp) step keySig.alterationNumber.toNat 0
                (keySig.drawingX + (keySigCancelIterations keySig : Int) * step)).1 ++
              [.EndGraphic]) } := by
  unfold keySigNotDrawn_spec at hdraw
  simp only [not_or, not_and] at hdraw
  obtain ⟨hclef, hshow, hzero, hsys⟩ := hdraw
  cases clef with
  | none => exact absurd rfl hclef
  | some c =>
    have hshow1 : keySig.m_drawingShow = true := by simpa using hshow
    have h3 : ¬ (keySig.alterationNumber = 0 ∧ keySig.m_drawingCancelAccidCount = 0) :=
      fun h => hzero h.1 h.2
    have h4 : ¬ (keySig.scoreDefRole = .SYSTEM_SCOREDEF ∧ keySig.alterationNumber = 0) :=
      fun h => hsys h.2 h.1
    unfold View.DrawKeySig keySigCancelIterations
    simp only [hshow1, Bool.not_true, Bool.false_eq_true, if_false, if_neg h3, if_neg h4]
    by_cases hblock : keySig.scoreDefRole ≠ .SYSTEM_SCOREDEF ∧
        (keySig.alterationNumber = 0 ∨ keySig.m_drawingShowchange = true)
    · rw [if_pos hblock, if_pos hblock]
      by_cases htype : keySig.alterationType ≠ keySig.m_drawingCancelAccidType
      · rw [if_pos htype, if_pos htype]
        exact ⟨c, 0, rfl, by rw [drawAccidLoop_snd]⟩
      · rw [if_neg htype, if_neg htype]
        by_cases hlt : keySig.alterationNumber < keySig.m_drawingCancelAccidCount
        · rw [if_pos hlt, if_pos hlt]
          exact ⟨c, keySig.alterationNumber, rfl, by rw [drawAccidLoop_snd]⟩
        · rw [if_neg hlt, if_neg hlt]
          exact ⟨c, 0, rfl, by simp [drawAccidLoop]⟩
    · rw [if_neg hblock, if_neg hblock]
      exact ⟨c, 0, rfl, by simp [drawAccidLoop]⟩

/-- C19: DrawKeySig calls SetEmptyBB and draws nothing if and only if there is
no clef, or the key signature is hidden, or it has no alteration and no
cancellation accidental, or it has no alteration and belongs to the system
scoreDef. In every other case it does not call SetEmptyBB, and it opens one
graphic, first, and closes one graphic, last. -/
theorem C19_drawKeySig_empty_iff (accidY : Nat → data_ACCIDENTAL_EXPLICIT → Int → Int)
    (step : Int) (clef : Option Nat) (keySig : KeySig) :
    (((View.DrawKeySig accidY step clef keySig).setEmptyBB = true ∧
        (View.DrawKeySig accidY step clef keySig).events = []) ↔
      keySigNotDrawn_spec clef keySig) ∧
    (¬ keySigNotDrawn_spec clef keySig →
      (View.DrawKeySig accidY step clef keySig).setEmptyBB = false ∧
      (View.DrawKeySig accidY step clef keySig).events.filter DcEvent.isStartGraphic =
        [.StartGraphic keySig.m_uuid] ∧
      (View.DrawKeySig accidY step clef keySig).events.head? =
        some (.StartGraphic keySig.m_uuid) ∧
      (View.DrawKeySig accidY step clef keySig).events.filter DcEvent.isEndGraphic =
        [.EndGraphic] ∧
      (View.DrawKeySig accidY step clef keySig).events.getLast? = some .EndGraphic) := by
  have hdrawn : ¬ keySigNotDrawn_spec clef keySig →
      (View.DrawKeySig accidY step clef keySig).setEmptyBB = false ∧
      (View.DrawKeySig accidY step clef keySig).events.filter DcEvent.isStartGraphic =
        [.StartGraphic keySig.m_uuid] ∧
      (View.DrawKeySig accidY step clef keySig).events.head? =
        some (.StartGraphic keySig.m_uuid) ∧
      (View.DrawKeySig accidY step clef keySig).events.filter DcEvent.isEndGraphic =
        [.EndGraphic] ∧
      (View.DrawKeySig accidY step clef keySig).events.getLast? = some .EndGraphic := by
    intro hdraw
    obtain ⟨c, i1, _, hr⟩ := DrawKeySig_drawn accidY step clef keySig hdraw
    rw [hr]
    refine ⟨rfl, ?_, rfl, ?_, ?_⟩
    · simp [List.filter_cons, List.filter_append, DcEvent.isStartGraphic,
        (drawAccidLoop_no_start _ _ _ _ _ _).1]
    · simp [List.filter_cons, List.filter_append, DcEvent.isEndGraphic,
        (drawAccidLoop_no_start _ _ _ _ _ _).2]
    · exact getLast?_graphic _ _ _ _
  refine ⟨⟨?_, ?_⟩, hdrawn⟩
  · intro hempty
    by_contra hdraw
    have := (hdrawn hdraw).1
    rw [hempty.1] at this
    exact Bool.noConfusion this
  · intro hnd
    unfold keySigNotDrawn_spec at hnd
    unfold View.DrawKeySig
    cases clef with
    | none => exact ⟨rfl, rfl⟩
    | some c =>
      simp only
      rcases hnd with h | h | h | h
      · exact absurd h (by simp)
      · simp [h]
      · by_cases hs : keySig.m_drawingShow = true
        · simp [hs, h.1, h.2]
        · have hs1 : keySig.m_drawingShow = false := by simpa using hs
          simp [hs1]
      · by_cases hs : keySig.m_drawingShow = true
        · by_cases hz : keySig.m_drawingCancelAccidCount = 0
          · simp [hs, h.1, hz]
          · simp [hs, h.1, h.2, hz]
        · have hs1 : keySig.m_drawingShow = false := by simpa using hs
          simp [hs1]

/-- The slash loop draws one polygon per iteration, each one step after the
one before. -/
theorem drawSlashLoop_eq_map (x width height step : Int) (n : Nat) (y : Int) :
    drawSlashLoop x width height step n y
      = (List.range n).map (fun (k : Nat) => DcEvent.DrawObliquePolygon (x - width.tdiv 2)
          (y + (k : Int) * step) (x + width.tdiv 2) (y + (k : Int) * step + height) height) := by
  induction n generalizing y with
  | zero => rfl
  | succ n ih =>
    rw [List.range_succ_eq_map, List.map_cons, List.map_map, drawSlashLoop, ih]
    congr 1
    · simp
    · apply List.map_congr_left
      intro k _
      simp only [Function.comp_apply, Nat.cast_succ]
      congr 1 <;> ring

/-- The slashes of a tremolo are evenly spaced polygons, as many as the
integer of the stem modifier less one, `STEMMODIFIER_NONE` counting as
`STEMMODIFIER_3slash`. -/
theorem DrawBTrem_slashes_eq (m_doc : Doc) (intOfDur : data_DURATION → Int)
    (intOfStemMod : data_STEMMODIFIER → Int) (staff : Staff) (child : BTremChild)
    (stemMod : data_STEMMODIFIER) :
    ∃ x1 x2 y height step : Int,
      View.DrawBTrem_slashes m_doc intOfDur intOfStemMod staff child stemMod
        = (List.range (intOfStemMod (if stemMod = .STEMMODIFIER_NONE then .STEMMODIFIER_3slash
              else stemMod) - 1).toNat).map
            (fun (k : Nat) => DcEvent.DrawObliquePolygon x1 (y + (k : Int) * step) x2
              (y + (k : Int) * step + height) height) := by
  unfold View.DrawBTrem_slashes
  exact ⟨_, _, _, _, _, drawSlashLoop_eq_map _ _ _ _ _ _⟩

/-- C21: when the integers of the six slash modifiers are 2 to 7 (a `k`-slash
modifier is `k + 1`), DrawBTrem on a tremolo with a chord or note child draws,
between the `StartGraphic` and the `EndGraphic` of the tremolo and after its
children, exactly `n` evenly spaced slashes, `n` being the number of the
claim: 1 to 6 when the `measperf` is an 8th to a 256th, whatever the stem
modifier of the child; otherwise `k` when the child has a `k`-slash stem
modifier, and 3 when it has no stem or no stem modifier. -/
theorem C21_bTrem_slash_count (m_doc : Doc) (intOfDur : data_DURATION → Int)
    (intOfStemMod : data_STEMMODIFIER → Int) (drawLayerChildren : List DcEvent)
    (bTrem : BTrem) (staff : Staff) (child : BTremChild) (n : Nat)
    (h1 : intOfStemMod .STEMMODIFIER_1slash = 2) (h2 : intOfStemMod .STEMMODIFIER_2slash = 3)
    (h3 : intOfStemMod .STEMMODIFIER_3slash = 4) (h4 : intOfStemMod .STEMMODIFIER_4slash = 5)
    (h5 : intOfStemMod .STEMMODIFIER_5slash = 6) (h6 : intOfStemMod .STEMMODIFIER_6slash = 7)
    (hchild : View.DrawBTrem_child intOfDur bTrem = some child)
    (hn : bTremSlashes_spec bTrem child.stemMod = some n) :
    ∃ x1 x2 y height step : Int,
      View.DrawBTrem m_doc intOfDur intOfStemMod drawLayerChildren bTrem staff
        = { setEmptyBB := false,
            events := .StartGraphic bTrem.m_uuid ::
              (drawLayerChildren ++
                (List.range n).map (fun (k : Nat) => DcEvent.DrawObliquePolygon x1
                  (y + (k : Int) * step) x2 (y + (k : Int) * step + height) height) ++
                [.EndGraphic]) } := by
  obtain ⟨x1, x2, y, height, step, hs⟩ := DrawBTrem_slashes_eq m_doc intOfDur intOfStemMod staff
    child (View.DrawBTrem_measperf bTrem child.stemMod)
  refine ⟨x1, x2, y, height, step, ?_⟩
  have hcount : (intOfStemMod (if View.DrawBTrem_measperf bTrem child.stemMod = .STEMMODIFIER_NONE
      then .STEMMODIFIER_3slash else View.DrawBTrem_measperf bTrem child.stemMod) - 1).toNat
        = n := by
    unfold bTremSlashes_spec at hn
    unfold View.DrawBTrem_measperf
    cases hm : bTrem.hasMeasperf <;> cases hd : bTrem.measperf <;>
      cases hc : child.stemMod <;>
      simp [hm, hd, hc, measperfSlashes_spec, stemModSlashes_spec] at hn ⊢ <;>
      simp [h1, h2, h3, h4, h5, h6, ← hn]
  unfold View.DrawBTrem
  rw [hchild]
  simp only [hs, hcount]

/-- Witness for C21: a tremolo with a `measperf` of a 32nd on a half note whose
stem has a two-slash modifier draws three slashes. -/
theorem C21_bTrem_slash_count_witness :
    bTremSlashes_spec sampleBTrem .STEMMODIFIER_2slash = some 3 ∧
    View.DrawBTrem sampleDoc sampleIntOfDur sampleIntOfStemMod [] sampleBTrem sampleStaff
      = { setEmptyBB := false,
          events := [.StartGraphic "btrem-1", .DrawObliquePolygon 194 19 218 26 7,
            .DrawObliquePolygon 194 7 218 14 7, .DrawObliquePolygon 194 (-5) 218 2 7,
            .EndGraphic] } ∧
    ∃ x1 x2 y height step : Int,
      View.DrawBTrem sampleDoc sampleIntOfDur sampleIntOfStemMod [] sampleBTrem sampleStaff
        = { setEmptyBB := false,
            events := .StartGraphic sampleBTrem.m_uuid ::
              ([] ++
                (List.range 3).map (fun (k : Nat) => DcEvent.DrawObliquePolygon x1
                  (y + (k : Int) * step) x2 (y + (k : Int) * step + height) height) ++
                [.EndGraphic]) } :=
  ⟨rfl, by decide,
    C21_bTrem_slash_count sampleDoc sampleIntOfDur sampleIntOfStemMod [] sampleBTrem sampleStaff
      { childElement := sampleTremNote.toLayerElement
        drawingDur := 5
        stemDir := .STEMDIRECTION_up
        stemMod := .STEMMODIFIER_2slash
        stemPoint := { x := 206, y := -20 }
        drawingCueSize := false } 3 rfl rfl rfl rfl rfl rfl rfl rfl⟩

/-! ### Fermatas -/

end vrv
